import Mathlib

/-! Elf.cpp: reading and validating a 32-bit ELF file.

A shallow embedding of `src/Elf.cpp` (class `Elf`) and theorems about it.

Conventions of the embedding.

* A file is the list of its bytes (`List Byte`, `Byte = Fin 256`).  The member
  `std::ifstream file` is the record `ifstream`: the content, the get position and
  the fail bit.  `seekg` and `read` do nothing but keep the fail bit once it is set,
  as the stream does; nothing in `Elf.cpp` ever clears it.
* Every method of `Elf` is a function from the object to a pair: what the call
  yields (`Except Thrown _`, the `.error` case being a thrown exception) and the
  object as the call leaves it.  The state survives an exception.
* Machine integers are natural numbers.  The three on-disk structures are decoded
  little-endian from the bytes read into them; their fields are below `2^16` or
  `2^32` by construction.  Sums of two `uint32_t` values are taken modulo `2^32`
  (`unsigned int` arithmetic); sums involving `sizeof` are taken modulo `2^64`
  (`size_t` arithmetic on an LP64 target); `off_t` is 64 bits wide, and the
  positions stored in it stay below `2^33`, so they are plain naturals.
  `file_size` holds the length of the file.
* `Elf.hpp` and `types.hpp` are not among the sources.  The record layouts and the
  named constants they declare are modelled from the specification (data model,
  section 3) and the ELF-32 format it describes; each such definition says so.
* The image sink `ImageInterface` is not among the sources either.  It is modelled from
  section 6 of the specification as a policy (`supply`) together with the record of the
  requests made and of the regions filled; `read_image` and `read_image2` take it and
  yield it back, like the object.
-/

/-- One byte of the file. -/
abbrev Byte := Fin 256

/-! ## Exceptions -/

deriving instance DecidableEq for Except

/-- The exceptions thrown in `Elf.cpp`, one constructor per `throw` site, one for the
failing `assert` of `read_image2` and one for an exception thrown by the image sink out
of `image.process`. -/
inductive Thrown where
  | file_open_error
  | file_read_error
  | unsupported_elf_file
  | unsupported_file_version
  | invalid_file_header_size
  | invalid_program_header_file_offset
  | invalid_program_header_size
  | invalid_number_of_program_header_entries
  | invalid_section_header_file_offset
  | invalid_section_header_size
  | invalid_number_of_section_header_entries
  | invalid_section_name_strings_section_index
  | invalid_program_header
  | invalid_section_header
  | invalid_section_index
  | assertion_failed
  | image_rejected
  deriving DecidableEq, Repr

/-- The message carried by each exception, as written in the source. -/
def Thrown.what : Thrown → String
  | .file_open_error => "File open error."
  | .file_read_error => "File read error."
  | .unsupported_elf_file => "Unsupported elf file."
  | .unsupported_file_version => "Unsupported file version."
  | .invalid_file_header_size => "Invalid file header size."
  | .invalid_program_header_file_offset => "Invalid program header file offset."
  | .invalid_program_header_size => "Invalid program header size."
  | .invalid_number_of_program_header_entries => "Invalid number of program header entries."
  | .invalid_section_header_file_offset => "Invalid section header file offset."
  | .invalid_section_header_size => "Invalid section header size."
  | .invalid_number_of_section_header_entries => "Invalid number of section header entries."
  | .invalid_section_name_strings_section_index => "Invalid section name strings section index."
  | .invalid_program_header => "Invalid program header."
  | .invalid_section_header => "Invalid section header."
  | .invalid_section_index => "Invalid section index."
  | .assertion_failed => "hdr.flags & SHF_ALLOC"
  | .image_rejected => "image.process"

/-! ## On-disk records (declared in `Elf.hpp`) -/

/-- Modelled from the spec: `Elf.hpp` (the declaration of `Elf32_Ehdr`) is missing.
The fields are those of the FileHeader of the data model, in the order given there:
16 identification bytes, then `type`, `machine` (16 bits), `version`, `entry`,
`phoff`, `shoff`, `flags` (32 bits), and `ehsize`, `phentsize`, `phnum`,
`shentsize`, `shnum`, `shstrndx` (16 bits). -/
structure Elf32_Ehdr where
  ident : List Byte
  type : Nat
  machine : Nat
  version : Nat
  entry : Nat
  phoff : Nat
  shoff : Nat
  flags : Nat
  ehsize : Nat
  phentsize : Nat
  phnum : Nat
  shentsize : Nat
  shnum : Nat
  shstrndx : Nat
  deriving DecidableEq, Repr

/-- Modelled from the spec: `Elf.hpp` (the declaration of `Elf32_Phdr`) is missing.
The fields are those of the ProgramHeaderEntry of the data model, each 32 bits. -/
structure Elf32_Phdr where
  type : Nat
  off : Nat
  vaddr : Nat
  paddr : Nat
  filesz : Nat
  memsz : Nat
  flags : Nat
  align : Nat
  deriving DecidableEq, Repr

/-- Modelled from the spec: `Elf.hpp` (the declaration of `Elf32_Shdr`) is missing.
The fields are those of the SectionHeaderEntry of the data model, each 32 bits. -/
structure Elf32_Shdr where
  name : Nat
  type : Nat
  flags : Nat
  vaddr : Nat
  off : Nat
  size : Nat
  link : Nat
  info : Nat
  addralign : Nat
  entsize : Nat
  deriving DecidableEq, Repr

/-- Modelled from the spec: `sizeof(Elf32_Ehdr)`, the fixed header size (16 + 2·2 + 5·4 + 6·2). -/
def sizeof_Elf32_Ehdr : Nat := 52

/-- Modelled from the spec: `sizeof(Elf32_Phdr)`, the fixed program-entry size (8·4). -/
def sizeof_Elf32_Phdr : Nat := 32

/-- Modelled from the spec: `sizeof(Elf32_Shdr)`, the fixed section-entry size (10·4). -/
def sizeof_Elf32_Shdr : Nat := 40

/-- Modelled from the spec: `EV_CURRENT`, the expected current value of the version field
(1 in the ELF format). -/
def EV_CURRENT : Nat := 1

/-- Modelled from the spec: `PT_LOAD`, the type of a loadable segment (1 in the ELF
format). -/
def PT_LOAD : Nat := 1

/-- Modelled from the spec: `SHT_PROGBITS`, the type of a section of program-defined data
(1 in the ELF format). -/
def SHT_PROGBITS : Nat := 1

/-- Modelled from the spec: `SHT_NOBITS`, the type of a section that takes no file space
(8 in the ELF format). -/
def SHT_NOBITS : Nat := 8

/-- Modelled from the spec: `SHF_ALLOC`, the flag bit of an allocatable section (2 in the
ELF format). -/
def SHF_ALLOC : Nat := 2

/-- The value of a little-endian byte string. -/
def le_value : List Byte → Nat
  | [] => 0
  | b :: bs => b.val + 256 * le_value bs

/-- The `n`-byte little-endian field at offset `off` of a buffer. -/
def le_field (buf : List Byte) (off n : Nat) : Nat :=
  le_value ((buf.drop off).take n)

/-- An `Elf32_Ehdr` as the 52 bytes read into it are seen by a little-endian host. -/
def Elf32_Ehdr.decode (buf : List Byte) : Elf32_Ehdr where
  ident := buf.take 16
  type := le_field buf 16 2
  machine := le_field buf 18 2
  version := le_field buf 20 4
  entry := le_field buf 24 4
  phoff := le_field buf 28 4
  shoff := le_field buf 32 4
  flags := le_field buf 36 4
  ehsize := le_field buf 40 2
  phentsize := le_field buf 42 2
  phnum := le_field buf 44 2
  shentsize := le_field buf 46 2
  shnum := le_field buf 48 2
  shstrndx := le_field buf 50 2

/-- An `Elf32_Phdr` as the 32 bytes read into it are seen by a little-endian host. -/
def Elf32_Phdr.decode (buf : List Byte) : Elf32_Phdr where
  type := le_field buf 0 4
  off := le_field buf 4 4
  vaddr := le_field buf 8 4
  paddr := le_field buf 12 4
  filesz := le_field buf 16 4
  memsz := le_field buf 20 4
  flags := le_field buf 24 4
  align := le_field buf 28 4

/-- An `Elf32_Shdr` as the 40 bytes read into it are seen by a little-endian host. -/
def Elf32_Shdr.decode (buf : List Byte) : Elf32_Shdr where
  name := le_field buf 0 4
  type := le_field buf 4 4
  flags := le_field buf 8 4
  vaddr := le_field buf 12 4
  off := le_field buf 16 4
  size := le_field buf 20 4
  link := le_field buf 24 4
  info := le_field buf 28 4
  addralign := le_field buf 32 4
  entsize := le_field buf 36 4

/-- A value-initialised `Elf32_Ehdr`. -/
def Elf32_Ehdr.zero : Elf32_Ehdr :=
  ⟨List.replicate 16 0, 0, 0, 0, 0, 0, 0, 0, 0, 0, 0, 0, 0, 0⟩

/-- A value-initialised `Elf32_Phdr`, as `std::vector::resize` creates it. -/
def Elf32_Phdr.zero : Elf32_Phdr := ⟨0, 0, 0, 0, 0, 0, 0, 0⟩

/-- A value-initialised `Elf32_Shdr`, as `std::vector::resize` creates it. -/
def Elf32_Shdr.zero : Elf32_Shdr := ⟨0, 0, 0, 0, 0, 0, 0, 0, 0, 0⟩

/-- The `n` low-order bytes of `v`, least significant first. -/
def le_bytes : Nat → Nat → List Byte
  | 0, _ => []
  | n + 1, v => Fin.ofNat (v % 256) :: le_bytes n (v / 256)

/-- The 52 bytes of a file header, on disk and in memory. -/
def Elf32_Ehdr.encode (h : Elf32_Ehdr) : List Byte :=
  h.ident ++ le_bytes 2 h.type ++ le_bytes 2 h.machine ++ le_bytes 4 h.version ++
    le_bytes 4 h.entry ++ le_bytes 4 h.phoff ++ le_bytes 4 h.shoff ++ le_bytes 4 h.flags ++
    le_bytes 2 h.ehsize ++ le_bytes 2 h.phentsize ++ le_bytes 2 h.phnum ++
    le_bytes 2 h.shentsize ++ le_bytes 2 h.shnum ++ le_bytes 2 h.shstrndx

/-- The 32 bytes of a program header entry, on disk and in memory. -/
def Elf32_Phdr.encode (p : Elf32_Phdr) : List Byte :=
  le_bytes 4 p.type ++ le_bytes 4 p.off ++ le_bytes 4 p.vaddr ++ le_bytes 4 p.paddr ++
    le_bytes 4 p.filesz ++ le_bytes 4 p.memsz ++ le_bytes 4 p.flags ++ le_bytes 4 p.align

/-- The 40 bytes of a section header entry, on disk and in memory. -/
def Elf32_Shdr.encode (s : Elf32_Shdr) : List Byte :=
  le_bytes 4 s.name ++ le_bytes 4 s.type ++ le_bytes 4 s.flags ++ le_bytes 4 s.vaddr ++
    le_bytes 4 s.off ++ le_bytes 4 s.size ++ le_bytes 4 s.link ++ le_bytes 4 s.info ++
    le_bytes 4 s.addralign ++ le_bytes 4 s.entsize

/-- `ElfSection` (declared in `Elf.hpp`): a section header and the buffer holding the
section's bytes; a null `buffer` is the empty list. -/
structure ElfSection where
  header : Elf32_Shdr
  buffer : List Byte
  deriving DecidableEq, Repr

/-! ## The C library and the stream -/

/-- `std::strncmp`: compares at most `count` characters of two byte strings, as
unsigned characters, and stops after a NUL found in both.  A list stands for the
characters of an array; a position past its end reads as NUL. -/
def strncmp : List Byte → List Byte → Nat → Int
  | _, _, 0 => 0
  | lhs, rhs, count + 1 =>
    if lhs.headD 0 ≠ rhs.headD 0 then ((lhs.headD 0).val : Int) - ((rhs.headD 0).val : Int)
    else if lhs.headD 0 = 0 then 0
    else strncmp lhs.tail rhs.tail count

/-- `std::ifstream` opened in binary mode on a file with the given content. -/
structure ifstream where
  content : List Byte
  pos : Nat
  failbit : Bool
  deriving DecidableEq, Repr

/-- `seekg(pos, std::ios_base::beg)`: sets the get position unless the stream has
failed.  Seeking past the end of the file is not an error. -/
def ifstream.seekg (f : ifstream) (pos : Nat) : ifstream :=
  if f.failbit then f else { f with pos := pos }

/-- `seekg(0, std::ios_base::end)`. -/
def ifstream.seekg_end (f : ifstream) : ifstream :=
  if f.failbit then f else { f with pos := f.content.length }

/-- `tellg()` of a stream that has not failed. -/
def ifstream.tellg (f : ifstream) : Nat := f.pos

/-- `read(s, count)`: extracts `count` characters from the get position, or those
left before the end of the file, in which case the fail bit is set.  Returns the
characters extracted and the stream. -/
def ifstream.read (f : ifstream) (count : Nat) : List Byte × ifstream :=
  if f.failbit then ([], f)
  else
    let got := (f.content.drop f.pos).take count
    (got, { f with pos := f.pos + got.length, failbit := decide (got.length < count) })

/-- The bytes of the array `buf` after `read` has stored the characters `got` at its
start: the rest of the array is as it was. -/
def read_into (buf got : List Byte) : List Byte :=
  got ++ buf.drop got.length

/-! ## class Elf -/

/-- The data members of `class Elf` (declared in `Elf.hpp`). -/
structure Elf where
  file : ifstream
  file_size : Nat
  file_header : Elf32_Ehdr
  sections : List Elf32_Shdr
  programs : List Elf32_Phdr
  strings : ElfSection
  deriving DecidableEq, Repr

/-- `std::vector::resize(n)` on a vector of records: keeps the first `n` elements and
appends value-initialised ones up to length `n`. -/
def vector_resize {α : Type} (zero : α) (v : List α) (n : Nat) : List α :=
  v.take n ++ List.replicate (n - v.length) zero

/-- `Elf::read`: reads `size` bytes at the get position into a buffer; throws
"File read error." when the stream has failed.  The bytes are returned; what a
failed read leaves in the buffer is said where the buffer is looked at afterwards
(`Elf.read_section`). -/
def Elf.read (e : Elf) (size : Nat) : Except Thrown (List Byte) × Elf :=
  let r := e.file.read size
  if r.2.failbit then (.error .file_read_error, { e with file := r.2 })
  else (.ok r.1, { e with file := r.2 })

/-- The constant `supported_header` of `read_header`, "\177ELF\x01\x01\x01" with its
terminating NUL: ELFMAG ELFCLASS32 ELFDATA2LSB EV_CURRENT. -/
def supported_header : List Byte := [0x7f, 0x45, 0x4c, 0x46, 0x01, 0x01, 0x01, 0x00]

/-- `sizeof(supported_header)`. -/
def sizeof_supported_header : Nat := 8

/-- `Elf::read_header`. -/
def Elf.read_header (e : Elf) : Except Thrown Unit × Elf :=
  let e := { e with file := e.file.seekg 0 }
  match e.read sizeof_Elf32_Ehdr with
  | (.error ex, e) => (.error ex, e)
  | (.ok buf, e) =>
    let e := { e with file_header := Elf32_Ehdr.decode buf }
    if strncmp e.file_header.ident supported_header (sizeof_supported_header - 1) ≠ 0 then
      (.error .unsupported_elf_file, e)
    else if e.file_header.version ≠ EV_CURRENT then
      (.error .unsupported_file_version, e)
    else if e.file_header.ehsize < sizeof_Elf32_Ehdr then
      (.error .invalid_file_header_size, e)
    else if e.file_header.phoff ≥ e.file_size then
      (.error .invalid_program_header_file_offset, e)
    else if e.file_header.phentsize < sizeof_Elf32_Phdr then
      (.error .invalid_program_header_size, e)
    else if (e.file_header.phoff + e.file_header.phnum * sizeof_Elf32_Phdr) % 2 ^ 64
        > e.file_size then
      (.error .invalid_number_of_program_header_entries, e)
    else if e.file_header.shoff ≥ e.file_size then
      (.error .invalid_section_header_file_offset, e)
    else if e.file_header.shentsize < sizeof_Elf32_Shdr then
      (.error .invalid_section_header_size, e)
    else if (e.file_header.shoff + e.file_header.shnum * sizeof_Elf32_Shdr) % 2 ^ 64
        > e.file_size then
      (.error .invalid_number_of_section_header_entries, e)
    else if e.file_header.shstrndx ≥ e.file_header.shnum then
      (.error .invalid_section_name_strings_section_index, e)
    else (.ok (), e)

/-- The condition under which `read_programs` throws "Invalid program header." for an
entry just read. -/
def Elf32_Phdr.invalid (p : Elf32_Phdr) (file_size : Nat) : Bool :=
  decide (p.filesz > p.memsz) ||
    (decide (p.off ≠ 0) && decide ((p.off + p.filesz) % 2 ^ 32 > file_size))

/-- The loop of `Elf::read_programs`, with `count` iterations left to run, the loop
variable at `idx` and the file position at `pos`. -/
def Elf.read_programs_loop : Nat → Nat → Nat → Elf → Except Thrown Unit × Elf
  | 0, _, _, e => (.ok (), e)
  | count + 1, idx, pos, e =>
    let e := { e with file := e.file.seekg pos }
    match e.read sizeof_Elf32_Phdr with
    | (.error ex, e) => (.error ex, e)
    | (.ok buf, e) =>
      let e := { e with programs := e.programs.set idx (Elf32_Phdr.decode buf) }
      if (Elf32_Phdr.decode buf).invalid e.file_size then
        (.error .invalid_program_header, e)
      else
        Elf.read_programs_loop count (idx + 1) (pos + e.file_header.phentsize) e

/-- `Elf::read_programs`. -/
def Elf.read_programs (e : Elf) : Except Thrown Unit × Elf :=
  let e := { e with programs := vector_resize Elf32_Phdr.zero e.programs e.file_header.phnum }
  Elf.read_programs_loop e.file_header.phnum 0 e.file_header.phoff e

/-- The condition under which `read_sections` throws "Invalid section header." for an
entry just read. -/
def Elf32_Shdr.invalid (s : Elf32_Shdr) (file_size : Nat) : Bool :=
  decide (s.type ≠ SHT_NOBITS) && decide ((s.off + s.size) % 2 ^ 32 > file_size)

/-- The loop of `Elf::read_sections`, with `count` iterations left to run, the loop
variable at `idx` and the file position at `pos`. -/
def Elf.read_sections_loop : Nat → Nat → Nat → Elf → Except Thrown Unit × Elf
  | 0, _, _, e => (.ok (), e)
  | count + 1, idx, pos, e =>
    let e := { e with file := e.file.seekg pos }
    match e.read sizeof_Elf32_Shdr with
    | (.error ex, e) => (.error ex, e)
    | (.ok buf, e) =>
      let e := { e with sections := e.sections.set idx (Elf32_Shdr.decode buf) }
      if (Elf32_Shdr.decode buf).invalid e.file_size then
        (.error .invalid_section_header, e)
      else
        Elf.read_sections_loop count (idx + 1) (pos + e.file_header.shentsize) e

/-- `Elf::read_sections`. -/
def Elf.read_sections (e : Elf) : Except Thrown Unit × Elf :=
  let e := { e with sections := vector_resize Elf32_Shdr.zero e.sections e.file_header.shnum }
  Elf.read_sections_loop e.file_header.shnum 0 e.file_header.shoff e

/-- `Elf::read_section`.  The section `sect` is passed by reference: the call yields it
back, also when it throws.  The position of the header is computed in `unsigned int`.
A read that fails leaves in its destination the characters it did extract: in the bytes
of `sect.header` for the first read, in the buffer for the second.  The buffer is a
fresh array of `header.size` bytes, whose indeterminate content is shown as zeros. -/
def Elf.read_section (e : Elf) (sect : ElfSection) (index : Nat) :
    Except Thrown Unit × Elf × ElfSection :=
  if index ≥ e.sections.length then (.error .invalid_section_index, e, sect)
  else
    let pos := (e.file_header.shoff + index * e.file_header.shentsize) % 2 ^ 32
    let e := { e with file := e.file.seekg pos }
    match e.read sizeof_Elf32_Shdr with
    | (.error ex, e2) =>
      let got := (e.file.read sizeof_Elf32_Shdr).1
      (.error ex, e2, { sect with header := Elf32_Shdr.decode (read_into sect.header.encode got) })
    | (.ok buf, e) =>
      let sect := { sect with header := Elf32_Shdr.decode buf }
      let e := { e with file := e.file.seekg sect.header.off }
      match e.read sect.header.size with
      | (.error ex, e2) =>
        let got := (e.file.read sect.header.size).1
        (.error ex, e2,
          { sect with buffer := read_into (List.replicate sect.header.size 0) got })
      | (.ok bytes, e) => (.ok (), e, { sect with buffer := bytes })

/-- The object at the start of the constructor body, right after the stream has been
opened on a file with the given content: the vectors are empty, `strings` has a null
buffer, and the records not yet read are shown as zeros. -/
def Elf.opened (content : List Byte) : Elf where
  file := ⟨content, 0, false⟩
  file_size := 0
  file_header := Elf32_Ehdr.zero
  sections := []
  programs := []
  strings := ⟨Elf32_Shdr.zero, []⟩

/-- The object when the constructor has measured the file: `file.seekg(0, end)` and
`file_size = file.tellg()`. -/
def Elf.sized (content : List Byte) : Elf :=
  let e := Elf.opened content
  let e := { e with file := e.file.seekg_end }
  { e with file_size := e.file.tellg }

/-- The constructor `Elf::Elf(path)` (named `construct`, as `Elf.Elf` would hide the type
`Elf` in its own namespace).  The argument is the content of the file at
`path`, or `none` when it cannot be opened.  An exception leaves no object. -/
def Elf.construct (path : Option (List Byte)) : Except Thrown Elf :=
  match path with
  | none => .error .file_open_error
  | some content =>
    let e := Elf.sized content
    match e.read_header with
    | (.error ex, _) => .error ex
    | (.ok _, e) =>
      match e.read_sections with
      | (.error ex, _) => .error ex
      | (.ok _, e) =>
        match e.read_section e.strings e.file_header.shstrndx with
        | (.error ex, _, _) => .error ex
        | (.ok _, e, s) =>
          let e := { e with strings := s }
          match e.read_programs with
          | (.error ex, _) => .error ex
          | (.ok _, e) => .ok e

/-! ## The image sink and the image builders -/

/-- Modelled from the spec: a region of the image sink (section 6, "Image sink"), with
the address and length it was requested for and the bytes it holds. -/
structure ImageRegion where
  address : Nat
  size : Nat
  content : List Byte
  deriving DecidableEq, Repr

/-- Modelled from the spec: `ImageInterface` is declared in a header that is not among
the sources.  It is the image sink of section 6: one operation that, for an address and a
length, hands out a writable region or throws.  `supply` is the sink's policy: given the
regions filled so far, the address and the length, the bytes of the region it hands
out (its own initialisation), or `none` when it rejects the request.  `calls` records the
requests made, `regions` the regions handed out and filled by the caller.  Regions are
independent buffers. -/
structure ImageInterface where
  supply : List ImageRegion → Nat → Nat → Option (List Byte)
  calls : List (Nat × Nat)
  regions : List ImageRegion

/-- Modelled from the spec: `image.process(address, size)`, the one operation of the
sink: the request is recorded; the sink hands out a region or throws. -/
def ImageInterface.process (image : ImageInterface) (address size : Nat) :
    Except Thrown (List Byte) × ImageInterface :=
  match image.supply image.regions address size with
  | none => (.error .image_rejected, { image with calls := image.calls ++ [(address, size)] })
  | some buf => (.ok buf, { image with calls := image.calls ++ [(address, size)] })

/-- The region handed out for `(address, size)` as the caller leaves it, holding
`content`. -/
def ImageInterface.filled (image : ImageInterface) (address size : Nat)
    (content : List Byte) : ImageInterface :=
  { image with regions := image.regions ++ [⟨address, size, content⟩] }

/-- The loop of `Elf::read_image` over the program header entries still to visit.  A
read of `filesz` bytes into the region `buf` replaces its first `filesz` bytes; what a
failed read leaves in the region is not modelled. -/
def Elf.read_image_loop :
    List Elf32_Phdr → Elf → ImageInterface → Except Thrown Unit × Elf × ImageInterface
  | [], e, image => (.ok (), e, image)
  | hdr :: rest, e, image =>
    if hdr.type ≠ PT_LOAD ∨ hdr.filesz = 0 then Elf.read_image_loop rest e image
    else
      match image.process hdr.paddr hdr.memsz with
      | (.error ex, image) => (.error ex, e, image)
      | (.ok buf, image) =>
        let e := { e with file := e.file.seekg hdr.off }
        match e.read hdr.filesz with
        | (.error ex, e) => (.error ex, e, image)
        | (.ok bytes, e) =>
          Elf.read_image_loop rest e
            (image.filled hdr.paddr hdr.memsz (bytes ++ buf.drop hdr.filesz))

/-- `Elf::read_image`: the image built from the program headers. -/
def Elf.read_image (e : Elf) (image : ImageInterface) :
    Except Thrown Unit × Elf × ImageInterface :=
  Elf.read_image_loop e.programs e image

/-- The loop of `Elf::read_image2` over the section header entries still to visit.  The
`assert` is compiled in; when it fails the call ends there. -/
def Elf.read_image2_loop :
    List Elf32_Shdr → Elf → ImageInterface → Except Thrown Unit × Elf × ImageInterface
  | [], e, image => (.ok (), e, image)
  | hdr :: rest, e, image =>
    if hdr.type ≠ SHT_PROGBITS then Elf.read_image2_loop rest e image
    else if hdr.flags &&& SHF_ALLOC = 0 then (.error .assertion_failed, e, image)
    else
      match image.process hdr.vaddr hdr.size with
      | (.error ex, image) => (.error ex, e, image)
      | (.ok buf, image) =>
        let e := { e with file := e.file.seekg hdr.off }
        match e.read hdr.size with
        | (.error ex, e) => (.error ex, e, image)
        | (.ok bytes, e) =>
          Elf.read_image2_loop rest e
            (image.filled hdr.vaddr hdr.size (bytes ++ buf.drop hdr.size))

/-- `Elf::read_image2`: the image built from the section headers. -/
def Elf.read_image2 (e : Elf) (image : ImageInterface) :
    Except Thrown Unit × Elf × ImageInterface :=
  Elf.read_image2_loop e.sections e image

/-! ## Building concrete files -/

/-- The identification bytes of the one supported profile: the magic, ELFCLASS32,
ELFDATA2LSB, EV_CURRENT, and nine bytes of padding. -/
def supported_ident : List Byte :=
  [0x7f, 0x45, 0x4c, 0x46, 0x01, 0x01, 0x01] ++ List.replicate 9 0

/-- The bytes of a file at offsets `pos .. pos + n - 1` (fewer if the file ends before). -/
def file_bytes (content : List Byte) (pos n : Nat) : List Byte :=
  (content.drop pos).take n

/-- A well-formed header: one section header entry of 40 bytes at offset 52, which is
also the section of the section names, and one program header entry of 32 bytes at
offset 92. -/
def minimal_header : Elf32_Ehdr :=
  { ident := supported_ident, type := 2, machine := 40, version := 1, entry := 0,
    phoff := 92, shoff := 52, flags := 0, ehsize := 52, phentsize := 32, phnum := 1,
    shentsize := 40, shnum := 1, shstrndx := 0 }

/-- The 124-byte file of the given header followed by an empty section header entry at
offset 52 and an empty program header entry at offset 92. -/
def file_of_header (h : Elf32_Ehdr) : List Byte :=
  h.encode ++ Elf32_Shdr.zero.encode ++ Elf32_Phdr.zero.encode

/-- A well-formed 124-byte file. -/
def file_minimal : List Byte := file_of_header minimal_header

/-- The file `file_minimal` with the program header entry declared to be 64 bytes long. -/
def file_phentsize_64 : List Byte :=
  file_of_header { minimal_header with phentsize := 64 }

/-- A 124-byte file: the header, one program header entry at offset 52 and one section
header entry at offset 84, which the header declares to be 48 bytes long. -/
def file_shentsize_48 : List Byte :=
  Elf32_Ehdr.encode { minimal_header with phoff := 52, shoff := 84, shentsize := 48 } ++
  Elf32_Phdr.encode Elf32_Phdr.zero ++
  Elf32_Shdr.encode Elf32_Shdr.zero

/-- A program header entry whose file extent starts at offset `0xFFFFFFFF` and is two
bytes long. -/
def phdr_wrapping : Elf32_Phdr :=
  { type := PT_LOAD, off := 0xFFFFFFFF, vaddr := 0, paddr := 0, filesz := 2, memsz := 2,
    flags := 0, align := 0 }

/-- A 124-byte file: the header, an empty section header entry at offset 52 and the
program header entry `phdr_wrapping` at offset 92. -/
def file_phdr_wrapping : List Byte :=
  Elf32_Ehdr.encode minimal_header ++
  Elf32_Shdr.encode Elf32_Shdr.zero ++
  Elf32_Phdr.encode phdr_wrapping

/-- A section header entry of type `SHT_PROGBITS` whose file extent starts at offset
`0xFFFFFFFF` and is two bytes long. -/
def shdr_wrapping : Elf32_Shdr :=
  { name := 0, type := SHT_PROGBITS, flags := SHF_ALLOC, vaddr := 0, off := 0xFFFFFFFF,
    size := 2, link := 0, info := 0, addralign := 0, entsize := 0 }

/-- A 132-byte file: the header and two section header entries at offset 52, an empty
one (the section of the section names) and `shdr_wrapping`; there is no program header
entry. -/
def file_shdr_wrapping : List Byte :=
  Elf32_Ehdr.encode { minimal_header with phoff := 52, phnum := 0, shnum := 2 } ++
  Elf32_Shdr.encode Elf32_Shdr.zero ++
  Elf32_Shdr.encode shdr_wrapping

/-- The file `file_minimal` with `shstrndx` equal to `shnum`. -/
def file_shstrndx_eq_shnum : List Byte :=
  file_of_header { minimal_header with shstrndx := 1 }

/-- The file `file_minimal` with the version field set to 2. -/
def file_version_2 : List Byte :=
  file_of_header { minimal_header with version := 2 }

/-- The file `file_minimal` with a NUL in place of the sixth identification byte. -/
def file_ident_nul : List Byte :=
  file_of_header { minimal_header with
    ident := [0x7f, 0x45, 0x4c, 0x46, 0x01, 0x00, 0x01] ++ List.replicate 9 0 }

/-- A program header entry with more bytes in the file than in memory. -/
def phdr_filesz_gt_memsz : Elf32_Phdr :=
  { type := PT_LOAD, off := 0, vaddr := 0, paddr := 0, filesz := 5, memsz := 4,
    flags := 0, align := 0 }

/-- A 156-byte file: a header declaring two program header entries at offset 92, an empty
section header entry, an empty program header entry and `phdr_filesz_gt_memsz`. -/
def file_filesz_gt_memsz : List Byte :=
  Elf32_Ehdr.encode { minimal_header with phnum := 2 } ++
  Elf32_Shdr.encode Elf32_Shdr.zero ++
  Elf32_Phdr.encode Elf32_Phdr.zero ++
  Elf32_Phdr.encode phdr_filesz_gt_memsz

/-- A section header entry of type `SHT_NOBITS` whose extent lies outside any small
file. -/
def shdr_nobits : Elf32_Shdr :=
  { name := 0, type := SHT_NOBITS, flags := 3, vaddr := 0x20000000, off := 4096,
    size := 4096, link := 0, info := 0, addralign := 4, entsize := 0 }

/-- A 132-byte file: the header and two section header entries at offset 52, an empty
one (the section of the section names) and `shdr_nobits`; there is no program header
entry. -/
def file_nobits : List Byte :=
  Elf32_Ehdr.encode { minimal_header with phoff := 52, phnum := 0, shnum := 2 } ++
  Elf32_Shdr.encode Elf32_Shdr.zero ++
  Elf32_Shdr.encode shdr_nobits

/-- A section header entry of type `SHT_PROGBITS` with the given file extent. -/
def shdr_progbits (off size : Nat) : Elf32_Shdr :=
  { name := 0, type := SHT_PROGBITS, flags := SHF_ALLOC, vaddr := 0, off := off,
    size := size, link := 0, info := 0, addralign := 0, entsize := 0 }

/-- A 132-byte file: the header and two section header entries at offset 52, an empty
one (the section of the section names) and a `SHT_PROGBITS` one with the given extent;
there is no program header entry. -/
def file_progbits (off size : Nat) : List Byte :=
  Elf32_Ehdr.encode { minimal_header with phoff := 52, phnum := 0, shnum := 2 } ++
  Elf32_Shdr.encode Elf32_Shdr.zero ++
  Elf32_Shdr.encode (shdr_progbits off size)

/-- The object as `read_header` leaves it once it has read the 52 bytes of the header of a
file that has them: the get position is 52 and `file_header` holds those bytes. -/
def Elf.with_header (e : Elf) : Elf :=
  { e with file := { e.file with pos := 52 },
           file_header := Elf32_Ehdr.decode (e.file.content.take 52) }

/-- The object after an iteration of the loop of `read_programs` has read the entry at
`pos` into `programs[idx]`. -/
def Elf.with_program (e : Elf) (idx pos : Nat) : Elf :=
  { e with file := { e.file with pos := pos + 32 },
           programs := e.programs.set idx
             (Elf32_Phdr.decode (file_bytes e.file.content pos 32)) }

/-- The entry of index `i` of the program header table, as the header locates it. -/
def Elf.program_entry (e : Elf) (i : Nat) : Elf32_Phdr :=
  Elf32_Phdr.decode (file_bytes e.file.content
    (e.file_header.phoff + i * e.file_header.phentsize) sizeof_Elf32_Phdr)

/-- The object after an iteration of the loop of `read_sections` has read the entry at
`pos` into `sections[idx]`. -/
def Elf.with_section (e : Elf) (idx pos : Nat) : Elf :=
  { e with file := { e.file with pos := pos + 40 },
           sections := e.sections.set idx
             (Elf32_Shdr.decode (file_bytes e.file.content pos 40)) }

/-- The entry of index `i` of the section header table, as the header locates it. -/
def Elf.section_entry (e : Elf) (i : Nat) : Elf32_Shdr :=
  Elf32_Shdr.decode (file_bytes e.file.content
    (e.file_header.shoff + i * e.file_header.shentsize) sizeof_Elf32_Shdr)

/-- A sink that accepts every request and hands out zero-filled regions of the requested
length; no request has been made yet. -/
def sink_zero : ImageInterface :=
  { supply := fun _ _ size => some (List.replicate size 0), calls := [], regions := [] }

/-- A sink that rejects every request. -/
def sink_rejecting : ImageInterface :=
  { supply := fun _ _ _ => none, calls := [], regions := [] }

/-- The file `file_minimal` with the program header entry declared to be 16 bytes long
and the program header table placed at the end of the file. -/
def file_phentsize_16 : List Byte :=
  file_of_header { minimal_header with phoff := 124, phentsize := 16 }

/-- The section header that `read_section` reads for `index`: the 40 bytes at the
position it seeks to, `shoff + index * shentsize` computed in `unsigned int`. -/
def Elf.reread_header (e : Elf) (index : Nat) : Elf32_Shdr :=
  Elf32_Shdr.decode (file_bytes e.file.content
    ((e.file_header.shoff + index * e.file_header.shentsize) % 2 ^ 32) sizeof_Elf32_Shdr)

/-- A program header entry of a loadable segment: `filesz` bytes of the file at
offset `off`, for the `memsz` bytes at address `paddr`. -/
def phdr_load (off paddr filesz memsz : Nat) : Elf32_Phdr :=
  { type := PT_LOAD, off := off, vaddr := paddr, paddr := paddr, filesz := filesz,
    memsz := memsz, flags := 5, align := 4 }

/-- A 172-byte file whose header declares two program header entries of 48 bytes at
offset 92: an empty section header entry at offset 52, the entry `phdr_load 52 4096 8 8`
at offset 92, sixteen bytes `0xAA` that belong to no structure, and the entry
`phdr_load 60 8192 4 16` at offset 140. -/
def file_stride_48 : List Byte :=
  Elf32_Ehdr.encode { minimal_header with phentsize := 48, phnum := 2 } ++
  Elf32_Shdr.encode Elf32_Shdr.zero ++
  Elf32_Phdr.encode (phdr_load 52 4096 8 8) ++
  List.replicate 16 0xAA ++
  Elf32_Phdr.encode (phdr_load 60 8192 4 16)

/-- A section header entry of type `SHT_STRTAB` (3) for the `size` bytes at offset `off`. -/
def shdr_strtab (off size : Nat) : Elf32_Shdr :=
  { name := 1, type := 3, flags := 0, vaddr := 0, off := off, size := size, link := 0,
    info := 0, addralign := 1, entsize := 0 }

/-- A 134-byte file: the header (no program header entry), at offset 52 two section
header entries, an empty one and `shdr_strtab 132 2`, which is the section of the
section names, and at offset 132 the two bytes `00 61` of that section. -/
def file_strtab : List Byte :=
  Elf32_Ehdr.encode
    { minimal_header with phoff := 52, phnum := 0, shnum := 2, shstrndx := 1 } ++
  Elf32_Shdr.encode Elf32_Shdr.zero ++
  Elf32_Shdr.encode (shdr_strtab 132 2) ++
  [0x00, 0x61]

/-- A section object not yet filled: a zero header and a null buffer. -/
def ElfSection.empty : ElfSection := ⟨Elf32_Shdr.zero, []⟩

/-- The program header entries `read_image` uses: those of type `PT_LOAD` with content
in the file. -/
def Elf32_Phdr.loadable (p : Elf32_Phdr) : Bool :=
  decide (p.type = PT_LOAD) && decide (p.filesz ≠ 0)

/-- The request `read_image` makes to the sink for a program header entry. -/
def Elf32_Phdr.request (p : Elf32_Phdr) : Nat × Nat := (p.paddr, p.memsz)

/-- The request `read_image2` makes to the sink for a section header entry. -/
def Elf32_Shdr.request (s : Elf32_Shdr) : Nat × Nat := (s.vaddr, s.size)

/-- A sink that accepts every request and hands out regions of the requested length
filled with `0xFF`; no request has been made yet. -/
def sink_ff : ImageInterface :=
  { supply := fun _ _ size => some (List.replicate size 0xFF), calls := [], regions := [] }

/-- A 156-byte file with two program header entries at offset 92, after an empty section
header entry: `phdr_load 0 4096 200 200`, whose 200 bytes from offset 0 the file does not
have, and `phdr_load 92 8192 8 8`. -/
def file_load_beyond_end : List Byte :=
  Elf32_Ehdr.encode { minimal_header with phnum := 2 } ++
  Elf32_Shdr.encode Elf32_Shdr.zero ++
  Elf32_Phdr.encode (phdr_load 0 4096 200 200) ++
  Elf32_Phdr.encode (phdr_load 92 8192 8 8)

/-- A 156-byte file with two program header entries at offset 92, after an empty section
header entry: `phdr_load 0 12288 0 4096`, loadable with nothing in the file, and
`phdr_load 92 4096 8 8`. -/
def file_load_bss : List Byte :=
  Elf32_Ehdr.encode { minimal_header with phnum := 2 } ++
  Elf32_Shdr.encode Elf32_Shdr.zero ++
  Elf32_Phdr.encode (phdr_load 0 12288 0 4096) ++
  Elf32_Phdr.encode (phdr_load 92 4096 8 8)

/-- A 124-byte file with one program header entry at offset 92, after an empty section
header entry: `phdr_load 0 4096 200 200`, whose 200 bytes from offset 0 the file does not
have. -/
def file_load_200 : List Byte :=
  Elf32_Ehdr.encode minimal_header ++
  Elf32_Shdr.encode Elf32_Shdr.zero ++
  Elf32_Phdr.encode (phdr_load 0 4096 200 200)

/-- A 124-byte file with one loadable segment: an empty section header entry at offset 52
and, at offset 92, the program header entry `phdr_load 16 4096 8 8`, for the 8 bytes of
the file at offset 16, which are `02 00 28 00 01 00 00 00`. -/
def file_one_segment : List Byte :=
  Elf32_Ehdr.encode minimal_header ++
  Elf32_Shdr.encode Elf32_Shdr.zero ++
  Elf32_Phdr.encode (phdr_load 16 4096 8 8)

/-- The section header entries `read_image2` uses: those of type `SHT_PROGBITS`. -/
def Elf32_Shdr.progbits (s : Elf32_Shdr) : Bool := decide (s.type = SHT_PROGBITS)

/-- A 172-byte file: the header (no program header entry) and three section header
entries at offset 52: an empty one (the section of the section names), `shdr_wrapping`,
and `shdr_progbits 52 8`. -/
def file_progbits_wrapping : List Byte :=
  Elf32_Ehdr.encode { minimal_header with phoff := 52, phnum := 0, shnum := 3 } ++
  Elf32_Shdr.encode Elf32_Shdr.zero ++
  Elf32_Shdr.encode shdr_wrapping ++
  Elf32_Shdr.encode (shdr_progbits 52 8)

/-- A section header entry of type `SHT_PROGBITS` without the flag `SHF_ALLOC`. -/
def shdr_progbits_no_alloc (off size : Nat) : Elf32_Shdr :=
  { name := 0, type := SHT_PROGBITS, flags := 0, vaddr := 0, off := off, size := size,
    link := 0, info := 0, addralign := 0, entsize := 0 }

/-- A 212-byte file: the header (no program header entry) and four section header
entries at offset 52: an empty one (the section of the section names),
`shdr_progbits 52 8`, `shdr_progbits_no_alloc 60 4` and `shdr_progbits 64 4`. -/
def file_progbits_no_alloc : List Byte :=
  Elf32_Ehdr.encode { minimal_header with phoff := 52, phnum := 0, shnum := 4 } ++
  Elf32_Shdr.encode Elf32_Shdr.zero ++
  Elf32_Shdr.encode (shdr_progbits 52 8) ++
  Elf32_Shdr.encode (shdr_progbits_no_alloc 60 4) ++
  Elf32_Shdr.encode (shdr_progbits 64 4)

/-- A header for a file longer than 4 GiB: no program header entry, and two section
header entries of 40 bytes at offset `2^32 - 40`, so that the second one is at offset
`2^32`. -/
def header_4g : Elf32_Ehdr :=
  { minimal_header with phoff := 52, phnum := 0, shoff := 4294967256, shnum := 2 }

/-- The `2^32 - 92` zero bytes between the header and the section header table of
`file_4g`. -/
def padding_4g : List Byte := List.replicate 4294967204 0

/-- A file of `2^32 + 40` bytes: the header `header_4g`, zero bytes up to offset
`2^32 - 40`, an empty section header entry there (the section of the section names) and
the section header entry `shdr_progbits 52 8` at offset `2^32`. -/
def file_4g : List Byte :=
  header_4g.encode ++
    (padding_4g ++ (Elf32_Shdr.zero.encode ++ (shdr_progbits 52 8).encode))

/-- The first 40 bytes of the file `file_4g`, which belong to its file header, decoded as
a section header entry. -/
def header_4g_as_shdr : Elf32_Shdr := Elf32_Shdr.decode (header_4g.encode.take 40)

/-- A header with no program header entry and two section header entries of 40 bytes at
offset 52. -/
def header_two_sections : Elf32_Ehdr :=
  { minimal_header with phoff := 52, phnum := 0, shnum := 2 }

/-- The `2^32 - 133` zero bytes that follow the section header table of
`file_u32_max`. -/
def padding_u32_max : List Byte := List.replicate 4294967163 0

/-- A file of `2^32 - 1` bytes, the largest size a `uint32_t` holds: the header
`header_two_sections`, an empty section header entry at offset 52 (the section of the
section names), the entry `shdr_progbits 4294967295 1` at offset 92, whose one byte would
be at offset `2^32 - 1`, just past the last byte of the file, and zero bytes up to the
end. -/
def file_u32_max : List Byte :=
  header_two_sections.encode ++
    (Elf32_Shdr.zero.encode ++ ((shdr_progbits 4294967295 1).encode ++ padding_u32_max))

/-! # Theorems -/

/-! ## Decoding, the stream and `Elf::read` -/

theorem le_value_lt (bs : List Byte) : le_value bs < 256 ^ bs.length := by
  induction bs with
  | nil => simp [le_value]
  | cons b bs ih =>
    have hb := b.isLt
    simp only [le_value, List.length_cons, pow_succ]
    omega

theorem le_field_lt (buf : List Byte) (off n : Nat) : le_field buf off n < 256 ^ n := by
  unfold le_field
  have h1 := le_value_lt ((buf.drop off).take n)
  have h2 : ((buf.drop off).take n).length ≤ n := by simp
  exact lt_of_lt_of_le h1 (Nat.pow_le_pow_right (by norm_num) h2)

theorem file_bytes_length (content : List Byte) (pos n : Nat) (h : pos + n ≤ content.length) :
    (file_bytes content pos n).length = n := by
  simp [file_bytes]; omega

theorem ifstream.extract_of_fits (f : ifstream) (n : Nat) (hf : f.failbit = false)
    (h : f.pos + n ≤ f.content.length) :
    f.read n = (file_bytes f.content f.pos n, { f with pos := f.pos + n }) := by
  have hl := file_bytes_length f.content f.pos n h
  unfold file_bytes at hl
  cases f with
  | mk c p fb =>
    simp only at hf h hl
    subst hf
    simp [ifstream.read, file_bytes, hl]

theorem ifstream.extract_of_short (f : ifstream) (n : Nat) (hf : f.failbit = false)
    (h : f.content.length - f.pos < n) :
    (f.read n).2.failbit = true := by
  simp [ifstream.read, hf]; omega

theorem Elf.read_of_fits (e : Elf) (size : Nat) (hf : e.file.failbit = false)
    (h : e.file.pos + size ≤ e.file.content.length) :
    e.read size = (.ok (file_bytes e.file.content e.file.pos size),
      { e with file := { e.file with pos := e.file.pos + size } }) := by
  simp [Elf.read, ifstream.extract_of_fits e.file size hf h, hf]

theorem Elf.read_of_short (e : Elf) (size : Nat) (hf : e.file.failbit = false)
    (h : e.file.content.length - e.file.pos < size) :
    (e.read size).1 = .error .file_read_error := by
  simp [Elf.read, ifstream.extract_of_short e.file size hf h]

theorem Elf.read_of_failed (e : Elf) (size : Nat) (hf : e.file.failbit = true) :
    e.read size = (.error .file_read_error, e) := by
  simp [Elf.read, ifstream.read, hf]

theorem Elf.read_header_of_fits (e : Elf) (hf : e.file.failbit = false)
    (hlen : 52 ≤ e.file.content.length) :
    e.read_header =
      if strncmp e.with_header.file_header.ident supported_header 7 ≠ 0 then
        (.error .unsupported_elf_file, e.with_header)
      else if e.with_header.file_header.version ≠ EV_CURRENT then
        (.error .unsupported_file_version, e.with_header)
      else if e.with_header.file_header.ehsize < 52 then
        (.error .invalid_file_header_size, e.with_header)
      else if e.with_header.file_header.phoff ≥ e.file_size then
        (.error .invalid_program_header_file_offset, e.with_header)
      else if e.with_header.file_header.phentsize < 32 then
        (.error .invalid_program_header_size, e.with_header)
      else if (e.with_header.file_header.phoff + e.with_header.file_header.phnum * 32) % 2 ^ 64
          > e.file_size then
        (.error .invalid_number_of_program_header_entries, e.with_header)
      else if e.with_header.file_header.shoff ≥ e.file_size then
        (.error .invalid_section_header_file_offset, e.with_header)
      else if e.with_header.file_header.shentsize < 40 then
        (.error .invalid_section_header_size, e.with_header)
      else if (e.with_header.file_header.shoff + e.with_header.file_header.shnum * 40) % 2 ^ 64
          > e.file_size then
        (.error .invalid_number_of_section_header_entries, e.with_header)
      else if e.with_header.file_header.shstrndx ≥ e.with_header.file_header.shnum then
        (.error .invalid_section_name_strings_section_index, e.with_header)
      else (.ok (), e.with_header) := by
  have hr := Elf.read_of_fits { e with file := e.file.seekg 0 } 52
    (by simp [ifstream.seekg, hf]) (by simp [ifstream.seekg, hf]; exact hlen)
  unfold Elf.read_header
  simp only [sizeof_Elf32_Ehdr, sizeof_Elf32_Phdr, sizeof_Elf32_Shdr, sizeof_supported_header]
  rw [hr]
  simp [ifstream.seekg, hf, file_bytes, Elf.with_header]

theorem strncmp_eq_zero_iff (n : Nat) : ∀ (lhs rhs : List Byte), n ≤ rhs.length →
    (∀ b ∈ rhs.take n, b ≠ 0) → (strncmp lhs rhs n = 0 ↔ lhs.take n = rhs.take n) := by
  induction n with
  | zero => intro lhs rhs _ _; simp [strncmp]
  | succ n ih =>
    intro lhs rhs hlen hnz
    cases rhs with
    | nil => simp at hlen
    | cons b rs =>
      have hb : b ≠ 0 := hnz b (by simp)
      have hrs : ∀ c ∈ rs.take n, c ≠ 0 := fun c hc => hnz c (by simp [hc])
      have hlen2 : n ≤ rs.length := by simpa using hlen
      cases lhs with
      | nil =>
        have hv : (b : Fin 256).val ≠ 0 := fun h => hb (Fin.ext h)
        have : (0 : Byte) ≠ b := fun h => hb h.symm
        simp [strncmp, this]
        omega
      | cons a as =>
        by_cases hab : a = b
        · subst hab
          simp [strncmp, hb, ih as rs hlen2 hrs]
        · have hv : a.val ≠ b.val := fun h => hab (Fin.ext h)
          simp [strncmp, hab]
          omega

theorem supported_header_take : supported_header.take 7 = [0x7f, 0x45, 0x4c, 0x46, 0x01, 0x01, 0x01] := by
  decide

set_option maxRecDepth 10000 in
theorem strncmp_supported_header (ident : List Byte) :
    strncmp ident supported_header 7 = 0 ↔
      ident.take 7 = [0x7f, 0x45, 0x4c, 0x46, 0x01, 0x01, 0x01] := by
  rw [← supported_header_take]
  exact strncmp_eq_zero_iff 7 ident supported_header (by decide) (by decide)

theorem decode_ident_take (content : List Byte) :
    (Elf32_Ehdr.decode (content.take 52)).ident.take 7 = content.take 7 := by
  simp [Elf32_Ehdr.decode, List.take_take]

theorem le_field_take (content : List Byte) (off n m : Nat) (h : off + n ≤ m) :
    le_field (content.take m) off n = le_field content off n := by
  unfold le_field
  rw [List.drop_take, List.take_take]
  congr 2
  omega

theorem Elf.sized_file (content : List Byte) :
    (Elf.sized content).file = ⟨content, content.length, false⟩ ∧
    (Elf.sized content).file_size = content.length ∧
    (Elf.sized content).sections = [] ∧ (Elf.sized content).programs = [] := by
  simp [Elf.sized, Elf.opened, ifstream.seekg_end, ifstream.tellg]

theorem Elf.read_header_of_short (e : Elf) (hf : e.file.failbit = false)
    (hlen : e.file.content.length < 52) :
    (e.read_header).1 = .error .file_read_error := by
  have hr := Elf.read_of_short { e with file := e.file.seekg 0 } 52
    (by simp [ifstream.seekg, hf]) (by simp [ifstream.seekg, hf]; omega)
  unfold Elf.read_header
  simp only [sizeof_Elf32_Ehdr]
  generalize Elf.read { e with file := e.file.seekg 0 } 52 = r at hr ⊢
  obtain ⟨r1, r2⟩ := r
  simp only at hr
  subst hr
  rfl


theorem Elf.sized_with_header_file_header (content : List Byte) :
    (Elf.sized content).with_header.file_header = Elf32_Ehdr.decode (content.take 52) := by
  simp [Elf.with_header, (Elf.sized_file content).1]


/-! ## Generic facts -/

theorem ifstream.read_content (f : ifstream) (n : Nat) :
    (f.read n).2.content = f.content := by
  unfold ifstream.read
  split <;> rfl

theorem Elf.read_snd (e : Elf) (size : Nat) :
    (e.read size).2 = { e with file := (e.file.read size).2 } := by
  unfold Elf.read
  simp only []
  split <;> rfl

theorem Elf.read_frame (e : Elf) (size : Nat) :
    (e.read size).2.file.content = e.file.content ∧
    (e.read size).2.file_size = e.file_size ∧
    (e.read size).2.file_header = e.file_header ∧
    (e.read size).2.sections = e.sections ∧
    (e.read size).2.programs = e.programs ∧
    (e.read size).2.strings = e.strings := by
  rw [Elf.read_snd]
  exact ⟨ifstream.read_content _ _, rfl, rfl, rfl, rfl, rfl⟩

theorem vector_resize_length {α : Type} (zero : α) (v : List α) (n : Nat) :
    (vector_resize zero v n).length = n := by
  simp [vector_resize]
  omega


/-! ## What `read_header` checks -/

theorem ite_snd_eq {α β : Type} (c : Prop) [Decidable c] (a : α) (w : β) (x : α × β)
    (h : x.2 = w) : (if c then (a, w) else x).2 = w := by
  split
  · rfl
  · exact h

theorem Elf.read_header_state (e : Elf) (hf : e.file.failbit = false)
    (hlen : 52 ≤ e.file.content.length) : (e.read_header).2 = e.with_header := by
  rw [Elf.read_header_of_fits e hf hlen]
  generalize e.with_header = w
  repeat apply ite_snd_eq
  rfl

theorem ite_error_fst_ok {c : Prop} [Decidable c] {t : Thrown} {w : Elf}
    {x : Except Thrown Unit × Elf}
    (h : (if c then (Except.error t, w) else x).1 = .ok ()) : ¬ c ∧ x.1 = .ok () := by
  by_cases hc : c
  · rw [if_pos hc] at h; exact absurd h (by simp)
  · rw [if_neg hc] at h; exact ⟨hc, h⟩

theorem Elf32_Ehdr.decode_bounds (buf : List Byte) :
    (Elf32_Ehdr.decode buf).phoff < 2 ^ 32 ∧ (Elf32_Ehdr.decode buf).shoff < 2 ^ 32 ∧
    (Elf32_Ehdr.decode buf).phentsize < 2 ^ 16 ∧ (Elf32_Ehdr.decode buf).phnum < 2 ^ 16 ∧
    (Elf32_Ehdr.decode buf).shentsize < 2 ^ 16 ∧ (Elf32_Ehdr.decode buf).shnum < 2 ^ 16 ∧
    (Elf32_Ehdr.decode buf).shstrndx < 2 ^ 16 := by
  have h4 : ∀ off, le_field buf off 4 < 2 ^ 32 := fun off => by
    have := le_field_lt buf off 4; norm_num at this ⊢; exact this
  have h2 : ∀ off, le_field buf off 2 < 2 ^ 16 := fun off => by
    have := le_field_lt buf off 2; norm_num at this ⊢; exact this
  exact ⟨h4 _, h4 _, h2 _, h2 _, h2 _, h2 _, h2 _⟩

/-- What `read_header` has checked when it returns normally. -/
theorem Elf.read_header_ok (e : Elf) (hf : e.file.failbit = false)
    (hok : (e.read_header).1 = .ok ()) :
    52 ≤ e.file.content.length ∧ (e.read_header).2 = e.with_header ∧
    e.with_header.file_header.ident.take 7 = [0x7f, 0x45, 0x4c, 0x46, 0x01, 0x01, 0x01] ∧
    e.with_header.file_header.version = EV_CURRENT ∧
    52 ≤ e.with_header.file_header.ehsize ∧
    e.with_header.file_header.phoff < e.file_size ∧
    32 ≤ e.with_header.file_header.phentsize ∧
    e.with_header.file_header.phoff + e.with_header.file_header.phnum * 32 ≤ e.file_size ∧
    e.with_header.file_header.shoff < e.file_size ∧
    40 ≤ e.with_header.file_header.shentsize ∧
    e.with_header.file_header.shoff + e.with_header.file_header.shnum * 40 ≤ e.file_size ∧
    e.with_header.file_header.shstrndx < e.with_header.file_header.shnum := by
  have hlen : 52 ≤ e.file.content.length := by
    by_contra hlt
    rw [Elf.read_header_of_short e hf (by omega)] at hok
    exact absurd hok (by simp)
  refine ⟨hlen, Elf.read_header_state e hf hlen, ?_⟩
  have hb := Elf32_Ehdr.decode_bounds (e.file.content.take 52)
  have hfh : e.with_header.file_header = Elf32_Ehdr.decode (e.file.content.take 52) := rfl
  rw [← hfh] at hb
  rw [Elf.read_header_of_fits e hf hlen] at hok
  generalize e.with_header = w at hok hb ⊢
  generalize e.file_size = fs at hok ⊢
  obtain ⟨b1, b2, b3, b4, b5, b6, b7⟩ := hb
  have m1 : (w.file_header.phoff + w.file_header.phnum * 32) % 2 ^ 64
      = w.file_header.phoff + w.file_header.phnum * 32 :=
    Nat.mod_eq_of_lt (by norm_num at b1 b4 ⊢; omega)
  have m2 : (w.file_header.shoff + w.file_header.shnum * 40) % 2 ^ 64
      = w.file_header.shoff + w.file_header.shnum * 40 :=
    Nat.mod_eq_of_lt (by norm_num at b2 b6 ⊢; omega)
  obtain ⟨c1, hok⟩ := ite_error_fst_ok hok
  obtain ⟨c2, hok⟩ := ite_error_fst_ok hok
  obtain ⟨c3, hok⟩ := ite_error_fst_ok hok
  obtain ⟨c4, hok⟩ := ite_error_fst_ok hok
  obtain ⟨c5, hok⟩ := ite_error_fst_ok hok
  obtain ⟨c6, hok⟩ := ite_error_fst_ok hok
  obtain ⟨c7, hok⟩ := ite_error_fst_ok hok
  obtain ⟨c8, hok⟩ := ite_error_fst_ok hok
  obtain ⟨c9, hok⟩ := ite_error_fst_ok hok
  obtain ⟨c10, -⟩ := ite_error_fst_ok hok
  rw [m1] at c6
  rw [m2] at c9
  rw [ne_eq, not_not, strncmp_supported_header] at c1
  rw [ne_eq, not_not] at c2
  exact ⟨c1, c2, by omega, by omega, by omega, by omega, by omega,
    by omega, by omega, by omega⟩

/-! ## The header's table bounds (C1, C2) -/

set_option maxRecDepth 100000 in
/-- C1 (evaluation at the failing input).  `read_header` accepts the 124-byte file
`file_phentsize_64`, whose header declares one program header entry of 64 bytes at
offset 92: `phoff + phnum * phentsize = 156` exceeds the file size.  The whole
constructor accepts the file too. -/
theorem read_header_accepts_program_table_past_end :
    (Elf.read_header (Elf.sized file_phentsize_64)).1 = .ok () ∧
    (Elf.read_header (Elf.sized file_phentsize_64)).2.file_header.phoff +
      (Elf.read_header (Elf.sized file_phentsize_64)).2.file_header.phnum *
      (Elf.read_header (Elf.sized file_phentsize_64)).2.file_header.phentsize
      > file_phentsize_64.length ∧
    (Elf.construct (some file_phentsize_64)).toBool = true := by
  decide

set_option maxRecDepth 100000 in
/-- C2 (evaluation at the failing input).  `read_header` accepts the 124-byte file
`file_shentsize_48`, whose header declares one section header entry of 48 bytes at
offset 84: `shoff + shnum * shentsize = 132` exceeds the file size.  The whole
constructor accepts the file too. -/
theorem read_header_accepts_section_table_past_end :
    (Elf.read_header (Elf.sized file_shentsize_48)).1 = .ok () ∧
    (Elf.read_header (Elf.sized file_shentsize_48)).2.file_header.shoff +
      (Elf.read_header (Elf.sized file_shentsize_48)).2.file_header.shnum *
      (Elf.read_header (Elf.sized file_shentsize_48)).2.file_header.shentsize
      > file_shentsize_48.length ∧
    (Elf.construct (some file_shentsize_48)).toBool = true := by
  decide

/-! ## Wrap-around in the per-entry bounds (C3, C4) -/

set_option maxRecDepth 100000 in
/-- C3 (evaluation at the failing input).  The constructor, and so `read_programs`,
accepts the 124-byte file `file_phdr_wrapping`.  Its only program header entry has
`off = 0xFFFFFFFF` and `filesz = 2`: `off` is not zero and `off + filesz` exceeds the
file size, but the 32-bit sum is 1. -/
theorem read_programs_accepts_wrapping_extent :
    ∃ e, Elf.construct (some file_phdr_wrapping) = .ok e ∧
      e.file_size = 124 ∧ e.programs = [phdr_wrapping] ∧
      phdr_wrapping.off ≠ 0 ∧
      phdr_wrapping.off + phdr_wrapping.filesz > e.file_size ∧
      (phdr_wrapping.off + phdr_wrapping.filesz) % 2 ^ 32 = 1 :=
  ⟨_, rfl, by decide⟩

set_option maxRecDepth 100000 in
/-- C4 (evaluation at the failing input).  The constructor, and so `read_sections`,
accepts the 132-byte file `file_shdr_wrapping`.  Its second section header entry has
type `SHT_PROGBITS`, `off = 0xFFFFFFFF` and `size = 2`: `off + size` exceeds the file
size, but the 32-bit sum is 1. -/
theorem read_sections_accepts_wrapping_extent :
    ∃ e, Elf.construct (some file_shdr_wrapping) = .ok e ∧
      e.file_size = 132 ∧ e.sections = [Elf32_Shdr.zero, shdr_wrapping] ∧
      shdr_wrapping.type ≠ SHT_NOBITS ∧
      shdr_wrapping.off + shdr_wrapping.size > e.file_size ∧
      (shdr_wrapping.off + shdr_wrapping.size) % 2 ^ 32 = 1 :=
  ⟨_, rfl, by decide⟩

/-! ## Identification bytes and version (C9, C10) -/

/-- C10.  (1) For every byte string `ident`, NUL bytes or not, the comparison of
`read_header`, `strncmp(ident, supported_header, 7)`, is zero exactly when the first
seven bytes of `ident` are `7F 45 4C 46 01 01 01`.
(2) On a file of at least 52 bytes `read_header` throws "Unsupported elf file." if and
only if the first seven bytes of the file differ from those. -/
theorem read_header_unsupported_elf_file_iff (content : List Byte)
    (hlen : sizeof_Elf32_Ehdr ≤ content.length) :
    (∀ ident : List Byte, strncmp ident supported_header (sizeof_supported_header - 1) = 0 ↔
      ident.take 7 = [0x7f, 0x45, 0x4c, 0x46, 0x01, 0x01, 0x01]) ∧
    ((Elf.read_header (Elf.sized content)).1 = .error .unsupported_elf_file ↔
      content.take 7 ≠ [0x7f, 0x45, 0x4c, 0x46, 0x01, 0x01, 0x01]) := by
  refine ⟨fun ident => strncmp_supported_header ident, ?_⟩
  have hs := Elf.sized_file content
  rw [Elf.read_header_of_fits _ (by rw [hs.1]) (by rw [hs.1]; exact hlen)]
  simp only [ne_eq, strncmp_supported_header, Elf.sized_with_header_file_header,
    decode_ident_take]
  by_cases hid : content.take 7 = [0x7f, 0x45, 0x4c, 0x46, 0x01, 0x01, 0x01]
  · simp only [hid, not_true_eq_false, if_false, iff_false]
    split_ifs <;> simp
  · simp [hid]

/-- C9.  On a file of at least 52 bytes whose first seven bytes are
`7F 45 4C 46 01 01 01` and whose version field (the four bytes at offset 20) is not
`EV_CURRENT`, `read_header` throws "Unsupported file version.", whatever the rest of the
file holds.  The stream then stands at offset 52 and both tables are still empty; the
constructor ends with the same exception, so that `read_sections` and `read_programs`
do not run. -/
theorem read_header_unsupported_file_version (content : List Byte)
    (hlen : sizeof_Elf32_Ehdr ≤ content.length)
    (hid : content.take 7 = [0x7f, 0x45, 0x4c, 0x46, 0x01, 0x01, 0x01])
    (hver : le_field content 20 4 ≠ EV_CURRENT) :
    (Elf.read_header (Elf.sized content)).1 = .error .unsupported_file_version ∧
    (Elf.read_header (Elf.sized content)).2.file.pos = sizeof_Elf32_Ehdr ∧
    (Elf.read_header (Elf.sized content)).2.sections = [] ∧
    (Elf.read_header (Elf.sized content)).2.programs = [] ∧
    Elf.construct (some content) = .error .unsupported_file_version := by
  have hs := Elf.sized_file content
  have hrh := Elf.read_header_of_fits (Elf.sized content) (by rw [hs.1]) (by rw [hs.1]; exact hlen)
  have hv : (Elf32_Ehdr.decode (content.take 52)).version ≠ EV_CURRENT := by
    simp only [Elf32_Ehdr.decode]
    rw [le_field_take content 20 4 52 (by norm_num)]
    exact hver
  simp only [ne_eq, strncmp_supported_header, Elf.sized_with_header_file_header,
    decode_ident_take, hid, not_true_eq_false, if_false, hv, not_false_eq_true, if_true] at hrh
  have hc : Elf.construct (some content) = .error .unsupported_file_version := by
    simp only [Elf.construct, hrh]
  refine ⟨by rw [hrh], by rw [hrh]; rfl, ?_, ?_, hc⟩
  · rw [hrh]; exact hs.2.2.1
  · rw [hrh]; exact hs.2.2.2

set_option maxRecDepth 100000 in
/-- C10 at two files: `file_minimal` has the supported identification bytes and is not
refused as an unsupported elf file; `file_ident_nul` has a NUL among them and is. -/
theorem read_header_unsupported_elf_file_iff_witness :
    (Elf.read_header (Elf.sized file_minimal)).1 ≠ .error .unsupported_elf_file ∧
    (Elf.read_header (Elf.sized file_ident_nul)).1 = .error .unsupported_elf_file :=
  ⟨fun h => ((read_header_unsupported_elf_file_iff file_minimal (by decide)).2.1 h) (by decide),
   (read_header_unsupported_elf_file_iff file_ident_nul (by decide)).2.2 (by decide)⟩

set_option maxRecDepth 100000 in
/-- C9 at the file `file_version_2`. -/
theorem read_header_unsupported_file_version_witness :
    (Elf.read_header (Elf.sized file_version_2)).1 = .error .unsupported_file_version ∧
    Elf.construct (some file_version_2) = .error .unsupported_file_version :=
  have h := read_header_unsupported_file_version file_version_2 (by decide) (by decide)
    (by decide)
  ⟨h.1, h.2.2.2.2⟩

/-! ## The index of the section name strings (C8) -/

/-- C8.  Let `h` be the header held by the first 52 bytes of a file.
(a) If `h.shstrndx ≥ h.shnum` (in particular if they are equal, also when both are 0),
`read_header` throws.
(b) If the file has its 52 bytes, none of the nine earlier checks of `read_header` fires,
`h.shnum ≥ 1` and `h.shstrndx = h.shnum - 1`, `read_header` returns normally, with `h` as
`file_header`.
(c) Whenever `read_header` returns normally, `file_header` is `h` and
`h.shstrndx < h.shnum`. -/
theorem read_header_shstrndx_boundary (content : List Byte) (h : Elf32_Ehdr)
    (hh : h = Elf32_Ehdr.decode (content.take sizeof_Elf32_Ehdr)) :
    (h.shstrndx ≥ h.shnum → ∃ ex, (Elf.read_header (Elf.sized content)).1 = .error ex) ∧
    (sizeof_Elf32_Ehdr ≤ content.length →
      ¬ strncmp h.ident supported_header (sizeof_supported_header - 1) ≠ 0 →
      ¬ h.version ≠ EV_CURRENT →
      ¬ h.ehsize < sizeof_Elf32_Ehdr →
      ¬ h.phoff ≥ content.length →
      ¬ h.phentsize < sizeof_Elf32_Phdr →
      ¬ (h.phoff + h.phnum * sizeof_Elf32_Phdr) % 2 ^ 64 > content.length →
      ¬ h.shoff ≥ content.length →
      ¬ h.shentsize < sizeof_Elf32_Shdr →
      ¬ (h.shoff + h.shnum * sizeof_Elf32_Shdr) % 2 ^ 64 > content.length →
      1 ≤ h.shnum → h.shstrndx = h.shnum - 1 →
      (Elf.read_header (Elf.sized content)).1 = .ok () ∧
      (Elf.read_header (Elf.sized content)).2.file_header = h) ∧
    ((Elf.read_header (Elf.sized content)).1 = .ok () →
      (Elf.read_header (Elf.sized content)).2.file_header = h ∧ h.shstrndx < h.shnum) := by
  have hs := Elf.sized_file content
  have hf : (Elf.sized content).file.failbit = false := by rw [hs.1]
  have hwh : (Elf.sized content).with_header.file_header = h := by
    rw [Elf.sized_with_header_file_header, hh, sizeof_Elf32_Ehdr]
  have hc : (Elf.read_header (Elf.sized content)).1 = .ok () →
      (Elf.read_header (Elf.sized content)).2.file_header = h ∧ h.shstrndx < h.shnum := by
    intro hok
    have hfacts := Elf.read_header_ok (Elf.sized content) hf hok
    rw [hfacts.2.1, hwh]
    rw [hwh] at hfacts
    exact ⟨rfl, hfacts.2.2.2.2.2.2.2.2.2.2.2⟩
  refine ⟨?_, ?_, hc⟩
  · intro hge
    cases hr : (Elf.read_header (Elf.sized content)).1 with
    | error ex => exact ⟨ex, rfl⟩
    | ok u =>
      have := (hc hr).2
      omega
  · intro hlen c1 c2 c3 c4 c5 c6 c7 c8 c9 h1 hlast
    have hlen2 : 52 ≤ (Elf.sized content).file.content.length := by
      rw [hs.1]; exact hlen
    have hst := Elf.read_header_state (Elf.sized content) hf hlen2
    refine ⟨?_, by rw [hst, hwh]⟩
    rw [Elf.read_header_of_fits (Elf.sized content) hf hlen2, hwh, hs.2.1]
    simp only [sizeof_Elf32_Ehdr, sizeof_Elf32_Phdr, sizeof_Elf32_Shdr,
      sizeof_supported_header] at c1 c3 c5 c6 c8 c9
    have c10 : ¬ h.shstrndx ≥ h.shnum := by omega
    rw [if_neg c1, if_neg c2, if_neg c3, if_neg c4, if_neg c5, if_neg c6, if_neg c7,
      if_neg c8, if_neg c9, if_neg c10]

set_option maxRecDepth 100000 in
/-- C8 at two files: `file_shstrndx_eq_shnum` (`shnum = 1`, `shstrndx = 1`) is refused,
`file_minimal` (`shnum = 1`, `shstrndx = 0`) is accepted. -/
theorem read_header_shstrndx_boundary_witness :
    (∃ ex, (Elf.read_header (Elf.sized file_shstrndx_eq_shnum)).1 = .error ex) ∧
    (Elf.read_header (Elf.sized file_minimal)).1 = .ok () :=
  ⟨(read_header_shstrndx_boundary file_shstrndx_eq_shnum _ rfl).1 (by decide),
   ((read_header_shstrndx_boundary file_minimal _ rfl).2.1 (by decide) (by decide)
      (by decide) (by decide) (by decide) (by decide) (by decide) (by decide) (by decide)
      (by decide) (by decide) (by decide)).1⟩

/-! ## The loop of `read_programs` -/

theorem Elf.read_programs_loop_succ (count idx pos : Nat) (e : Elf)
    (hf : e.file.failbit = false) (hfit : pos + 32 ≤ e.file.content.length) :
    Elf.read_programs_loop (count + 1) idx pos e =
      if (Elf32_Phdr.decode (file_bytes e.file.content pos 32)).invalid e.file_size then
        (.error .invalid_program_header, e.with_program idx pos)
      else
        Elf.read_programs_loop count (idx + 1) (pos + e.file_header.phentsize)
          (e.with_program idx pos) := by
  have hr := Elf.read_of_fits { e with file := e.file.seekg pos } 32
    (by simp [ifstream.seekg, hf]) (by simp [ifstream.seekg, hf]; exact hfit)
  rw [Elf.read_programs_loop]
  simp only [sizeof_Elf32_Phdr]
  rw [hr]
  simp [ifstream.seekg, hf, Elf.with_program]

theorem Elf.read_programs_loop_short (count idx pos : Nat) (e : Elf)
    (hf : e.file.failbit = false) (hfit : e.file.content.length < pos + 32) :
    (Elf.read_programs_loop (count + 1) idx pos e).1 = .error .file_read_error := by
  have hr := Elf.read_of_short { e with file := e.file.seekg pos } 32
    (by simp [ifstream.seekg, hf]) (by simp [ifstream.seekg, hf]; omega)
  rw [Elf.read_programs_loop]
  simp only [sizeof_Elf32_Phdr]
  generalize Elf.read { e with file := e.file.seekg pos } 32 = r at hr ⊢
  obtain ⟨r1, r2⟩ := r
  simp only at hr
  subst hr
  rfl

theorem Elf.read_programs_loop_failed (count idx pos : Nat) (e : Elf)
    (hf : e.file.failbit = true) :
    (Elf.read_programs_loop (count + 1) idx pos e).1 = .error .file_read_error := by
  have hr := Elf.read_of_failed { e with file := e.file.seekg pos } 32
    (by simp [ifstream.seekg, hf])
  rw [Elf.read_programs_loop]
  simp only [sizeof_Elf32_Phdr]
  rw [hr]

theorem Elf.read_programs_loop_frame (count : Nat) : ∀ (idx pos : Nat) (e : Elf),
    (Elf.read_programs_loop count idx pos e).2.file.content = e.file.content ∧
    (Elf.read_programs_loop count idx pos e).2.file_size = e.file_size ∧
    (Elf.read_programs_loop count idx pos e).2.file_header = e.file_header ∧
    (Elf.read_programs_loop count idx pos e).2.sections = e.sections ∧
    (Elf.read_programs_loop count idx pos e).2.strings = e.strings ∧
    (Elf.read_programs_loop count idx pos e).2.programs.length = e.programs.length := by
  induction count with
  | zero => intro idx pos e; simp [Elf.read_programs_loop]
  | succ n ih =>
    intro idx pos e
    have hfr := Elf.read_frame { e with file := e.file.seekg pos } sizeof_Elf32_Phdr
    have hc : ({ e with file := e.file.seekg pos } : Elf).file.content = e.file.content := by
      simp only [ifstream.seekg]; split_ifs <;> rfl
    rw [Elf.read_programs_loop]
    rcases hr : Elf.read { e with file := e.file.seekg pos } sizeof_Elf32_Phdr with ⟨r1, r2⟩
    rw [hr] at hfr
    simp only at hfr
    obtain ⟨f1, f2, f3, f4, f5, f6⟩ := hfr
    cases r1 with
    | error ex => exact ⟨f1.trans hc, f2, f3, f4, f6, by rw [f5]⟩
    | ok buf =>
      simp only
      split_ifs
      · simp only [List.length_set]
        exact ⟨f1.trans hc, f2, f3, f4, f6, by rw [f5]⟩
      · have h := ih (idx + 1) (pos + r2.file_header.phentsize)
          { r2 with programs := r2.programs.set idx (Elf32_Phdr.decode buf) }
        simp only [List.length_set] at h
        obtain ⟨g1, g2, g3, g4, g5, g6⟩ := h
        exact ⟨g1.trans (f1.trans hc), g2.trans f2, g3.trans f3, g4.trans f4, g5.trans f6,
          by rw [g6, f5]⟩

theorem Elf.with_program_fields (e : Elf) (idx pos : Nat) :
    (e.with_program idx pos).file.failbit = e.file.failbit ∧
    (e.with_program idx pos).file.content = e.file.content ∧
    (e.with_program idx pos).file.pos = pos + 32 ∧
    (e.with_program idx pos).file_size = e.file_size ∧
    (e.with_program idx pos).file_header = e.file_header ∧
    (e.with_program idx pos).programs =
      e.programs.set idx (Elf32_Phdr.decode (file_bytes e.file.content pos 32)) :=
  ⟨rfl, rfl, rfl, rfl, rfl, rfl⟩

/-- What the loop of `read_programs` has done when it ends normally: every entry was
inside the file, passed the check and was stored at its index. -/
theorem Elf.read_programs_loop_ok (count : Nat) : ∀ (idx pos : Nat) (e : Elf),
    (Elf.read_programs_loop count idx pos e).1 = .ok () →
    idx + count ≤ e.programs.length →
    (Elf.read_programs_loop count idx pos e).2.file.failbit = e.file.failbit ∧
    (0 < count → e.file.failbit = false) ∧
    (∀ k, k < count →
      pos + k * e.file_header.phentsize + 32 ≤ e.file.content.length ∧
      (Elf32_Phdr.decode (file_bytes e.file.content
        (pos + k * e.file_header.phentsize) 32)).invalid e.file_size = false ∧
      (Elf.read_programs_loop count idx pos e).2.programs[idx + k]? =
        some (Elf32_Phdr.decode (file_bytes e.file.content
          (pos + k * e.file_header.phentsize) 32))) ∧
    (∀ j, j < idx → (Elf.read_programs_loop count idx pos e).2.programs[j]? = e.programs[j]?) := by
  induction count with
  | zero =>
    intro idx pos e _ _
    simp [Elf.read_programs_loop]
  | succ n ih =>
    intro idx pos e hok hlen
    have hf : e.file.failbit = false := by
      by_contra hne
      rw [Elf.read_programs_loop_failed n idx pos e (by simpa using hne)] at hok
      exact absurd hok (by simp)
    have hfit : pos + 32 ≤ e.file.content.length := by
      by_contra hne
      rw [Elf.read_programs_loop_short n idx pos e hf (by omega)] at hok
      exact absurd hok (by simp)
    rw [Elf.read_programs_loop_succ n idx pos e hf hfit] at hok ⊢
    by_cases hinv : (Elf32_Phdr.decode (file_bytes e.file.content pos 32)).invalid e.file_size
        = true
    · rw [if_pos hinv] at hok
      exact absurd hok (by simp)
    · rw [if_neg hinv] at hok ⊢
      obtain ⟨w1, w2, w3, w4, w5, w6⟩ := Elf.with_program_fields e idx pos
      have h := ih (idx + 1) (pos + e.file_header.phentsize) (e.with_program idx pos) hok
        (by rw [w6, List.length_set]; omega)
      rw [w1, w2, w4, w5] at h
      obtain ⟨h1, -, h3, h4⟩ := h
      refine ⟨h1, fun _ => hf, ?_, ?_⟩
      · intro k hk
        cases k with
        | zero =>
          simp only [Nat.zero_mul, Nat.add_zero]
          refine ⟨hfit, by simpa using hinv, ?_⟩
          rw [h4 idx (by omega), w6, List.getElem?_set_self (by omega)]
        | succ k =>
          have := h3 k (by omega)
          have e1 : pos + e.file_header.phentsize + k * e.file_header.phentsize
              = pos + (k + 1) * e.file_header.phentsize := by ring
          have e2 : idx + 1 + k = idx + (k + 1) := by ring
          rw [e1, e2] at this
          exact this
      · intro j hj
        rw [h4 j (by omega), w6, List.getElem?_set_ne (by omega)]

/-- The loop of `read_programs` on a table with an entry that fails the check: it throws
"Invalid program header." without reading past that entry, and right after reading it
when every earlier entry passes the check. -/
theorem Elf.read_programs_loop_invalid (count : Nat) : ∀ (idx pos : Nat) (e : Elf) (k : Nat),
    e.file.failbit = false → k < count →
    pos + k * e.file_header.phentsize + 32 ≤ e.file.content.length →
    (Elf32_Phdr.decode (file_bytes e.file.content
      (pos + k * e.file_header.phentsize) 32)).invalid e.file_size = true →
    (Elf.read_programs_loop count idx pos e).1 = .error .invalid_program_header ∧
    (Elf.read_programs_loop count idx pos e).2.file.pos
      ≤ pos + k * e.file_header.phentsize + 32 ∧
    ((∀ j, j < k → (Elf32_Phdr.decode (file_bytes e.file.content
        (pos + j * e.file_header.phentsize) 32)).invalid e.file_size = false) →
      (Elf.read_programs_loop count idx pos e).2.file.pos
        = pos + k * e.file_header.phentsize + 32) := by
  induction count with
  | zero => intro idx pos e k _ hk; omega
  | succ n ih =>
    intro idx pos e k hf hk hfit hinv
    have hfit0 : pos + 32 ≤ e.file.content.length := by
      have : 0 ≤ k * e.file_header.phentsize := Nat.zero_le _
      omega
    rw [Elf.read_programs_loop_succ n idx pos e hf hfit0]
    obtain ⟨w1, w2, w3, w4, w5, -⟩ := Elf.with_program_fields e idx pos
    by_cases hinv0 : (Elf32_Phdr.decode (file_bytes e.file.content pos 32)).invalid e.file_size
        = true
    · rw [if_pos hinv0]
      refine ⟨rfl, by rw [w3]; omega, ?_⟩
      intro hall
      cases k with
      | zero => rw [w3]; simp
      | succ k =>
        have := hall 0 (by omega)
        simp only [Nat.zero_mul, Nat.add_zero] at this
        rw [this] at hinv0
        exact absurd hinv0 (by simp)
    · rw [if_neg hinv0]
      cases k with
      | zero =>
        simp only [Nat.zero_mul, Nat.add_zero] at hinv
        exact absurd hinv hinv0
      | succ k =>
        have e1 : pos + e.file_header.phentsize + k * e.file_header.phentsize
            = pos + (k + 1) * e.file_header.phentsize := by ring
        have h := ih (idx + 1) (pos + e.file_header.phentsize) (e.with_program idx pos) k
          (by rw [w1]; exact hf) (by omega)
          (by rw [w2, w5, e1]; exact hfit)
          (by rw [w2, w4, w5, e1]; exact hinv)
        rw [w2, w4, w5, e1] at h
        refine ⟨h.1, h.2.1, ?_⟩
        intro hall
        apply h.2.2
        intro j hj
        have := hall (j + 1) (by omega)
        have e2 : pos + e.file_header.phentsize + j * e.file_header.phentsize
            = pos + (j + 1) * e.file_header.phentsize := by ring
        rw [e2]
        exact this

/-- What `read_programs` has done when it returns normally. -/
theorem Elf.read_programs_ok (e : Elf) (hok : (e.read_programs).1 = .ok ()) :
    (e.read_programs).2.file.failbit = e.file.failbit ∧
    (e.read_programs).2.file.content = e.file.content ∧
    (e.read_programs).2.file_size = e.file_size ∧
    (e.read_programs).2.file_header = e.file_header ∧
    (e.read_programs).2.sections = e.sections ∧
    (e.read_programs).2.strings = e.strings ∧
    (e.read_programs).2.programs.length = e.file_header.phnum ∧
    (∀ i, i < e.file_header.phnum →
      e.file_header.phoff + i * e.file_header.phentsize + 32 ≤ e.file.content.length ∧
      (e.program_entry i).invalid e.file_size = false ∧
      (e.read_programs).2.programs[i]? = some (e.program_entry i)) := by
  unfold Elf.read_programs at hok ⊢
  simp only at hok ⊢
  have hlen := vector_resize_length Elf32_Phdr.zero e.programs e.file_header.phnum
  have hfr := Elf.read_programs_loop_frame e.file_header.phnum 0 e.file_header.phoff
    { e with programs := vector_resize Elf32_Phdr.zero e.programs e.file_header.phnum }
  have h := Elf.read_programs_loop_ok e.file_header.phnum 0 e.file_header.phoff
    { e with programs := vector_resize Elf32_Phdr.zero e.programs e.file_header.phnum }
    hok (by simp only [hlen]; omega)
  simp only at hfr h
  obtain ⟨f1, f2, f3, f4, f5, f6⟩ := hfr
  obtain ⟨h1, -, h3, -⟩ := h
  refine ⟨h1, f1, f2, f3, f4, f5, by rw [f6, hlen], ?_⟩
  intro i hi
  have := h3 i hi
  simp only [Nat.zero_add] at this
  exact this

/-! ## The loop of `read_sections` -/

theorem Elf.read_sections_loop_succ (count idx pos : Nat) (e : Elf)
    (hf : e.file.failbit = false) (hfit : pos + 40 ≤ e.file.content.length) :
    Elf.read_sections_loop (count + 1) idx pos e =
      if (Elf32_Shdr.decode (file_bytes e.file.content pos 40)).invalid e.file_size then
        (.error .invalid_section_header, e.with_section idx pos)
      else
        Elf.read_sections_loop count (idx + 1) (pos + e.file_header.shentsize)
          (e.with_section idx pos) := by
  have hr := Elf.read_of_fits { e with file := e.file.seekg pos } 40
    (by simp [ifstream.seekg, hf]) (by simp [ifstream.seekg, hf]; exact hfit)
  rw [Elf.read_sections_loop]
  simp only [sizeof_Elf32_Shdr]
  rw [hr]
  simp [ifstream.seekg, hf, Elf.with_section]

theorem Elf.read_sections_loop_short (count idx pos : Nat) (e : Elf)
    (hf : e.file.failbit = false) (hfit : e.file.content.length < pos + 40) :
    (Elf.read_sections_loop (count + 1) idx pos e).1 = .error .file_read_error := by
  have hr := Elf.read_of_short { e with file := e.file.seekg pos } 40
    (by simp [ifstream.seekg, hf]) (by simp [ifstream.seekg, hf]; omega)
  rw [Elf.read_sections_loop]
  simp only [sizeof_Elf32_Shdr]
  generalize Elf.read { e with file := e.file.seekg pos } 40 = r at hr ⊢
  obtain ⟨r1, r2⟩ := r
  simp only at hr
  subst hr
  rfl

theorem Elf.read_sections_loop_failed (count idx pos : Nat) (e : Elf)
    (hf : e.file.failbit = true) :
    (Elf.read_sections_loop (count + 1) idx pos e).1 = .error .file_read_error := by
  have hr := Elf.read_of_failed { e with file := e.file.seekg pos } 40
    (by simp [ifstream.seekg, hf])
  rw [Elf.read_sections_loop]
  simp only [sizeof_Elf32_Shdr]
  rw [hr]

theorem Elf.read_sections_loop_frame (count : Nat) : ∀ (idx pos : Nat) (e : Elf),
    (Elf.read_sections_loop count idx pos e).2.file.content = e.file.content ∧
    (Elf.read_sections_loop count idx pos e).2.file_size = e.file_size ∧
    (Elf.read_sections_loop count idx pos e).2.file_header = e.file_header ∧
    (Elf.read_sections_loop count idx pos e).2.programs = e.programs ∧
    (Elf.read_sections_loop count idx pos e).2.strings = e.strings ∧
    (Elf.read_sections_loop count idx pos e).2.sections.length = e.sections.length := by
  induction count with
  | zero => intro idx pos e; simp [Elf.read_sections_loop]
  | succ n ih =>
    intro idx pos e
    have hfr := Elf.read_frame { e with file := e.file.seekg pos } sizeof_Elf32_Shdr
    have hc : ({ e with file := e.file.seekg pos } : Elf).file.content = e.file.content := by
      simp only [ifstream.seekg]; split_ifs <;> rfl
    rw [Elf.read_sections_loop]
    rcases hr : Elf.read { e with file := e.file.seekg pos } sizeof_Elf32_Shdr with ⟨r1, r2⟩
    rw [hr] at hfr
    simp only at hfr
    obtain ⟨f1, f2, f3, f4, f5, f6⟩ := hfr
    cases r1 with
    | error ex => exact ⟨f1.trans hc, f2, f3, f5, f6, by rw [f4]⟩
    | ok buf =>
      simp only
      split_ifs
      · simp only [List.length_set]
        exact ⟨f1.trans hc, f2, f3, f5, f6, by rw [f4]⟩
      · have h := ih (idx + 1) (pos + r2.file_header.shentsize)
          { r2 with sections := r2.sections.set idx (Elf32_Shdr.decode buf) }
        simp only [List.length_set] at h
        obtain ⟨g1, g2, g3, g4, g5, g6⟩ := h
        exact ⟨g1.trans (f1.trans hc), g2.trans f2, g3.trans f3, g4.trans f5, g5.trans f6,
          by rw [g6, f4]⟩

theorem Elf.with_section_fields (e : Elf) (idx pos : Nat) :
    (e.with_section idx pos).file.failbit = e.file.failbit ∧
    (e.with_section idx pos).file.content = e.file.content ∧
    (e.with_section idx pos).file.pos = pos + 40 ∧
    (e.with_section idx pos).file_size = e.file_size ∧
    (e.with_section idx pos).file_header = e.file_header ∧
    (e.with_section idx pos).sections =
      e.sections.set idx (Elf32_Shdr.decode (file_bytes e.file.content pos 40)) :=
  ⟨rfl, rfl, rfl, rfl, rfl, rfl⟩

/-- What the loop of `read_sections` has done when it ends normally: every entry was
inside the file, passed the check and was stored at its index. -/
theorem Elf.read_sections_loop_ok (count : Nat) : ∀ (idx pos : Nat) (e : Elf),
    (Elf.read_sections_loop count idx pos e).1 = .ok () →
    idx + count ≤ e.sections.length →
    (Elf.read_sections_loop count idx pos e).2.file.failbit = e.file.failbit ∧
    (0 < count → e.file.failbit = false) ∧
    (∀ k, k < count →
      pos + k * e.file_header.shentsize + 40 ≤ e.file.content.length ∧
      (Elf32_Shdr.decode (file_bytes e.file.content
        (pos + k * e.file_header.shentsize) 40)).invalid e.file_size = false ∧
      (Elf.read_sections_loop count idx pos e).2.sections[idx + k]? =
        some (Elf32_Shdr.decode (file_bytes e.file.content
          (pos + k * e.file_header.shentsize) 40))) ∧
    (∀ j, j < idx → (Elf.read_sections_loop count idx pos e).2.sections[j]? = e.sections[j]?) := by
  induction count with
  | zero =>
    intro idx pos e _ _
    simp [Elf.read_sections_loop]
  | succ n ih =>
    intro idx pos e hok hlen
    have hf : e.file.failbit = false := by
      by_contra hne
      rw [Elf.read_sections_loop_failed n idx pos e (by simpa using hne)] at hok
      exact absurd hok (by simp)
    have hfit : pos + 40 ≤ e.file.content.length := by
      by_contra hne
      rw [Elf.read_sections_loop_short n idx pos e hf (by omega)] at hok
      exact absurd hok (by simp)
    rw [Elf.read_sections_loop_succ n idx pos e hf hfit] at hok ⊢
    by_cases hinv : (Elf32_Shdr.decode (file_bytes e.file.content pos 40)).invalid e.file_size
        = true
    · rw [if_pos hinv] at hok
      exact absurd hok (by simp)
    · rw [if_neg hinv] at hok ⊢
      obtain ⟨w1, w2, w3, w4, w5, w6⟩ := Elf.with_section_fields e idx pos
      have h := ih (idx + 1) (pos + e.file_header.shentsize) (e.with_section idx pos) hok
        (by rw [w6, List.length_set]; omega)
      rw [w1, w2, w4, w5] at h
      obtain ⟨h1, -, h3, h4⟩ := h
      refine ⟨h1, fun _ => hf, ?_, ?_⟩
      · intro k hk
        cases k with
        | zero =>
          simp only [Nat.zero_mul, Nat.add_zero]
          refine ⟨hfit, by simpa using hinv, ?_⟩
          rw [h4 idx (by omega), w6, List.getElem?_set_self (by omega)]
        | succ k =>
          have := h3 k (by omega)
          have e1 : pos + e.file_header.shentsize + k * e.file_header.shentsize
              = pos + (k + 1) * e.file_header.shentsize := by ring
          have e2 : idx + 1 + k = idx + (k + 1) := by ring
          rw [e1, e2] at this
          exact this
      · intro j hj
        rw [h4 j (by omega), w6, List.getElem?_set_ne (by omega)]

/-- The loop of `read_sections` on a table with an entry that fails the check: it throws
"Invalid section header." without reading past that entry, and right after reading it
when every earlier entry passes the check. -/
theorem Elf.read_sections_loop_invalid (count : Nat) : ∀ (idx pos : Nat) (e : Elf) (k : Nat),
    e.file.failbit = false → k < count →
    pos + k * e.file_header.shentsize + 40 ≤ e.file.content.length →
    (Elf32_Shdr.decode (file_bytes e.file.content
      (pos + k * e.file_header.shentsize) 40)).invalid e.file_size = true →
    (Elf.read_sections_loop count idx pos e).1 = .error .invalid_section_header ∧
    (Elf.read_sections_loop count idx pos e).2.file.pos
      ≤ pos + k * e.file_header.shentsize + 40 ∧
    ((∀ j, j < k → (Elf32_Shdr.decode (file_bytes e.file.content
        (pos + j * e.file_header.shentsize) 40)).invalid e.file_size = false) →
      (Elf.read_sections_loop count idx pos e).2.file.pos
        = pos + k * e.file_header.shentsize + 40) := by
  induction count with
  | zero => intro idx pos e k _ hk; omega
  | succ n ih =>
    intro idx pos e k hf hk hfit hinv
    have hfit0 : pos + 40 ≤ e.file.content.length := by
      have : 0 ≤ k * e.file_header.shentsize := Nat.zero_le _
      omega
    rw [Elf.read_sections_loop_succ n idx pos e hf hfit0]
    obtain ⟨w1, w2, w3, w4, w5, -⟩ := Elf.with_section_fields e idx pos
    by_cases hinv0 : (Elf32_Shdr.decode (file_bytes e.file.content pos 40)).invalid e.file_size
        = true
    · rw [if_pos hinv0]
      refine ⟨rfl, by rw [w3]; omega, ?_⟩
      intro hall
      cases k with
      | zero => rw [w3]; simp
      | succ k =>
        have := hall 0 (by omega)
        simp only [Nat.zero_mul, Nat.add_zero] at this
        rw [this] at hinv0
        exact absurd hinv0 (by simp)
    · rw [if_neg hinv0]
      cases k with
      | zero =>
        simp only [Nat.zero_mul, Nat.add_zero] at hinv
        exact absurd hinv hinv0
      | succ k =>
        have e1 : pos + e.file_header.shentsize + k * e.file_header.shentsize
            = pos + (k + 1) * e.file_header.shentsize := by ring
        have h := ih (idx + 1) (pos + e.file_header.shentsize) (e.with_section idx pos) k
          (by rw [w1]; exact hf) (by omega)
          (by rw [w2, w5, e1]; exact hfit)
          (by rw [w2, w4, w5, e1]; exact hinv)
        rw [w2, w4, w5, e1] at h
        refine ⟨h.1, h.2.1, ?_⟩
        intro hall
        apply h.2.2
        intro j hj
        have := hall (j + 1) (by omega)
        have e2 : pos + e.file_header.shentsize + j * e.file_header.shentsize
            = pos + (j + 1) * e.file_header.shentsize := by ring
        rw [e2]
        exact this

/-- What `read_sections` has done when it returns normally. -/
theorem Elf.read_sections_ok (e : Elf) (hok : (e.read_sections).1 = .ok ()) :
    (e.read_sections).2.file.failbit = e.file.failbit ∧
    (e.read_sections).2.file.content = e.file.content ∧
    (e.read_sections).2.file_size = e.file_size ∧
    (e.read_sections).2.file_header = e.file_header ∧
    (e.read_sections).2.programs = e.programs ∧
    (e.read_sections).2.strings = e.strings ∧
    (e.read_sections).2.sections.length = e.file_header.shnum ∧
    (∀ i, i < e.file_header.shnum →
      e.file_header.shoff + i * e.file_header.shentsize + 40 ≤ e.file.content.length ∧
      (e.section_entry i).invalid e.file_size = false ∧
      (e.read_sections).2.sections[i]? = some (e.section_entry i)) := by
  unfold Elf.read_sections at hok ⊢
  simp only at hok ⊢
  have hlen := vector_resize_length Elf32_Shdr.zero e.sections e.file_header.shnum
  have hfr := Elf.read_sections_loop_frame e.file_header.shnum 0 e.file_header.shoff
    { e with sections := vector_resize Elf32_Shdr.zero e.sections e.file_header.shnum }
  have h := Elf.read_sections_loop_ok e.file_header.shnum 0 e.file_header.shoff
    { e with sections := vector_resize Elf32_Shdr.zero e.sections e.file_header.shnum }
    hok (by simp only [hlen]; omega)
  simp only at hfr h
  obtain ⟨f1, f2, f3, f4, f5, f6⟩ := hfr
  obtain ⟨h1, -, h3, -⟩ := h
  refine ⟨h1, f1, f2, f3, f4, f5, by rw [f6, hlen], ?_⟩
  intro i hi
  have := h3 i hi
  simp only [Nat.zero_add] at this
  exact this

/-! ## `read_section` and the constructor -/

theorem Elf.read_ok_failbit (e : Elf) (size : Nat) (buf : List Byte) (e2 : Elf)
    (h : e.read size = (.ok buf, e2)) : e2.file.failbit = false := by
  unfold Elf.read at h
  simp only [] at h
  split at h
  · simp at h
  · rename_i hfb
    simp only [Prod.mk.injEq] at h
    rw [← h.2]
    simpa using hfb

theorem Elf.seekg_frame (e : Elf) (pos : Nat) :
    ({ e with file := e.file.seekg pos } : Elf).file.content = e.file.content := by
  simp only [ifstream.seekg]; split_ifs <;> rfl

/-- `read_section` changes nothing of the object but the stream, whose content it keeps;
when it returns normally the stream has not failed. -/
theorem Elf.read_section_frame (e : Elf) (sect : ElfSection) (index : Nat) :
    (e.read_section sect index).2.1.file.content = e.file.content ∧
    (e.read_section sect index).2.1.file_size = e.file_size ∧
    (e.read_section sect index).2.1.file_header = e.file_header ∧
    (e.read_section sect index).2.1.sections = e.sections ∧
    (e.read_section sect index).2.1.programs = e.programs ∧
    (e.read_section sect index).2.1.strings = e.strings ∧
    ((e.read_section sect index).1 = .ok () → e.file.failbit = false →
      (e.read_section sect index).2.1.file.failbit = false) := by
  unfold Elf.read_section
  split_ifs with hidx
  · exact ⟨rfl, rfl, rfl, rfl, rfl, rfl, fun _ h => h⟩
  · simp only []
    generalize (e.file_header.shoff + index * e.file_header.shentsize) % 2 ^ 32 = pos
    have hc := Elf.seekg_frame e pos
    have hfr := Elf.read_frame { e with file := e.file.seekg pos } sizeof_Elf32_Shdr
    rcases hr : Elf.read { e with file := e.file.seekg pos } sizeof_Elf32_Shdr with ⟨r1, r2⟩
    rw [hr] at hfr
    simp only at hfr
    obtain ⟨f1, f2, f3, f4, f5, f6⟩ := hfr
    cases r1 with
    | error ex => exact ⟨f1.trans hc, f2, f3, f4, f5, f6, fun h => absurd h (by simp)⟩
    | ok buf =>
      simp only []
      generalize (Elf32_Shdr.decode buf).off = off
      generalize (Elf32_Shdr.decode buf).size = size
      have hc2 := Elf.seekg_frame r2 off
      have hfr2 := Elf.read_frame { r2 with file := r2.file.seekg off } size
      rcases hr2 : Elf.read { r2 with file := r2.file.seekg off } size with ⟨q1, q2⟩
      rw [hr2] at hfr2
      simp only at hfr2
      obtain ⟨g1, g2, g3, g4, g5, g6⟩ := hfr2
      cases q1 with
      | error ex =>
        exact ⟨g1.trans (hc2.trans (f1.trans hc)), g2.trans f2, g3.trans f3, g4.trans f4,
          g5.trans f5, g6.trans f6, fun h => absurd h (by simp)⟩
      | ok bytes =>
        exact ⟨g1.trans (hc2.trans (f1.trans hc)), g2.trans f2, g3.trans f3, g4.trans f4,
          g5.trans f5, g6.trans f6, fun _ _ => Elf.read_ok_failbit _ _ _ _ hr2⟩

/-- `read_programs` on a table with an entry that fails the check. -/
theorem Elf.read_programs_invalid (e : Elf) (i : Nat) (hf : e.file.failbit = false)
    (hi : i < e.file_header.phnum)
    (hfit : e.file_header.phoff + i * e.file_header.phentsize + 32 ≤ e.file.content.length)
    (hinv : (e.program_entry i).invalid e.file_size = true) :
    (e.read_programs).1 = .error .invalid_program_header ∧
    (e.read_programs).2.file.pos ≤ e.file_header.phoff + i * e.file_header.phentsize + 32 ∧
    ((∀ j, j < i → (e.program_entry j).invalid e.file_size = false) →
      (e.read_programs).2.file.pos
        = e.file_header.phoff + i * e.file_header.phentsize + 32) := by
  unfold Elf.read_programs
  exact Elf.read_programs_loop_invalid e.file_header.phnum 0 e.file_header.phoff
    { e with programs := vector_resize Elf32_Phdr.zero e.programs e.file_header.phnum }
    i hf hi hfit hinv

theorem Elf32_Phdr.invalid_of_filesz_gt (p : Elf32_Phdr) (file_size : Nat)
    (h : p.filesz > p.memsz) : p.invalid file_size = true := by
  simp [Elf32_Phdr.invalid, h]

theorem Elf32_Phdr.filesz_le_of_not_invalid (p : Elf32_Phdr) (file_size : Nat)
    (h : p.invalid file_size = false) : p.filesz ≤ p.memsz := by
  simp [Elf32_Phdr.invalid] at h
  omega

/-- The constructor fails on a file whose header is accepted and whose program header
table holds an entry that fails the check of `read_programs`. -/
theorem Elf.construct_invalid_program (content : List Byte) (i : Nat)
    (hok : (Elf.read_header (Elf.sized content)).1 = .ok ())
    (hi : i < (Elf.read_header (Elf.sized content)).2.file_header.phnum)
    (hfit : (Elf.read_header (Elf.sized content)).2.file_header.phoff +
      i * (Elf.read_header (Elf.sized content)).2.file_header.phentsize + 32 ≤ content.length)
    (hinv : ((Elf.read_header (Elf.sized content)).2.program_entry i).invalid content.length
      = true) :
    ∃ ex, Elf.construct (some content) = .error ex := by
  have hs := Elf.sized_file content
  have hf0 : (Elf.sized content).file.failbit = false := by rw [hs.1]
  have hfacts := Elf.read_header_ok (Elf.sized content) hf0 hok
  have hst := hfacts.2.1
  unfold Elf.construct
  simp only []
  rcases h1 : Elf.read_header (Elf.sized content) with ⟨r1, e1⟩
  rw [h1] at hok hi hfit hinv hst
  simp only at hok hi hfit hinv hst
  subst hok
  have c1 : e1.file.content = content := by rw [hst]; simp [Elf.with_header, hs.1]
  have b1 : e1.file.failbit = false := by rw [hst]; simp [Elf.with_header, hs.1]
  have s1 : e1.file_size = content.length := by rw [hst]; simp [Elf.with_header, hs.2.1]
  simp only []
  rcases h2 : e1.read_sections with ⟨r2, e2⟩
  cases r2 with
  | error ex => exact ⟨ex, rfl⟩
  | ok u2 =>
    have k2 := Elf.read_sections_ok e1 (by rw [h2])
    rw [h2] at k2
    simp only at k2
    obtain ⟨k21, k22, k23, k24, -⟩ := k2
    simp only []
    have fr := Elf.read_section_frame e2 e2.strings e2.file_header.shstrndx
    rcases h3 : e2.read_section e2.strings e2.file_header.shstrndx with ⟨r3, e3, s3⟩
    rw [h3] at fr
    simp only at fr
    obtain ⟨g1, g2, g3, -, -, -, g7⟩ := fr
    cases r3 with
    | error ex => exact ⟨ex, rfl⟩
    | ok u3 =>
      simp only []
      have b3 : e3.file.failbit = false := g7 rfl (by rw [k21, b1])
      have hp := Elf.read_programs_invalid { e3 with strings := s3 } i b3
        (by simp only [g3, k24]; exact hi)
        (by simp only [g3, k24, g1, k22, c1]; exact hfit)
        (by
          have : ({ e3 with strings := s3 } : Elf).program_entry i = e1.program_entry i := by
            simp only [Elf.program_entry, g3, k24, g1, k22]
          rw [this]
          simp only [g2, k23, s1]
          exact hinv)
      rcases h4 : Elf.read_programs { e3 with strings := s3 } with ⟨r4, e4⟩
      rw [h4] at hp
      simp only at hp
      rw [hp.1]
      exact ⟨_, rfl⟩

/-! ## `filesz ≤ memsz` (C5) -/

/-- C5.  (1) When `read_programs` returns normally, `programs` has `phnum` entries and
each has `filesz ≤ memsz`.
(2) When the stream has not failed and the entry of index `i < phnum` of the program
header table lies inside the file and has `filesz > memsz`, `read_programs` throws
"Invalid program header." and the stream stands no further than the end of that entry:
no later entry has been read.  It stands exactly there when every earlier entry passes
the check of the loop.
(3) On a file whose header is accepted and whose table has such an entry, the
constructor throws. -/
theorem read_programs_filesz_le_memsz :
    (∀ e : Elf, (e.read_programs).1 = .ok () →
      (e.read_programs).2.programs.length = e.file_header.phnum ∧
      ∀ p ∈ (e.read_programs).2.programs, p.filesz ≤ p.memsz) ∧
    (∀ (e : Elf) (i : Nat), e.file.failbit = false → i < e.file_header.phnum →
      e.file_header.phoff + i * e.file_header.phentsize + sizeof_Elf32_Phdr
        ≤ e.file.content.length →
      (e.program_entry i).filesz > (e.program_entry i).memsz →
      (e.read_programs).1 = .error .invalid_program_header ∧
      (e.read_programs).2.file.pos
        ≤ e.file_header.phoff + i * e.file_header.phentsize + sizeof_Elf32_Phdr ∧
      ((∀ j, j < i → (e.program_entry j).invalid e.file_size = false) →
        (e.read_programs).2.file.pos
          = e.file_header.phoff + i * e.file_header.phentsize + sizeof_Elf32_Phdr)) ∧
    (∀ (content : List Byte) (i : Nat),
      (Elf.read_header (Elf.sized content)).1 = .ok () →
      i < (Elf.read_header (Elf.sized content)).2.file_header.phnum →
      (Elf.read_header (Elf.sized content)).2.file_header.phoff +
        i * (Elf.read_header (Elf.sized content)).2.file_header.phentsize + sizeof_Elf32_Phdr
        ≤ content.length →
      ((Elf.read_header (Elf.sized content)).2.program_entry i).filesz >
        ((Elf.read_header (Elf.sized content)).2.program_entry i).memsz →
      ∃ ex, Elf.construct (some content) = .error ex) := by
  refine ⟨?_, ?_, ?_⟩
  · intro e hok
    obtain ⟨-, -, -, -, -, -, hlen, hall⟩ := Elf.read_programs_ok e hok
    refine ⟨hlen, ?_⟩
    intro p hp
    obtain ⟨i, hi, hget⟩ := List.getElem_of_mem hp
    have h := hall i (by omega)
    rw [List.getElem?_eq_getElem hi, hget] at h
    have hpe : p = e.program_entry i := Option.some.inj h.2.2
    rw [hpe]
    exact Elf32_Phdr.filesz_le_of_not_invalid _ _ h.2.1
  · intro e i hf hi hfit hgt
    exact Elf.read_programs_invalid e i hf hi hfit
      (Elf32_Phdr.invalid_of_filesz_gt _ _ hgt)
  · intro content i hok hi hfit hgt
    exact Elf.construct_invalid_program content i hok hi hfit
      (Elf32_Phdr.invalid_of_filesz_gt _ _ hgt)

set_option maxRecDepth 100000 in
/-- C5 at two files: in `file_minimal` every program header entry read has
`filesz ≤ memsz`; in `file_filesz_gt_memsz` the second entry has `filesz = 5` and
`memsz = 4`, `read_programs` throws "Invalid program header." and the constructor
fails. -/
theorem read_programs_filesz_le_memsz_witness :
    (∀ p ∈ ((Elf.read_header (Elf.sized file_minimal)).2.read_programs).2.programs,
      p.filesz ≤ p.memsz) ∧
    ((Elf.read_header (Elf.sized file_filesz_gt_memsz)).2.read_programs).1
      = .error .invalid_program_header ∧
    (∃ ex, Elf.construct (some file_filesz_gt_memsz) = .error ex) :=
  ⟨(read_programs_filesz_le_memsz.1 _ (by decide)).2,
   (read_programs_filesz_le_memsz.2.1 _ 1 (by decide) (by decide) (by decide) (by decide)).1,
   read_programs_filesz_le_memsz.2.2 file_filesz_gt_memsz 1 (by decide) (by decide)
     (by decide) (by decide)⟩

/-! ## The per-entry check of `read_sections` (C7) -/

/-- The boundary of the per-entry check in the arithmetic of the check.  Take the
iteration of the loop of `read_sections` that reads, from a stream that has not failed, a
section header entry `s` lying inside the file, with `s.type ≠ SHT_NOBITS`.
(1) If `off + size = file_size`, the check accepts `s`: the loop stores it and goes on
with the next iteration.
(2) If the sum the check computes (`off + size` in `uint32_t`) is `file_size + 1`, the
check rejects `s`: the loop throws "Invalid section header.".
(3) So it does if `off + size = file_size + 1` and this sum fits 32 bits. -/
theorem read_sections_bound_boundary (count idx pos : Nat) (e : Elf)
    (hf : e.file.failbit = false)
    (hfit : pos + sizeof_Elf32_Shdr ≤ e.file.content.length)
    (s : Elf32_Shdr)
    (hs : s = Elf32_Shdr.decode (file_bytes e.file.content pos sizeof_Elf32_Shdr))
    (hty : s.type ≠ SHT_NOBITS) :
    (s.off + s.size = e.file_size →
      s.invalid e.file_size = false ∧
      Elf.read_sections_loop (count + 1) idx pos e =
        Elf.read_sections_loop count (idx + 1) (pos + e.file_header.shentsize)
          (e.with_section idx pos)) ∧
    ((s.off + s.size) % 2 ^ 32 = e.file_size + 1 →
      s.invalid e.file_size = true ∧
      Elf.read_sections_loop (count + 1) idx pos e =
        (.error .invalid_section_header, e.with_section idx pos)) ∧
    (s.off + s.size = e.file_size + 1 → e.file_size + 1 < 2 ^ 32 →
      s.invalid e.file_size = true ∧
      Elf.read_sections_loop (count + 1) idx pos e =
        (.error .invalid_section_header, e.with_section idx pos)) := by
  simp only [sizeof_Elf32_Shdr] at hfit hs
  have hstep := Elf.read_sections_loop_succ count idx pos e hf hfit
  rw [← hs] at hstep
  have hrej : (s.off + s.size) % 2 ^ 32 = e.file_size + 1 →
      s.invalid e.file_size = true ∧
      Elf.read_sections_loop (count + 1) idx pos e =
        (.error .invalid_section_header, e.with_section idx pos) := by
    intro hsum
    have hinv : s.invalid e.file_size = true := by
      simp only [Elf32_Shdr.invalid, hsum, Bool.and_eq_true, decide_eq_true_eq]
      exact ⟨hty, by omega⟩
    rw [hstep, if_pos hinv]
    exact ⟨hinv, rfl⟩
  refine ⟨?_, hrej, ?_⟩
  · intro hsum
    have hle : (s.off + s.size) % 2 ^ 32 ≤ e.file_size := by
      rw [← hsum]; exact Nat.mod_le _ _
    have hinv : s.invalid e.file_size = false := by
      simp only [Elf32_Shdr.invalid, Bool.and_eq_false_iff, decide_eq_false_iff_not]
      right; omega
    rw [hstep, if_neg (by rw [hinv]; simp)]
    exact ⟨hinv, rfl⟩
  · intro hsum hlt
    apply hrej
    rw [hsum]
    exact Nat.mod_eq_of_lt hlt

set_option maxRecDepth 100000 in
/-- The boundary of the check at two 132-byte files, whose second section header entry
(at offset 92) is of type `SHT_PROGBITS`: with `off = 100` and `size = 32` the entry is accepted and so is the
file; with `size = 33` the loop throws "Invalid section header." and so does
`read_sections`. -/
theorem read_sections_bound_boundary_witness :
    (Elf.read_sections_loop 1 1 92 (Elf.read_header (Elf.sized (file_progbits 100 32))).2 =
      Elf.read_sections_loop 0 2
        (92 + (Elf.read_header (Elf.sized (file_progbits 100 32))).2.file_header.shentsize)
        ((Elf.read_header (Elf.sized (file_progbits 100 32))).2.with_section 1 92)) ∧
    (Elf.read_sections_loop 1 1 92 (Elf.read_header (Elf.sized (file_progbits 100 33))).2).1
      = .error .invalid_section_header ∧
    (Elf.construct (some (file_progbits 100 32))).toBool = true ∧
    ((Elf.read_header (Elf.sized (file_progbits 100 33))).2.read_sections).1
      = .error .invalid_section_header :=
  ⟨((read_sections_bound_boundary 0 1 92 _ (by decide) (by decide) (shdr_progbits 100 32)
      (by decide) (by decide)).1 (by decide)).2,
   congrArg Prod.fst ((read_sections_bound_boundary 0 1 92 _ (by decide) (by decide)
      (shdr_progbits 100 33) (by decide) (by decide)).2.1 (by decide)).2,
   by decide, by decide⟩

/-- C7.  (1) The check of `read_sections` never rejects an entry of type `SHT_NOBITS`,
whatever its `off` and `size` and whatever the file size.
(2) The iteration of the loop that reads such an entry, lying inside the file, from a
stream that has not failed, stores it and goes on with the next iteration.
(3) An iteration whose read of the entry fails (the stream has failed, or the file ends
before the 40 bytes) throws "File read error.". -/
theorem read_sections_nobits_exempt :
    (∀ (s : Elf32_Shdr) (file_size : Nat), s.type = SHT_NOBITS →
      s.invalid file_size = false) ∧
    (∀ (count idx pos : Nat) (e : Elf), e.file.failbit = false →
      pos + sizeof_Elf32_Shdr ≤ e.file.content.length →
      (Elf32_Shdr.decode (file_bytes e.file.content pos sizeof_Elf32_Shdr)).type
        = SHT_NOBITS →
      Elf.read_sections_loop (count + 1) idx pos e =
        Elf.read_sections_loop count (idx + 1) (pos + e.file_header.shentsize)
          (e.with_section idx pos)) ∧
    (∀ (count idx pos : Nat) (e : Elf),
      ¬ (e.file.failbit = false ∧ pos + sizeof_Elf32_Shdr ≤ e.file.content.length) →
      (Elf.read_sections_loop (count + 1) idx pos e).1 = .error .file_read_error) := by
  have h1 : ∀ (s : Elf32_Shdr) (file_size : Nat), s.type = SHT_NOBITS →
      s.invalid file_size = false := by
    intro s fs hty
    simp [Elf32_Shdr.invalid, hty]
  refine ⟨h1, ?_, ?_⟩
  · intro count idx pos e hf hfit hty
    simp only [sizeof_Elf32_Shdr] at hfit hty
    rw [Elf.read_sections_loop_succ count idx pos e hf hfit, if_neg]
    rw [h1 _ _ hty]
    simp
  · intro count idx pos e hno
    simp only [sizeof_Elf32_Shdr] at hno
    by_cases hf : e.file.failbit = false
    · have hlt : ¬ pos + 40 ≤ e.file.content.length := fun h => hno ⟨hf, h⟩
      exact Elf.read_sections_loop_short count idx pos e hf (by omega)
    · exact Elf.read_sections_loop_failed count idx pos e (by simpa using hf)

set_option maxRecDepth 100000 in
/-- C7 at the 132-byte file `file_nobits`, whose second section header entry (at offset
92) has type `SHT_NOBITS`, `off = 4096` and `size = 4096`: the check passes, the loop
goes on, and the constructor accepts the file. -/
theorem read_sections_nobits_exempt_witness :
    shdr_nobits.invalid 132 = false ∧
    (Elf.read_sections_loop 1 1 92 (Elf.read_header (Elf.sized file_nobits)).2 =
      Elf.read_sections_loop 0 2
        (92 + (Elf.read_header (Elf.sized file_nobits)).2.file_header.shentsize)
        ((Elf.read_header (Elf.sized file_nobits)).2.with_section 1 92)) ∧
    (Elf.construct (some file_nobits)).toBool = true :=
  ⟨read_sections_nobits_exempt.1 shdr_nobits 132 (by decide),
   read_sections_nobits_exempt.2.1 0 1 92 _ (by decide) (by decide) (by decide),
   by decide⟩

/-! ## The declared sizes (C11) -/

/-- The outcome of `read_header` on a file of at least 52 bytes, in terms of the header
`h` held by those bytes. -/
theorem Elf.read_header_sized_fst (content : List Byte) (h : Elf32_Ehdr)
    (hh : h = Elf32_Ehdr.decode (content.take 52)) (hlen : 52 ≤ content.length) :
    (Elf.read_header (Elf.sized content)).1 =
      if strncmp h.ident supported_header 7 ≠ 0 then .error .unsupported_elf_file
      else if h.version ≠ EV_CURRENT then .error .unsupported_file_version
      else if h.ehsize < 52 then .error .invalid_file_header_size
      else if h.phoff ≥ content.length then .error .invalid_program_header_file_offset
      else if h.phentsize < 32 then .error .invalid_program_header_size
      else if (h.phoff + h.phnum * 32) % 2 ^ 64 > content.length then
        .error .invalid_number_of_program_header_entries
      else if h.shoff ≥ content.length then .error .invalid_section_header_file_offset
      else if h.shentsize < 40 then .error .invalid_section_header_size
      else if (h.shoff + h.shnum * 40) % 2 ^ 64 > content.length then
        .error .invalid_number_of_section_header_entries
      else if h.shstrndx ≥ h.shnum then .error .invalid_section_name_strings_section_index
      else .ok () := by
  have hs := Elf.sized_file content
  have hf : (Elf.sized content).file.failbit = false := by rw [hs.1]
  have hlen2 : 52 ≤ (Elf.sized content).file.content.length := by rw [hs.1]; exact hlen
  have hwh : (Elf.sized content).with_header.file_header = h := by
    rw [Elf.sized_with_header_file_header, hh]
  rw [Elf.read_header_of_fits (Elf.sized content) hf hlen2, hwh, hs.2.1]
  simp only [apply_ite Prod.fst]

set_option maxRecDepth 100000 in
/-- C11 (counterexample).  The 124-byte file `file_phentsize_16` has the supported
identification bytes, version 1, `ehsize = 52` and `phentsize = 16 < 32`, yet
`read_header` does not throw one of the three size exceptions: with `phoff = 124` equal
to the file size it throws "Invalid program header file offset.", the check that comes
before the one of `phentsize`. -/
theorem read_header_small_phentsize_other_error :
    file_phentsize_16.take 7 = [0x7f, 0x45, 0x4c, 0x46, 0x01, 0x01, 0x01] ∧
    (Elf32_Ehdr.decode (file_phentsize_16.take 52)).version = EV_CURRENT ∧
    (Elf32_Ehdr.decode (file_phentsize_16.take 52)).phentsize < sizeof_Elf32_Phdr ∧
    (Elf.read_header (Elf.sized file_phentsize_16)).1
      = .error .invalid_program_header_file_offset ∧
    (Elf.read_header (Elf.sized file_phentsize_16)).1 ≠ .error .invalid_file_header_size ∧
    (Elf.read_header (Elf.sized file_phentsize_16)).1
      ≠ .error .invalid_program_header_size ∧
    (Elf.read_header (Elf.sized file_phentsize_16)).1
      ≠ .error .invalid_section_header_size := by
  decide

/-- C11 (amended).  Let `h` be the header of a file of at least 52 bytes with the
supported identification bytes and `version = EV_CURRENT`.
(1) If `ehsize < 52`, `read_header` throws "Invalid file header size.".
(2) Otherwise, if `phentsize < 32`, it throws "Invalid program header size.", unless
`phoff ≥ file_size`, which is checked before and throws "Invalid program header file
offset.".
(3) Otherwise, if `shentsize < 40`, it throws "Invalid section header size.", unless one
of the three bounds checked before (on `phoff`, on `phnum`, on `shoff`) fails and throws
its own exception.
(4) So `read_header` throws in all three cases, and every accepted header has
`ehsize ≥ 52`, `phentsize ≥ 32` and `shentsize ≥ 40`. -/
theorem read_header_declared_sizes (content : List Byte) (h : Elf32_Ehdr)
    (hh : h = Elf32_Ehdr.decode (content.take sizeof_Elf32_Ehdr))
    (hlen : sizeof_Elf32_Ehdr ≤ content.length)
    (hid : content.take 7 = [0x7f, 0x45, 0x4c, 0x46, 0x01, 0x01, 0x01])
    (hver : h.version = EV_CURRENT) :
    (h.ehsize < sizeof_Elf32_Ehdr →
      (Elf.read_header (Elf.sized content)).1 = .error .invalid_file_header_size) ∧
    (¬ h.ehsize < sizeof_Elf32_Ehdr → h.phentsize < sizeof_Elf32_Phdr →
      (Elf.read_header (Elf.sized content)).1 =
        if h.phoff ≥ content.length then .error .invalid_program_header_file_offset
        else .error .invalid_program_header_size) ∧
    (¬ h.ehsize < sizeof_Elf32_Ehdr → ¬ h.phentsize < sizeof_Elf32_Phdr →
      h.shentsize < sizeof_Elf32_Shdr →
      (Elf.read_header (Elf.sized content)).1 =
        if h.phoff ≥ content.length then .error .invalid_program_header_file_offset
        else if (h.phoff + h.phnum * sizeof_Elf32_Phdr) % 2 ^ 64 > content.length then
          .error .invalid_number_of_program_header_entries
        else if h.shoff ≥ content.length then .error .invalid_section_header_file_offset
        else .error .invalid_section_header_size) ∧
    (h.ehsize < sizeof_Elf32_Ehdr ∨ h.phentsize < sizeof_Elf32_Phdr ∨
        h.shentsize < sizeof_Elf32_Shdr →
      ∃ ex, (Elf.read_header (Elf.sized content)).1 = .error ex) ∧
    ((Elf.read_header (Elf.sized content)).1 = .ok () →
      sizeof_Elf32_Ehdr ≤ h.ehsize ∧ sizeof_Elf32_Phdr ≤ h.phentsize ∧
      sizeof_Elf32_Shdr ≤ h.shentsize) := by
  simp only [sizeof_Elf32_Ehdr, sizeof_Elf32_Phdr, sizeof_Elf32_Shdr] at *
  have hfst := Elf.read_header_sized_fst content h hh hlen
  have c1 : ¬ strncmp h.ident supported_header 7 ≠ 0 := by
    rw [not_not, strncmp_supported_header, hh, decode_ident_take]
    exact hid
  have c2 : ¬ h.version ≠ EV_CURRENT := not_not.mpr hver
  rw [if_neg c1, if_neg c2] at hfst
  have p1 : h.ehsize < 52 →
      (Elf.read_header (Elf.sized content)).1 = .error .invalid_file_header_size := by
    intro c3
    rw [hfst, if_pos c3]
  have p2 : ¬ h.ehsize < 52 → h.phentsize < 32 →
      (Elf.read_header (Elf.sized content)).1 =
        if h.phoff ≥ content.length then .error .invalid_program_header_file_offset
        else .error .invalid_program_header_size := by
    intro c3 c5
    rw [hfst, if_neg c3, if_pos c5]
  have p3 : ¬ h.ehsize < 52 → ¬ h.phentsize < 32 → h.shentsize < 40 →
      (Elf.read_header (Elf.sized content)).1 =
        if h.phoff ≥ content.length then .error .invalid_program_header_file_offset
        else if (h.phoff + h.phnum * 32) % 2 ^ 64 > content.length then
          .error .invalid_number_of_program_header_entries
        else if h.shoff ≥ content.length then .error .invalid_section_header_file_offset
        else .error .invalid_section_header_size := by
    intro c3 c5 c8
    rw [hfst, if_neg c3, if_neg c5, if_pos c8]
  have hs := Elf.sized_file content
  have p5 : (Elf.read_header (Elf.sized content)).1 = .ok () →
      52 ≤ h.ehsize ∧ 32 ≤ h.phentsize ∧ 40 ≤ h.shentsize := by
    intro hok
    have hfacts := Elf.read_header_ok (Elf.sized content) (by rw [hs.1]) hok
    have hwh : (Elf.sized content).with_header.file_header = h := by
      rw [Elf.sized_with_header_file_header, hh]
    rw [hwh] at hfacts
    exact ⟨hfacts.2.2.2.2.1, hfacts.2.2.2.2.2.2.1, hfacts.2.2.2.2.2.2.2.2.2.1⟩
  refine ⟨p1, p2, p3, ?_, p5⟩
  intro hsmall
  cases hr : (Elf.read_header (Elf.sized content)).1 with
  | error ex => exact ⟨ex, rfl⟩
  | ok u =>
    have := p5 hr
    omega

set_option maxRecDepth 100000 in
/-- C11 (amended) at the file `file_phentsize_16`: `phentsize = 16` and `phoff = 124` is
the file size; the exception is "Invalid program header file offset.". -/
theorem read_header_declared_sizes_witness :
    (Elf.read_header (Elf.sized file_phentsize_16)).1 =
      (if (Elf32_Ehdr.decode (file_phentsize_16.take sizeof_Elf32_Ehdr)).phoff
          ≥ file_phentsize_16.length
        then .error .invalid_program_header_file_offset
        else .error .invalid_program_header_size) ∧
    (∃ ex, (Elf.read_header (Elf.sized file_phentsize_16)).1 = .error ex) :=
  have h := read_header_declared_sizes file_phentsize_16 _ rfl (by decide) (by decide)
    (by decide)
  ⟨h.2.1 (by decide) (by decide), h.2.2.2.1 (Or.inr (Or.inl (by decide)))⟩

/-! ## Reads in general -/

/-- A read from a stream that has not failed succeeds when the bytes asked for are there
(none are needed for a read of length 0). -/
theorem Elf.read_of_available (e : Elf) (size : Nat) (hf : e.file.failbit = false)
    (h : (file_bytes e.file.content e.file.pos size).length = size) :
    e.read size = (.ok (file_bytes e.file.content e.file.pos size),
      { e with file := { e.file with pos := e.file.pos + size } }) := by
  obtain ⟨f, fs, fh, ss, ps, st⟩ := e
  obtain ⟨c, p, fb⟩ := f
  simp only at hf h
  subst hf
  unfold file_bytes at h
  simp [Elf.read, ifstream.read, file_bytes, h]

/-- What a successful read has done. -/
theorem Elf.read_eq_ok (e : Elf) (size : Nat) (buf : List Byte) (e2 : Elf)
    (h : e.read size = (.ok buf, e2)) :
    e.file.failbit = false ∧ buf = file_bytes e.file.content e.file.pos size ∧
    buf.length = size ∧
    e2 = { e with file := { e.file with pos := e.file.pos + size } } := by
  have hf : e.file.failbit = false := by
    by_contra hne
    rw [Elf.read_of_failed e size (by simpa using hne)] at h
    simp at h
  have hav : (file_bytes e.file.content e.file.pos size).length = size := by
    by_contra hne
    have hlt : e.file.content.length - e.file.pos < size := by
      simp [file_bytes] at hne
      omega
    have := Elf.read_of_short e size hf hlt
    rw [h] at this
    simp at this
  rw [Elf.read_of_available e size hf hav] at h
  simp only [Prod.mk.injEq, Except.ok.injEq] at h
  exact ⟨hf, h.1.symm, by rw [← h.1]; exact hav, h.2.symm⟩

/-- A read from a stream that has not failed fails when the bytes asked for are not all
there. -/
theorem Elf.read_of_unavailable (e : Elf) (size : Nat) (hf : e.file.failbit = false)
    (h : (file_bytes e.file.content e.file.pos size).length ≠ size) :
    e.read size = (.error .file_read_error,
      { e with file := (e.file.read size).2 }) ∧
    (e.file.read size).2.failbit = true := by
  have hlt : e.file.content.length - e.file.pos < size := by
    simp [file_bytes] at h
    omega
  have hfb := ifstream.extract_of_short e.file size hf hlt
  refine ⟨?_, hfb⟩
  simp [Elf.read, hfb]

/-! ## `read_section` -/

/-- `read_section` on a valid index, from a stream that has not failed, when the header
and the bytes of the section are there. -/
theorem Elf.read_section_of_available (e : Elf) (sect : ElfSection) (index : Nat)
    (hidx : index < e.sections.length) (hf : e.file.failbit = false)
    (hfit : (e.file_header.shoff + index * e.file_header.shentsize) % 2 ^ 32 + 40
      ≤ e.file.content.length)
    (hav : (file_bytes e.file.content (e.reread_header index).off
      (e.reread_header index).size).length = (e.reread_header index).size) :
    e.read_section sect index =
      (.ok (),
       { e with file := { e.file with
           pos := (e.reread_header index).off + (e.reread_header index).size } },
       ⟨e.reread_header index,
        file_bytes e.file.content (e.reread_header index).off (e.reread_header index).size⟩) := by
  obtain ⟨f, fs, fh, ss, ps, st⟩ := e
  obtain ⟨c, p, fb⟩ := f
  simp only at hidx hf hfit
  subst hf
  unfold Elf.read_section
  simp only [Elf.reread_header, sizeof_Elf32_Shdr, if_neg (Nat.not_le.mpr hidx)] at hav ⊢
  generalize (fh.shoff + index * fh.shentsize) % 2 ^ 32 = pos at hfit hav ⊢
  have h40 : (List.take 40 (List.drop pos c)).length = 40 := by simp; omega
  unfold file_bytes at hav
  unfold file_bytes
  generalize hhdr : Elf32_Shdr.decode (List.take 40 (List.drop pos c)) = hdr at hav ⊢
  simp only [Elf.read, ifstream.read, ifstream.seekg, h40, hhdr, hav, Bool.false_eq_true,
    if_false, lt_self_iff_false, decide_False]

/-- What `read_section` has found when it returns normally. -/
theorem Elf.read_section_eq_ok (e : Elf) (sect : ElfSection) (index : Nat)
    (hok : (e.read_section sect index).1 = .ok ()) :
    index < e.sections.length ∧ e.file.failbit = false ∧
    (e.file_header.shoff + index * e.file_header.shentsize) % 2 ^ 32 + 40
      ≤ e.file.content.length ∧
    (file_bytes e.file.content (e.reread_header index).off
      (e.reread_header index).size).length = (e.reread_header index).size := by
  obtain ⟨f, fs, fh, ss, ps, st⟩ := e
  obtain ⟨c, p, fb⟩ := f
  have hidx : index < ss.length := by
    by_contra hne
    simp [Elf.read_section, Nat.not_lt.mp hne] at hok
  unfold Elf.read_section at hok
  simp only [Elf.reread_header, sizeof_Elf32_Shdr, if_neg (Nat.not_le.mpr hidx)] at hok ⊢
  generalize (fh.shoff + index * fh.shentsize) % 2 ^ 32 = pos at hok ⊢
  have hf : fb = false := by
    by_contra hne
    have : fb = true := by simpa using hne
    subst this
    simp [Elf.read, ifstream.read, ifstream.seekg] at hok
  subst hf
  have hfit : pos + 40 ≤ c.length := by
    by_contra hne
    have hlt : c.length - pos < 40 := by omega
    simp [Elf.read, ifstream.read, ifstream.seekg, hlt] at hok
  have h40 : (List.take 40 (List.drop pos c)).length = 40 := by simp; omega
  refine ⟨hidx, rfl, hfit, ?_⟩
  unfold file_bytes
  generalize hhdr : Elf32_Shdr.decode (List.take 40 (List.drop pos c)) = hdr at hok ⊢
  by_contra hne
  have hlt : c.length - hdr.off < hdr.size := by
    simp at hne
    omega
  have h40' : ¬ c.length - pos < 40 := by omega
  simp [Elf.read, ifstream.read, ifstream.seekg, h40', hhdr, hlt] at hok

/-! ## The object the constructor builds -/

/-- What holds of the object the constructor has built from a file: the stream has the
file as content and has not failed, `file_size` is its length, the header has passed
`read_header`, and both tables hold, entry by entry, what the file holds at the
positions the header gives, each entry having passed its check. -/
theorem Elf.construct_ok (content : List Byte) (e : Elf)
    (h : Elf.construct (some content) = .ok e) :
    e.file.content = content ∧ e.file.failbit = false ∧ e.file_size = content.length ∧
    e.file_header = Elf32_Ehdr.decode (content.take 52) ∧
    (Elf.read_header (Elf.sized content)).1 = .ok () ∧
    e.sections.length = e.file_header.shnum ∧
    (∀ i, i < e.file_header.shnum →
      e.file_header.shoff + i * e.file_header.shentsize + 40 ≤ content.length ∧
      (e.section_entry i).invalid e.file_size = false ∧
      e.sections[i]? = some (e.section_entry i)) ∧
    e.programs.length = e.file_header.phnum ∧
    (∀ i, i < e.file_header.phnum →
      e.file_header.phoff + i * e.file_header.phentsize + 32 ≤ content.length ∧
      (e.program_entry i).invalid e.file_size = false ∧
      e.programs[i]? = some (e.program_entry i)) := by
  have hs := Elf.sized_file content
  have hf0 : (Elf.sized content).file.failbit = false := by rw [hs.1]
  unfold Elf.construct at h
  simp only [] at h
  rcases h1 : Elf.read_header (Elf.sized content) with ⟨r1, e1⟩
  rw [h1] at h
  cases r1 with
  | error ex => simp at h
  | ok u1 =>
    have hok1 : (Elf.read_header (Elf.sized content)).1 = .ok () := by rw [h1]
    have hst := (Elf.read_header_ok (Elf.sized content) hf0 hok1).2.1
    rw [h1] at hst
    simp only at hst
    have c1 : e1.file.content = content := by rw [hst]; simp [Elf.with_header, hs.1]
    have b1 : e1.file.failbit = false := by rw [hst]; simp [Elf.with_header, hs.1]
    have s1 : e1.file_size = content.length := by rw [hst]; simp [Elf.with_header, hs.2.1]
    have d1 : e1.file_header = Elf32_Ehdr.decode (content.take 52) := by
      rw [hst]; simp [Elf.with_header, hs.1]
    simp only [] at h
    rcases h2 : e1.read_sections with ⟨r2, e2⟩
    rw [h2] at h
    cases r2 with
    | error ex => simp at h
    | ok u2 =>
      have k2 := Elf.read_sections_ok e1 (by rw [h2])
      rw [h2] at k2
      simp only at k2
      obtain ⟨k21, k22, k23, k24, -, -, k27, k28⟩ := k2
      simp only [] at h
      have fr := Elf.read_section_frame e2 e2.strings e2.file_header.shstrndx
      rcases h3 : e2.read_section e2.strings e2.file_header.shstrndx with ⟨r3, e3, s3⟩
      rw [h3] at fr h
      simp only at fr
      obtain ⟨g1, g2, g3, g4, -, -, g7⟩ := fr
      cases r3 with
      | error ex => simp at h
      | ok u3 =>
        simp only [] at h
        have b3 : e3.file.failbit = false := g7 rfl (by rw [k21, b1])
        rcases h4 : Elf.read_programs { e3 with strings := s3 } with ⟨r4, e4⟩
        rw [h4] at h
        cases r4 with
        | error ex => simp at h
        | ok u4 =>
          simp only [Except.ok.injEq] at h
          subst h
          have k4 := Elf.read_programs_ok { e3 with strings := s3 } (by rw [h4])
          rw [h4] at k4
          simp only at k4
          obtain ⟨m1, m2, m3, m4, m5, -, m7, m8⟩ := k4
          have hc : e4.file.content = content := by rw [m2, g1, k22, c1]
          have hh : e4.file_header = e1.file_header := by rw [m4, g3, k24]
          have hsz : e4.file_size = e1.file_size := by rw [m3, g2, k23]
          refine ⟨hc, by rw [m1, b3], by rw [hsz, s1], by rw [hh, d1], rfl,
            by rw [m5, g4, k27, hh], ?_, by rw [m7, hh, g3, k24], ?_⟩
          · intro i hi
            rw [hh] at hi
            have := k28 i hi
            have hse : e4.section_entry i = e1.section_entry i := by
              simp only [Elf.section_entry, hc, hh, c1]
            rw [hh, hse, hsz, m5, g4, ← c1]
            exact this
          · intro i hi
            rw [m4] at hi
            have := m8 i hi
            have hpe : e4.program_entry i = Elf.program_entry { e3 with strings := s3 } i := by
              simp only [Elf.program_entry, m2, m4]
            rw [m4, hpe, m3, ← hc, m2]
            exact this

/-! ## Stride and order of the tables (C17) -/

/-- C17.  When `read_programs` returns normally, `programs` has exactly `phnum` entries
and, for every `i < phnum`, the 32 bytes at offset `phoff + i * phentsize` lie inside
the file and `programs[i]` is their little-endian decoding: the stride is the declared
`phentsize`, the order is that of the file, and what an on-disk entry holds beyond its
first 32 bytes plays no part.  Likewise for `read_sections`, with `shnum`, 40 bytes,
`shoff` and `shentsize`. -/
theorem read_tables_stride_and_order :
    (∀ e : Elf, (e.read_programs).1 = .ok () →
      (e.read_programs).2.programs.length = e.file_header.phnum ∧
      ∀ i, i < e.file_header.phnum →
        e.file_header.phoff + i * e.file_header.phentsize + sizeof_Elf32_Phdr
          ≤ e.file.content.length ∧
        (e.read_programs).2.programs[i]? =
          some (Elf32_Phdr.decode (file_bytes e.file.content
            (e.file_header.phoff + i * e.file_header.phentsize) sizeof_Elf32_Phdr))) ∧
    (∀ e : Elf, (e.read_sections).1 = .ok () →
      (e.read_sections).2.sections.length = e.file_header.shnum ∧
      ∀ i, i < e.file_header.shnum →
        e.file_header.shoff + i * e.file_header.shentsize + sizeof_Elf32_Shdr
          ≤ e.file.content.length ∧
        (e.read_sections).2.sections[i]? =
          some (Elf32_Shdr.decode (file_bytes e.file.content
            (e.file_header.shoff + i * e.file_header.shentsize) sizeof_Elf32_Shdr))) := by
  constructor
  · intro e hok
    obtain ⟨-, -, -, -, -, -, hlen, hall⟩ := Elf.read_programs_ok e hok
    exact ⟨hlen, fun i hi => ⟨(hall i hi).1, (hall i hi).2.2⟩⟩
  · intro e hok
    obtain ⟨-, -, -, -, -, -, hlen, hall⟩ := Elf.read_sections_ok e hok
    exact ⟨hlen, fun i hi => ⟨(hall i hi).1, (hall i hi).2.2⟩⟩

set_option maxRecDepth 100000 in
/-- C17 at the file `file_stride_48` (`phentsize = 48`, `phnum = 2`): the second entry
read is the decoding of the 32 bytes at offset `92 + 48`, which is `phdr_load 60 8192 4
16`; in `file_minimal` the one section header entry read is the decoding of the 40 bytes
at offset 52. -/
theorem read_tables_stride_and_order_witness :
    ((Elf.read_header (Elf.sized file_stride_48)).2.read_programs).2.programs[1]? =
      some (Elf32_Phdr.decode (file_bytes file_stride_48 (92 + 1 * 48) 32)) ∧
    Elf32_Phdr.decode (file_bytes file_stride_48 (92 + 1 * 48) 32) = phdr_load 60 8192 4 16 ∧
    ((Elf.read_header (Elf.sized file_minimal)).2.read_sections).2.sections[0]? =
      some (Elf32_Shdr.decode (file_bytes file_minimal (52 + 0 * 40) 40)) :=
  ⟨((read_tables_stride_and_order.1 (Elf.read_header (Elf.sized file_stride_48)).2
      (by decide)).2 1 (by decide)).2,
   by decide,
   ((read_tables_stride_and_order.2 (Elf.read_header (Elf.sized file_minimal)).2
      (by decide)).2 0 (by decide)).2⟩

/-! ## `read_section`: index check, content, repetition (C15) -/

/-- C15.  (1) For every object, section and `index ≥ sections.size()`, `read_section`
throws "Invalid section index." and leaves the object, its stream included (no seek, no
read), and the section passed to it, header and buffer, exactly as they were.
(2) In the object the constructor builds, `sections.size()` is `shnum`, so this is the
case of every `index ≥ shnum`. -/
theorem read_section_invalid_index :
    (∀ (e : Elf) (sect : ElfSection) (index : Nat), index ≥ e.sections.length →
      e.read_section sect index = (.error .invalid_section_index, e, sect)) ∧
    (∀ (content : List Byte) (e : Elf) (sect : ElfSection) (index : Nat),
      Elf.construct (some content) = .ok e → index ≥ e.file_header.shnum →
      e.sections.length = e.file_header.shnum ∧
      e.read_section sect index = (.error .invalid_section_index, e, sect)) := by
  have h1 : ∀ (e : Elf) (sect : ElfSection) (index : Nat), index ≥ e.sections.length →
      e.read_section sect index = (.error .invalid_section_index, e, sect) := by
    intro e sect index hge
    unfold Elf.read_section
    rw [if_pos hge]
  refine ⟨h1, ?_⟩
  intro content e sect index hc hge
  have hlen := (Elf.construct_ok content e hc).2.2.2.2.2.1
  exact ⟨hlen, h1 e sect index (by omega)⟩

set_option maxRecDepth 100000 in
/-- C15 at the object built from `file_strtab` (`shnum = 2`), a section holding the
header `shdr_nobits` and the buffer `[1, 2, 3]`, and the index 2. -/
theorem read_section_invalid_index_witness :
    ∃ e, Elf.construct (some file_strtab) = .ok e ∧
      e.read_section ⟨shdr_nobits, [1, 2, 3]⟩ 2
        = (.error .invalid_section_index, e, ⟨shdr_nobits, [1, 2, 3]⟩) :=
  ⟨_, rfl, (read_section_invalid_index.2 file_strtab _ ⟨shdr_nobits, [1, 2, 3]⟩ 2 rfl
    (by decide)).2⟩

/-- What `read_section` leaves, with the position of the header as the call computes it.
Let `read_section` return normally for `index`, and let `header` and `buffer` be those of
the section it leaves.
(1) `header` is the decoding of the 40 bytes at the position the call seeks to,
`shoff + index * shentsize` in `unsigned int`; this is `shoff + index * shentsize` itself
when that is below `2^32`.
(2) `buffer` has exactly `header.size` bytes, the bytes of the file at offsets
`header.off .. header.off + header.size - 1`.
(3) A second call with the same index, on the object as the first call left it and with
any section, returns normally too and leaves a section with the same header and the same
buffer. -/
theorem read_section_content_and_repetition (e : Elf) (sect : ElfSection) (index : Nat)
    (hok : (e.read_section sect index).1 = .ok ()) :
    index < e.sections.length ∧
    (e.read_section sect index).2.2.header =
      Elf32_Shdr.decode (file_bytes e.file.content
        ((e.file_header.shoff + index * e.file_header.shentsize) % 2 ^ 32)
        sizeof_Elf32_Shdr) ∧
    (e.file_header.shoff + index * e.file_header.shentsize < 2 ^ 32 →
      (e.read_section sect index).2.2.header =
        Elf32_Shdr.decode (file_bytes e.file.content
          (e.file_header.shoff + index * e.file_header.shentsize) sizeof_Elf32_Shdr)) ∧
    (e.read_section sect index).2.2.buffer.length
      = (e.read_section sect index).2.2.header.size ∧
    (e.read_section sect index).2.2.buffer =
      file_bytes e.file.content (e.read_section sect index).2.2.header.off
        (e.read_section sect index).2.2.header.size ∧
    (∀ sect2 : ElfSection,
      ((e.read_section sect index).2.1.read_section sect2 index).1 = .ok () ∧
      ((e.read_section sect index).2.1.read_section sect2 index).2.2
        = (e.read_section sect index).2.2) := by
  obtain ⟨hidx, hf, hfit, hav⟩ := Elf.read_section_eq_ok e sect index hok
  have hr := Elf.read_section_of_available e sect index hidx hf hfit hav
  rw [hr]
  simp only []
  refine ⟨hidx, rfl, ?_, hav, trivial, ?_⟩
  · intro hlt
    rw [Elf.reread_header, Nat.mod_eq_of_lt hlt]
  · intro sect2
    have hrr : Elf.reread_header { e with file := { e.file with
        pos := (e.reread_header index).off + (e.reread_header index).size } } index
        = e.reread_header index := rfl
    have hr2 := Elf.read_section_of_available { e with file := { e.file with
        pos := (e.reread_header index).off + (e.reread_header index).size } } sect2 index
      hidx hf hfit (by rw [hrr]; exact hav)
    rw [hr2, hrr]
    exact ⟨rfl, rfl⟩

set_option maxRecDepth 100000 in
/-- The content `read_section` leaves at the object built from `file_strtab` and the
index 1: the section read has the
header `shdr_strtab 132 2` and the buffer `00 61`, the two bytes at offset 132, and a
second call gives the same. -/
theorem read_section_content_and_repetition_witness :
    ∃ e, Elf.construct (some file_strtab) = .ok e ∧
      (e.read_section ElfSection.empty 1).2.2 = ⟨shdr_strtab 132 2, [0x00, 0x61]⟩ ∧
      (e.read_section ElfSection.empty 1).2.2.buffer = file_bytes file_strtab 132 2 ∧
      ((e.read_section ElfSection.empty 1).2.1.read_section ElfSection.empty 1).2.2
        = (e.read_section ElfSection.empty 1).2.2 :=
  ⟨_, rfl, by decide, by decide,
    ((read_section_content_and_repetition _ ElfSection.empty 1 (by decide)).2.2.2.2.2
      ElfSection.empty).2⟩

/-! ## The loop of `read_image` -/

theorem Elf.read_image_loop_skip (hdr : Elf32_Phdr) (rest : List Elf32_Phdr) (e : Elf)
    (image : ImageInterface) (h : hdr.loadable = false) :
    Elf.read_image_loop (hdr :: rest) e image = Elf.read_image_loop rest e image := by
  rw [Elf.read_image_loop, if_pos]
  simp only [Elf32_Phdr.loadable, Bool.and_eq_false_iff, decide_eq_false_iff_not,
    not_not] at h
  exact h

theorem Elf.read_image_loop_reject (hdr : Elf32_Phdr) (rest : List Elf32_Phdr) (e : Elf)
    (image : ImageInterface) (h : hdr.loadable = true)
    (hs : image.supply image.regions hdr.paddr hdr.memsz = none) :
    Elf.read_image_loop (hdr :: rest) e image =
      (.error .image_rejected, e,
        { image with calls := image.calls ++ [(hdr.paddr, hdr.memsz)] }) := by
  simp only [Elf32_Phdr.loadable, Bool.and_eq_true, decide_eq_true_eq] at h
  rw [Elf.read_image_loop, if_neg (by intro hc; rcases hc with hc | hc; exact hc h.1; exact h.2 hc)]
  simp only [ImageInterface.process, hs]

theorem Elf.read_image_loop_read_fails (hdr : Elf32_Phdr) (rest : List Elf32_Phdr) (e : Elf)
    (image : ImageInterface) (buf : List Byte) (h : hdr.loadable = true)
    (hs : image.supply image.regions hdr.paddr hdr.memsz = some buf)
    (hna : e.file.failbit = true ∨
      (file_bytes e.file.content hdr.off hdr.filesz).length ≠ hdr.filesz) :
    (Elf.read_image_loop (hdr :: rest) e image).1 = .error .file_read_error ∧
    (Elf.read_image_loop (hdr :: rest) e image).2.2 =
      { image with calls := image.calls ++ [(hdr.paddr, hdr.memsz)] } ∧
    (Elf.read_image_loop (hdr :: rest) e image).2.1.file.content = e.file.content := by
  simp only [Elf32_Phdr.loadable, Bool.and_eq_true, decide_eq_true_eq] at h
  rw [Elf.read_image_loop, if_neg (by intro hc; rcases hc with hc | hc; exact hc h.1; exact h.2 hc)]
  simp only [ImageInterface.process, hs]
  have hfr := Elf.read_frame { e with file := e.file.seekg hdr.off } hdr.filesz
  have hc := Elf.seekg_frame e hdr.off
  rcases hr : Elf.read { e with file := e.file.seekg hdr.off } hdr.filesz with ⟨r1, r2⟩
  rw [hr] at hfr
  cases r1 with
  | error ex =>
    have hex : ex = .file_read_error := by
      unfold Elf.read at hr
      simp only [] at hr
      split at hr <;> simp at hr
      exact hr.1.symm
    subst hex
    exact ⟨rfl, rfl, hfr.1.trans hc⟩
  | ok bytes =>
    exfalso
    obtain ⟨q1, q2, q3, -⟩ := Elf.read_eq_ok _ _ _ _ hr
    have hfb : e.file.failbit = false := by
      simp only [ifstream.seekg] at q1
      split at q1
      · rename_i hh; rw [hh] at q1; exact absurd q1 (by simp)
      · rename_i hh; simpa using hh
    rcases hna with hna | hna
    · rw [hfb] at hna; exact absurd hna (by simp)
    · apply hna
      simp only [ifstream.seekg, hfb, Bool.false_eq_true, if_false] at q2
      rw [← q2]
      exact q3

theorem Elf.read_image_loop_step (hdr : Elf32_Phdr) (rest : List Elf32_Phdr) (e : Elf)
    (image : ImageInterface) (buf : List Byte) (h : hdr.loadable = true)
    (hs : image.supply image.regions hdr.paddr hdr.memsz = some buf)
    (hf : e.file.failbit = false)
    (hav : (file_bytes e.file.content hdr.off hdr.filesz).length = hdr.filesz) :
    Elf.read_image_loop (hdr :: rest) e image =
      Elf.read_image_loop rest
        { e with file := { e.file with pos := hdr.off + hdr.filesz } }
        { image with
          calls := image.calls ++ [(hdr.paddr, hdr.memsz)]
          regions := image.regions ++ [⟨hdr.paddr, hdr.memsz,
            file_bytes e.file.content hdr.off hdr.filesz ++ buf.drop hdr.filesz⟩] } := by
  simp only [Elf32_Phdr.loadable, Bool.and_eq_true, decide_eq_true_eq] at h
  rw [Elf.read_image_loop, if_neg (by intro hc; rcases hc with hc | hc; exact hc h.1; exact h.2 hc)]
  simp only [ImageInterface.process, hs]
  have hr := Elf.read_of_available { e with file := e.file.seekg hdr.off } hdr.filesz
    (by simp [ifstream.seekg, hf]) (by simp [ifstream.seekg, hf]; exact hav)
  rw [hr]
  simp [ifstream.seekg, hf, ImageInterface.filled]

/-- What the loop of `read_image` does, for any sink.  The regions it fills are appended
to those of the sink, one for each of the first entries it uses, in order, each holding
the bytes of the file followed by what the sink had put beyond them.  When it ends
normally it has made the requests of all the entries it uses; when it throws, the last
request is that of the entry after the filled ones, which the sink rejected or whose
bytes could not be read. -/
theorem Elf.read_image_loop_spec (ps : List Elf32_Phdr) :
    ∀ (e : Elf) (image : ImageInterface), ∃ new : List ImageRegion,
      (Elf.read_image_loop ps e image).2.2.regions = image.regions ++ new ∧
      (Elf.read_image_loop ps e image).2.2.supply = image.supply ∧
      (Elf.read_image_loop ps e image).2.1.file.content = e.file.content ∧
      (∀ k r, new[k]? = some r → ∃ p buf,
        (ps.filter Elf32_Phdr.loadable)[k]? = some p ∧
        image.supply (image.regions ++ new.take k) p.paddr p.memsz = some buf ∧
        (file_bytes e.file.content p.off p.filesz).length = p.filesz ∧
        r = ⟨p.paddr, p.memsz,
          file_bytes e.file.content p.off p.filesz ++ buf.drop p.filesz⟩) ∧
      ((Elf.read_image_loop ps e image).1 = .ok () →
        new.length = (ps.filter Elf32_Phdr.loadable).length ∧
        (Elf.read_image_loop ps e image).2.2.calls =
          image.calls ++ (ps.filter Elf32_Phdr.loadable).map Elf32_Phdr.request ∧
        (Elf.read_image_loop ps e image).2.1.file.failbit = e.file.failbit) ∧
      ((Elf.read_image_loop ps e image).1 ≠ .ok () →
        (Elf.read_image_loop ps e image).2.2.calls =
          image.calls ++
            ((ps.filter Elf32_Phdr.loadable).map Elf32_Phdr.request).take (new.length + 1) ∧
        ∃ p, (ps.filter Elf32_Phdr.loadable)[new.length]? = some p ∧
          (image.supply (image.regions ++ new) p.paddr p.memsz = none ∨
            e.file.failbit = true ∨
            (file_bytes e.file.content p.off p.filesz).length ≠ p.filesz)) := by
  induction ps with
  | nil =>
    intro e image
    refine ⟨[], ?_, rfl, rfl, ?_, ?_, ?_⟩
    · simp [Elf.read_image_loop]
    · intro k r hk; simp at hk
    · intro _; simp [Elf.read_image_loop]
    · intro hne; exact absurd rfl hne
  | cons hdr rest ih =>
    intro e image
    by_cases hl : hdr.loadable = true
    swap
    · have hl2 : hdr.loadable = false := by simpa using hl
      rw [Elf.read_image_loop_skip hdr rest e image hl2, List.filter_cons_of_neg hl]
      exact ih e image
    rw [List.filter_cons_of_pos hl]
    cases hs : image.supply image.regions hdr.paddr hdr.memsz with
    | none =>
      rw [Elf.read_image_loop_reject hdr rest e image hl hs]
      refine ⟨[], by simp, rfl, rfl, ?_, ?_, ?_⟩
      · intro k r hk; simp at hk
      · intro hok; exact absurd hok (by simp)
      · intro _
        refine ⟨by simp [Elf32_Phdr.request], hdr, by simp, Or.inl ?_⟩
        simpa using hs
    | some buf =>
      by_cases hgood : e.file.failbit = false ∧
          (file_bytes e.file.content hdr.off hdr.filesz).length = hdr.filesz
      swap
      · have hna : e.file.failbit = true ∨
            (file_bytes e.file.content hdr.off hdr.filesz).length ≠ hdr.filesz := by
          by_cases hfb : e.file.failbit = true
          · exact Or.inl hfb
          · exact Or.inr (fun hav => hgood ⟨by simpa using hfb, hav⟩)
        obtain ⟨f1, f2, f3⟩ := Elf.read_image_loop_read_fails hdr rest e image buf hl hs hna
        refine ⟨[], by rw [f2]; simp, by rw [f2], f3, ?_, ?_, ?_⟩
        · intro k r hk; simp at hk
        · intro hok; rw [f1] at hok; exact absurd hok (by simp)
        · intro _
          rw [f2]
          refine ⟨by simp [Elf32_Phdr.request], hdr, by simp, Or.inr ?_⟩
          exact hna
      · obtain ⟨hf, hav⟩ := hgood
        rw [Elf.read_image_loop_step hdr rest e image buf hl hs hf hav]
        obtain ⟨new, i1, i2, i3, i4, i5, i6⟩ := ih
          { e with file := { e.file with pos := hdr.off + hdr.filesz } }
          { image with
            calls := image.calls ++ [(hdr.paddr, hdr.memsz)]
            regions := image.regions ++ [⟨hdr.paddr, hdr.memsz,
              file_bytes e.file.content hdr.off hdr.filesz ++ buf.drop hdr.filesz⟩] }
        simp only [] at i1 i2 i3 i4 i5 i6
        refine ⟨⟨hdr.paddr, hdr.memsz,
          file_bytes e.file.content hdr.off hdr.filesz ++ buf.drop hdr.filesz⟩ :: new,
          ?_, i2, i3, ?_, ?_, ?_⟩
        · rw [i1]; simp
        · intro k r hk
          cases k with
          | zero =>
            simp only [List.getElem?_cons_zero, Option.some.injEq] at hk
            exact ⟨hdr, buf, by simp, by simpa using hs, hav, hk.symm⟩
          | succ k =>
            simp only [List.getElem?_cons_succ] at hk
            obtain ⟨p, b, j1, j2, j3, j4⟩ := i4 k r hk
            refine ⟨p, b, by simpa using j1, ?_, j3, j4⟩
            simpa using j2
        · intro hok
          obtain ⟨j1, j2, j3⟩ := i5 hok
          refine ⟨by simp [j1], ?_, j3⟩
          rw [j2]; simp [Elf32_Phdr.request]
        · intro hne
          obtain ⟨j1, p, j2, j3⟩ := i6 hne
          refine ⟨?_, p, by simpa using j2, ?_⟩
          · rw [j1]; simp [Elf32_Phdr.request]
          · rcases j3 with j3 | j3 | j3
            · exact Or.inl (by simpa using j3)
            · exact Or.inr (Or.inl j3)
            · exact Or.inr (Or.inr j3)

/-- The loop of `read_image` ends normally when the stream has not failed, the sink
accepts every request and the bytes of every entry it uses are in the file. -/
theorem Elf.read_image_loop_ok (ps : List Elf32_Phdr) (e : Elf) (image : ImageInterface)
    (hf : e.file.failbit = false)
    (hacc : ∀ regs address size, image.supply regs address size ≠ none)
    (hav : ∀ p ∈ ps, p.loadable = true →
      (file_bytes e.file.content p.off p.filesz).length = p.filesz) :
    (Elf.read_image_loop ps e image).1 = .ok () := by
  obtain ⟨new, -, -, -, -, -, h6⟩ := Elf.read_image_loop_spec ps e image
  by_contra hne
  obtain ⟨-, p, hp, hbad⟩ := h6 hne
  have hmem : p ∈ ps.filter Elf32_Phdr.loadable := List.getElem?_mem hp
  rw [List.mem_filter] at hmem
  rcases hbad with hbad | hbad | hbad
  · exact hacc _ _ _ hbad
  · rw [hf] at hbad; exact absurd hbad (by simp)
  · exact hbad (hav p hmem.1 hmem.2)

/-! ## The requests of `read_image` (C12) -/

set_option maxRecDepth 100000 in
/-- C12 (counterexample).  The constructor accepts the file `file_load_beyond_end`; its
two program header entries are of type `PT_LOAD` with `filesz ≠ 0`, so the list of the
claim is `[(4096, 200), (8192, 8)]`; the sink `sink_zero` accepts every request.  Yet
`read_image` makes the first request only: the read of the 200 bytes of the first entry
fails and the call throws "File read error.". -/
theorem read_image_stops_at_failed_read :
    ∃ e, Elf.construct (some file_load_beyond_end) = .ok e ∧
      (e.programs.filter Elf32_Phdr.loadable).map Elf32_Phdr.request
        = [(4096, 200), (8192, 8)] ∧
      (e.read_image sink_zero).1 = .error .file_read_error ∧
      (e.read_image sink_zero).2.2.calls = [(4096, 200)] :=
  ⟨_, rfl, by decide, by decide, by decide⟩

/-- C12 (amended).  For every object and every sink:
(1) the requests `read_image` makes, after those made before, are an initial part of the
list of the pairs `(paddr, memsz)` of the program header entries with `type = PT_LOAD`
and `filesz ≠ 0`, in table order; an entry of another type or with `filesz = 0` gives
no request;
(2) they are the whole list when `read_image` returns normally;
(3) it returns normally when the stream has not failed, the sink accepts every request
and the file extent of each of these entries lies inside the file. -/
theorem read_image_requests (e : Elf) (image : ImageInterface) :
    (∀ p : Elf32_Phdr, p.loadable = true ↔ (p.type = PT_LOAD ∧ p.filesz ≠ 0)) ∧
    (∃ n, (e.read_image image).2.2.calls =
      image.calls ++ ((e.programs.filter Elf32_Phdr.loadable).map Elf32_Phdr.request).take n) ∧
    ((e.read_image image).1 = .ok () →
      (e.read_image image).2.2.calls =
        image.calls ++ (e.programs.filter Elf32_Phdr.loadable).map Elf32_Phdr.request) ∧
    (e.file.failbit = false →
      (∀ regs address size, image.supply regs address size ≠ none) →
      (∀ p ∈ e.programs, p.loadable = true → p.off + p.filesz ≤ e.file.content.length) →
      (e.read_image image).1 = .ok ()) := by
  obtain ⟨new, -, -, -, -, h5, h6⟩ := Elf.read_image_loop_spec e.programs e image
  refine ⟨?_, ?_, ?_, ?_⟩
  · intro p
    simp [Elf32_Phdr.loadable]
  · by_cases hok : (e.read_image image).1 = .ok ()
    · refine ⟨((e.programs.filter Elf32_Phdr.loadable).map Elf32_Phdr.request).length, ?_⟩
      rw [List.take_length]
      exact (h5 hok).2.1
    · exact ⟨new.length + 1, (h6 hok).1⟩
  · intro hok
    exact (h5 hok).2.1
  · intro hf hacc hfit
    exact Elf.read_image_loop_ok e.programs e image hf hacc
      (fun p hp hl => file_bytes_length _ _ _ (hfit p hp hl))

set_option maxRecDepth 100000 in
/-- C12 (amended) at the object built from `file_load_bss` and the sink `sink_zero`: the
first entry is of type `PT_LOAD` with `filesz = 0` and `memsz = 4096` and gives no
request; `read_image` returns normally and its one request is `(4096, 8)`, that of the
second entry. -/
theorem read_image_requests_witness :
    ∃ e, Elf.construct (some file_load_bss) = .ok e ∧
      e.programs = [phdr_load 0 12288 0 4096, phdr_load 92 4096 8 8] ∧
      (e.read_image sink_zero).1 = .ok () ∧
      (e.read_image sink_zero).2.2.calls = [] ++ [(4096, 8)] :=
  ⟨_, rfl, by decide,
    (read_image_requests _ sink_zero).2.2.2 (by decide) (fun _ _ _ => by simp [sink_zero])
      (by decide),
    (read_image_requests _ sink_zero).2.2.1 (by decide)⟩

/-! ## What `read_image` copies (C13) -/

set_option maxRecDepth 100000 in
/-- C13 (counterexample).  The constructor accepts the file `file_load_beyond_end`.  Its
second program header entry, `phdr_load 92 8192 8 8`, is of type `PT_LOAD` with
`filesz ≠ 0` and its file extent, the 8 bytes at offset 92, lies inside the file; the
sink `sink_zero` would hand out a region for it.  Yet after `read_image` no region holds
these bytes: the read for the first entry has failed, the call has thrown
"File read error.", and the sink was never asked for `(8192, 8)`. -/
theorem read_image_leaves_segment_in_file_unread :
    ∃ e, Elf.construct (some file_load_beyond_end) = .ok e ∧
      e.programs[1]? = some (phdr_load 92 8192 8 8) ∧
      ((phdr_load 92 8192 8 8).type = PT_LOAD ∧ (phdr_load 92 8192 8 8).filesz ≠ 0) ∧
      (phdr_load 92 8192 8 8).off + (phdr_load 92 8192 8 8).filesz
        ≤ e.file.content.length ∧
      sink_zero.supply [] 8192 8 ≠ none ∧
      (e.read_image sink_zero).1 = .error .file_read_error ∧
      (8192, 8) ∉ (e.read_image sink_zero).2.2.calls ∧
      (e.read_image sink_zero).2.2.regions = [] :=
  ⟨_, rfl, by decide, by decide, by decide, by simp [sink_zero], by decide, by decide,
    by decide⟩

/-- C13 (amended).  Let `new` be the regions `read_image` fills, in order, after those
the sink held before.
(1) The region of index `k` is the one the sink handed out for the request
`(paddr, memsz)` of the `k`-th program header entry `p` with `type = PT_LOAD` and
`filesz ≠ 0`; the file extent of `p` lies inside the file; the first `filesz` bytes of
the region are the bytes of the file at offsets `off .. off + filesz - 1`, and the bytes
after them are those the sink supplied.
(2) When `read_image` throws, the entry after the filled ones is one the sink rejected
or whose bytes could not be read because the stream had failed or the extent does not lie
inside the file; that entry and the ones after it get no region.
(3) When it returns normally every such entry has its region.
(4) The `k`-th such entry has its region, filled as in (1), when the stream has not
failed and every such entry up to and including it has its extent inside the file and
its request accepted by the sink.
(5) If exactly one entry has `type = PT_LOAD` and `filesz ≠ 0`, with
`filesz = memsz = N`, `paddr = A` and its `N` bytes inside the file, and the sink hands
out a region of `N` bytes for `(A, N)`, then `read_image` returns normally, its one
request is `(A, N)`, and the one region it fills holds exactly the `N` bytes of the
file. -/
theorem read_image_round_trip (e : Elf) (image : ImageInterface) :
    ∃ new : List ImageRegion,
      (e.read_image image).2.2.regions = image.regions ++ new ∧
      (∀ k r, new[k]? = some r → ∃ p buf,
        (e.programs.filter Elf32_Phdr.loadable)[k]? = some p ∧
        image.supply (image.regions ++ new.take k) p.paddr p.memsz = some buf ∧
        r.address = p.paddr ∧ r.size = p.memsz ∧
        p.off + p.filesz ≤ e.file.content.length ∧
        r.content.take p.filesz = file_bytes e.file.content p.off p.filesz ∧
        r.content.drop p.filesz = buf.drop p.filesz) ∧
      ((e.read_image image).1 ≠ .ok () →
        ∃ p, (e.programs.filter Elf32_Phdr.loadable)[new.length]? = some p ∧
          (image.supply (image.regions ++ new) p.paddr p.memsz = none ∨
            e.file.failbit = true ∨ ¬ p.off + p.filesz ≤ e.file.content.length)) ∧
      ((e.read_image image).1 = .ok () →
        new.length = (e.programs.filter Elf32_Phdr.loadable).length) ∧
      (∀ (k : Nat) (p : Elf32_Phdr),
        (e.programs.filter Elf32_Phdr.loadable)[k]? = some p →
        e.file.failbit = false →
        (∀ (j : Nat) (q : Elf32_Phdr), j ≤ k →
          (e.programs.filter Elf32_Phdr.loadable)[j]? = some q →
          q.off + q.filesz ≤ e.file.content.length ∧
          image.supply (image.regions ++ new.take j) q.paddr q.memsz ≠ none) →
        ∃ r, new[k]? = some r) ∧
      (∀ (p : Elf32_Phdr) (A N : Nat) (buf : List Byte),
        e.programs.filter Elf32_Phdr.loadable = [p] →
        p.paddr = A → p.filesz = N → p.memsz = N →
        e.file.failbit = false → p.off + N ≤ e.file.content.length →
        image.supply image.regions A N = some buf → buf.length = N →
        (e.read_image image).1 = .ok () ∧
        (e.read_image image).2.2.calls = image.calls ++ [(A, N)] ∧
        (e.read_image image).2.2.regions =
          image.regions ++ [⟨A, N, file_bytes e.file.content p.off N⟩]) := by
  unfold Elf.read_image
  obtain ⟨new, h1, -, -, h4, h5, h6⟩ := Elf.read_image_loop_spec e.programs e image
  have hfit : ∀ p : Elf32_Phdr, p.loadable = true →
      (file_bytes e.file.content p.off p.filesz).length = p.filesz →
      p.off + p.filesz ≤ e.file.content.length := by
    intro p hl hlen
    simp only [Elf32_Phdr.loadable, Bool.and_eq_true, decide_eq_true_eq] at hl
    simp only [file_bytes, List.length_take, List.length_drop] at hlen
    omega
  refine ⟨new, h1, ?_, ?_, fun hok => (h5 hok).1, ?_, ?_⟩
  rotate_left 2
  · intro k p hk hf hall
    cases hr : new[k]? with
    | some r => exact ⟨r, rfl⟩
    | none =>
      exfalso
      have hlen : new.length ≤ k := List.getElem?_eq_none_iff.mp hr
      have hklt : k < (e.programs.filter Elf32_Phdr.loadable).length := by
        by_contra hge
        rw [List.getElem?_eq_none (by omega)] at hk
        exact absurd hk (by simp)
      by_cases hok : (Elf.read_image_loop e.programs e image).1 = .ok ()
      · have := (h5 hok).1
        omega
      · obtain ⟨-, q, j1, j2⟩ := h6 hok
        obtain ⟨a1, a2⟩ := hall new.length q hlen j1
        rw [List.take_length] at a2
        rcases j2 with j2 | j2 | j2
        · exact a2 j2
        · rw [hf] at j2; exact absurd j2 (by simp)
        · exact j2 (file_bytes_length _ _ _ a1)
  rotate_left 1
  · intro k r hk
    obtain ⟨p, buf, j1, j2, j3, j4⟩ := h4 k r hk
    have hl : p.loadable = true := (List.mem_filter.mp (List.getElem?_mem j1)).2
    refine ⟨p, buf, j1, j2, by rw [j4], by rw [j4], hfit p hl j3, ?_, ?_⟩
    · rw [j4]
      simp only
      rw [List.take_append_of_le_length (by omega), List.take_of_length_le (by omega)]
    · rw [j4]
      simp only
      rw [List.drop_append_of_le_length (by omega), List.drop_of_length_le (by omega)]
      rfl
  · intro hne
    obtain ⟨-, p, j1, j2⟩ := h6 hne
    refine ⟨p, j1, ?_⟩
    rcases j2 with j2 | j2 | j2
    · exact Or.inl j2
    · exact Or.inr (Or.inl j2)
    · exact Or.inr (Or.inr (fun hle => j2 (file_bytes_length _ _ _ hle)))
  · intro p A N buf hqs hA hN hM hf hin hsup hbuf
    rw [hqs] at h4 h5 h6
    have hav : (file_bytes e.file.content p.off p.filesz).length = p.filesz := by
      rw [hN]; exact file_bytes_length _ _ _ hin
    have hok : (Elf.read_image_loop e.programs e image).1 = .ok () := by
      by_contra hne
      obtain ⟨-, q, j1, j2⟩ := h6 hne
      have h0 : new.length = 0 := by
        by_contra hpos
        rw [List.getElem?_eq_none (by simp; omega)] at j1
        exact absurd j1 (by simp)
      have hnil : new = [] := List.length_eq_zero.mp h0
      rw [h0] at j1
      simp only [List.getElem?_cons_zero, Option.some.injEq] at j1
      subst j1
      rw [hnil, List.append_nil, hA, hM, hsup] at j2
      rcases j2 with j2 | j2 | j2
      · exact absurd j2 (by simp)
      · rw [hf] at j2; exact absurd j2 (by simp)
      · exact j2 hav
    obtain ⟨k1, k2, -⟩ := h5 hok
    refine ⟨hok, ?_, ?_⟩
    · rw [k2]; simp [Elf32_Phdr.request, hA, hM]
    · simp only [List.length_singleton] at k1
      obtain ⟨r, hr⟩ := List.length_eq_one.mp k1
      obtain ⟨q, b, j1, j2, j3, j4⟩ := h4 0 r (by rw [hr]; rfl)
      simp only [List.getElem?_cons_zero, Option.some.injEq] at j1
      subst j1
      simp only [List.take_zero, List.append_nil] at j2
      rw [hA, hM, hsup] at j2
      have hb : b = buf := (Option.some.inj j2).symm
      rw [h1, hr, j4, hb, hN, hA, hM, List.drop_of_length_le (by omega), List.append_nil]

set_option maxRecDepth 100000 in
/-- C13 (amended) at two objects and the sink `sink_ff`, whose regions come filled
with `0xFF`.
From `file_one_segment` (one loadable segment, `filesz = memsz = 8`, `paddr = 4096`,
`off = 16`): `read_image` returns normally, makes the one request `(4096, 8)` and fills
the region with the 8 bytes of the file at offset 16.  From `file_stride_48`: the second
region, for `filesz = 4` and `memsz = 16`, holds the 4 bytes of the file at offset 60 and
then the 12 bytes `0xFF` of the sink. -/
theorem read_image_round_trip_witness :
    (∃ e, Elf.construct (some file_one_segment) = .ok e ∧
      ((e.read_image sink_ff).1 = .ok () ∧
       (e.read_image sink_ff).2.2.calls = sink_ff.calls ++ [(4096, 8)] ∧
       (e.read_image sink_ff).2.2.regions =
         sink_ff.regions ++ [⟨4096, 8, file_bytes e.file.content 16 8⟩]) ∧
      file_bytes e.file.content 16 8 = [0x02, 0x00, 0x28, 0x00, 0x01, 0x00, 0x00, 0x00]) ∧
    (∃ e, Elf.construct (some file_stride_48) = .ok e ∧
      (e.read_image sink_ff).2.2.regions =
        [⟨4096, 8, file_bytes file_stride_48 52 8⟩,
         ⟨8192, 16, file_bytes file_stride_48 60 4 ++ List.replicate 12 0xFF⟩]) :=
  ⟨⟨_, rfl,
     (read_image_round_trip _ sink_ff).elim (fun _ h =>
       h.2.2.2.2.2 (phdr_load 16 4096 8 8) 4096 8 (List.replicate 8 0xFF) (by decide) rfl rfl
         rfl (by decide) (by decide) (by decide) (by decide)),
     by decide⟩,
   ⟨_, rfl, by decide⟩⟩

/-! ## Validation and image building (C20) -/

/-- Every entry of the tables of the object the constructor builds has passed the check
of its loop. -/
theorem Elf.construct_ok_entries (content : List Byte) (e : Elf)
    (h : Elf.construct (some content) = .ok e) :
    (∀ p ∈ e.programs, p.invalid content.length = false) ∧
    (∀ s ∈ e.sections, s.invalid content.length = false) := by
  obtain ⟨-, -, hsz, -, -, hsl, hs, hpl, hp⟩ := Elf.construct_ok content e h
  constructor
  · intro p hmem
    obtain ⟨i, hi⟩ := List.mem_iff_getElem?.mp hmem
    have hlt : i < e.programs.length := by
      by_contra hge
      rw [List.getElem?_eq_none (by omega)] at hi
      exact absurd hi (by simp)
    have := hp i (by omega)
    rw [hi] at this
    rw [Option.some.inj this.2.2, ← hsz]
    exact this.2.1
  · intro s hmem
    obtain ⟨i, hi⟩ := List.mem_iff_getElem?.mp hmem
    have hlt : i < e.sections.length := by
      by_contra hge
      rw [List.getElem?_eq_none (by omega)] at hi
      exact absurd hi (by simp)
    have := hs i (by omega)
    rw [hi] at this
    rw [Option.some.inj this.2.2, ← hsz]
    exact this.2.1

set_option maxRecDepth 100000 in
/-- C20 (counterexample).  The constructor accepts the 124-byte file `file_load_200`,
whose one program header entry has `type = PT_LOAD`, `off = 0` and
`filesz = memsz = 200`: `read_programs` does not check the extent of an entry with
`off = 0`.  The sink `sink_zero` accepts every request and hands out regions of the
requested length.  `read_image` throws "File read error.": the range `[0, 200)` does not
lie within the file. -/
theorem read_image_read_error_after_construct :
    ∃ e, Elf.construct (some file_load_200) = .ok e ∧
      e.programs = [phdr_load 0 4096 200 200] ∧
      (phdr_load 0 4096 200 200).loadable = true ∧
      (phdr_load 0 4096 200 200).off + (phdr_load 0 4096 200 200).filesz
        > file_load_200.length ∧
      (e.read_image sink_zero).1 = .error .file_read_error :=
  ⟨_, rfl, by decide, by decide, by decide, by decide⟩

/-- C20 (amended).  In the object the constructor builds from a file:
(1) every program header entry has `filesz ≤ memsz`, so the `filesz` bytes written fit
the region of `memsz` bytes;
(2) every program header entry with `off ≠ 0` and `off + filesz < 2^32` has its file
range `[off, off + filesz)` within the file;
(3) for a sink that accepts every request and hands out regions of exactly the requested
length, `read_image` returns normally when every entry with `type = PT_LOAD` and
`filesz ≠ 0` has `off ≠ 0` and `off + filesz < 2^32`. -/
theorem read_image_after_construct (content : List Byte) (e : Elf) (image : ImageInterface)
    (hc : Elf.construct (some content) = .ok e) :
    (∀ p ∈ e.programs, p.filesz ≤ p.memsz) ∧
    (∀ p ∈ e.programs, p.off ≠ 0 → p.off + p.filesz < 2 ^ 32 →
      p.off + p.filesz ≤ content.length) ∧
    ((∀ regs address size, ∃ buf, image.supply regs address size = some buf ∧
        buf.length = size) →
      (∀ p ∈ e.programs, p.loadable = true → p.off ≠ 0 ∧ p.off + p.filesz < 2 ^ 32) →
      (e.read_image image).1 = .ok ()) := by
  obtain ⟨hcont, hf, -⟩ := Elf.construct_ok content e hc
  have hval := (Elf.construct_ok_entries content e hc).1
  have h2 : ∀ p ∈ e.programs, p.off ≠ 0 → p.off + p.filesz < 2 ^ 32 →
      p.off + p.filesz ≤ content.length := by
    intro p hp hoff hlt
    have := hval p hp
    simp only [Elf32_Phdr.invalid, Bool.or_eq_false_iff, Bool.and_eq_false_iff,
      decide_eq_false_iff_not, Nat.mod_eq_of_lt hlt] at this
    rcases this.2 with h | h
    · exact absurd hoff h
    · omega
  refine ⟨fun p hp => Elf32_Phdr.filesz_le_of_not_invalid p _ (hval p hp), h2, ?_⟩
  intro hsink hall
  unfold Elf.read_image
  apply Elf.read_image_loop_ok e.programs e image hf
  · intro regs a s
    obtain ⟨buf, hb, -⟩ := hsink regs a s
    rw [hb]; simp
  · intro p hp hl
    apply file_bytes_length
    rw [hcont]
    exact h2 p hp (hall p hp hl).1 (hall p hp hl).2

set_option maxRecDepth 100000 in
/-- C20 (amended) at the object built from `file_stride_48` and the sink `sink_zero`:
both entries are loadable with `off ≠ 0`, and `read_image` returns normally. -/
theorem read_image_after_construct_witness :
    ∃ e, Elf.construct (some file_stride_48) = .ok e ∧ (e.read_image sink_zero).1 = .ok () :=
  ⟨_, rfl, (read_image_after_construct file_stride_48 _ sink_zero rfl).2.2
    (fun _ _ size => ⟨List.replicate size 0, rfl, by simp⟩) (by decide)⟩

/-! ## The loop of `read_image2` -/

theorem Elf.read_image2_loop_skip (hdr : Elf32_Shdr) (rest : List Elf32_Shdr) (e : Elf)
    (image : ImageInterface) (h : hdr.progbits = false) :
    Elf.read_image2_loop (hdr :: rest) e image = Elf.read_image2_loop rest e image := by
  rw [Elf.read_image2_loop, if_pos]
  simpa [Elf32_Shdr.progbits] using h

theorem Elf.read_image2_loop_assert (hdr : Elf32_Shdr) (rest : List Elf32_Shdr) (e : Elf)
    (image : ImageInterface) (h : hdr.progbits = true) (ha : hdr.flags &&& SHF_ALLOC = 0) :
    Elf.read_image2_loop (hdr :: rest) e image = (.error .assertion_failed, e, image) := by
  have ht : hdr.type = SHT_PROGBITS := by simpa [Elf32_Shdr.progbits] using h
  rw [Elf.read_image2_loop, if_neg (not_not.mpr ht), if_pos ha]

theorem Elf.read_image2_loop_step (hdr : Elf32_Shdr) (rest : List Elf32_Shdr) (e : Elf)
    (image : ImageInterface) (buf : List Byte) (h : hdr.progbits = true)
    (ha : hdr.flags &&& SHF_ALLOC ≠ 0)
    (hs : image.supply image.regions hdr.vaddr hdr.size = some buf)
    (hf : e.file.failbit = false)
    (hav : (file_bytes e.file.content hdr.off hdr.size).length = hdr.size) :
    Elf.read_image2_loop (hdr :: rest) e image =
      Elf.read_image2_loop rest
        { e with file := { e.file with pos := hdr.off + hdr.size } }
        { image with
          calls := image.calls ++ [(hdr.vaddr, hdr.size)]
          regions := image.regions ++ [⟨hdr.vaddr, hdr.size,
            file_bytes e.file.content hdr.off hdr.size ++ buf.drop hdr.size⟩] } := by
  have ht : hdr.type = SHT_PROGBITS := by simpa [Elf32_Shdr.progbits] using h
  rw [Elf.read_image2_loop, if_neg (not_not.mpr ht), if_neg ha]
  simp only [ImageInterface.process, hs]
  have hr := Elf.read_of_available { e with file := e.file.seekg hdr.off } hdr.size
    (by simp [ifstream.seekg, hf]) (by simp [ifstream.seekg, hf]; exact hav)
  rw [hr]
  simp [ifstream.seekg, hf, ImageInterface.filled]

/-- The loop of `read_image2` over entries that carry `SHF_ALLOC` when they are of type
`SHT_PROGBITS` and whose bytes are in the file, with a sink that accepts every request
and a stream that has not failed: it ends normally, having made the requests of the
`SHT_PROGBITS` entries in order and filled one region for each with the bytes of the
file. -/
theorem Elf.read_image2_loop_ok (ps : List Elf32_Shdr) :
    ∀ (e : Elf) (image : ImageInterface), e.file.failbit = false →
    (∀ regs address size, image.supply regs address size ≠ none) →
    (∀ s ∈ ps, s.progbits = true → s.flags &&& SHF_ALLOC ≠ 0 ∧
      (file_bytes e.file.content s.off s.size).length = s.size) →
    (Elf.read_image2_loop ps e image).1 = .ok () ∧
    (Elf.read_image2_loop ps e image).2.2.calls =
      image.calls ++ (ps.filter Elf32_Shdr.progbits).map Elf32_Shdr.request ∧
    (Elf.read_image2_loop ps e image).2.2.supply = image.supply ∧
    (Elf.read_image2_loop ps e image).2.1.file.failbit = false ∧
    (Elf.read_image2_loop ps e image).2.1.file.content = e.file.content ∧
    (∃ new, (Elf.read_image2_loop ps e image).2.2.regions = image.regions ++ new ∧
      new.length = (ps.filter Elf32_Shdr.progbits).length ∧
      ∀ (k : Nat) (r : ImageRegion), new[k]? = some r →
        ∃ s : Elf32_Shdr, (ps.filter Elf32_Shdr.progbits)[k]? = some s ∧
        r.address = s.vaddr ∧ r.size = s.size ∧
        r.content.take s.size = file_bytes e.file.content s.off s.size) := by
  induction ps with
  | nil =>
    intro e image hf _ _
    refine ⟨rfl, by simp [Elf.read_image2_loop], rfl, hf, rfl, [], ?_, rfl, ?_⟩
    · simp [Elf.read_image2_loop]
    · intro k r hk; simp at hk
  | cons hdr rest ih =>
    intro e image hf hacc hall
    by_cases hp : hdr.progbits = true
    swap
    · have hp2 : hdr.progbits = false := by simpa using hp
      rw [Elf.read_image2_loop_skip hdr rest e image hp2, List.filter_cons_of_neg hp]
      exact ih e image hf hacc (fun s hs => hall s (List.mem_cons_of_mem _ hs))
    obtain ⟨ha, hav⟩ := hall hdr (List.mem_cons_self _ _) hp
    cases hs : image.supply image.regions hdr.vaddr hdr.size with
    | none => exact absurd hs (hacc _ _ _)
    | some buf =>
      rw [Elf.read_image2_loop_step hdr rest e image buf hp ha hs hf hav,
        List.filter_cons_of_pos hp]
      obtain ⟨i1, i2, i3, i4, i5, new, i6, i7, i8⟩ := ih
        { e with file := { e.file with pos := hdr.off + hdr.size } }
        { image with
          calls := image.calls ++ [(hdr.vaddr, hdr.size)]
          regions := image.regions ++ [⟨hdr.vaddr, hdr.size,
            file_bytes e.file.content hdr.off hdr.size ++ buf.drop hdr.size⟩] }
        hf hacc (fun s hs => hall s (List.mem_cons_of_mem _ hs))
      simp only [] at i1 i2 i3 i4 i5 i6 i8
      refine ⟨i1, by rw [i2]; simp [Elf32_Shdr.request], i3, i4, i5,
        ⟨hdr.vaddr, hdr.size,
          file_bytes e.file.content hdr.off hdr.size ++ buf.drop hdr.size⟩ :: new,
        by rw [i6]; simp, by simp [i7], ?_⟩
      intro k r hk
      cases k with
      | zero =>
        simp only [List.getElem?_cons_zero, Option.some.injEq] at hk
        refine ⟨hdr, by simp, by rw [← hk], by rw [← hk], ?_⟩
        rw [← hk]
        simp only
        rw [List.take_append_of_le_length (by omega), List.take_of_length_le (by omega)]
      | succ k =>
        simp only [List.getElem?_cons_succ] at hk
        obtain ⟨s, j1, j2, j3, j4⟩ := i8 k r hk
        exact ⟨s, by simpa using j1, j2, j3, j4⟩

/-- The loop of `read_image2` over entries as in `Elf.read_image2_loop_ok` followed by an
entry of type `SHT_PROGBITS` without `SHF_ALLOC`: the assertion fails at that entry,
after the requests of the `SHT_PROGBITS` entries before it and no other. -/
theorem Elf.read_image2_loop_assert_after (pre : List Elf32_Shdr) (bad : Elf32_Shdr)
    (post : List Elf32_Shdr) :
    ∀ (e : Elf) (image : ImageInterface), e.file.failbit = false →
    (∀ regs address size, image.supply regs address size ≠ none) →
    (∀ s ∈ pre, s.progbits = true → s.flags &&& SHF_ALLOC ≠ 0 ∧
      (file_bytes e.file.content s.off s.size).length = s.size) →
    bad.progbits = true → bad.flags &&& SHF_ALLOC = 0 →
    (Elf.read_image2_loop (pre ++ bad :: post) e image).1 = .error .assertion_failed ∧
    (Elf.read_image2_loop (pre ++ bad :: post) e image).2.2.calls =
      image.calls ++ (pre.filter Elf32_Shdr.progbits).map Elf32_Shdr.request := by
  induction pre with
  | nil =>
    intro e image _ _ _ hb ha
    rw [List.nil_append, Elf.read_image2_loop_assert bad post e image hb ha]
    simp
  | cons hdr rest ih =>
    intro e image hf hacc hall hb ha
    rw [List.cons_append]
    by_cases hp : hdr.progbits = true
    swap
    · have hp2 : hdr.progbits = false := by simpa using hp
      rw [Elf.read_image2_loop_skip hdr _ e image hp2, List.filter_cons_of_neg hp]
      exact ih e image hf hacc (fun s hs => hall s (List.mem_cons_of_mem _ hs)) hb ha
    obtain ⟨hal, hav⟩ := hall hdr (List.mem_cons_self _ _) hp
    cases hs : image.supply image.regions hdr.vaddr hdr.size with
    | none => exact absurd hs (hacc _ _ _)
    | some buf =>
      rw [Elf.read_image2_loop_step hdr _ e image buf hp hal hs hf hav,
        List.filter_cons_of_pos hp]
      obtain ⟨i1, i2⟩ := ih
        { e with file := { e.file with pos := hdr.off + hdr.size } }
        { image with
          calls := image.calls ++ [(hdr.vaddr, hdr.size)]
          regions := image.regions ++ [⟨hdr.vaddr, hdr.size,
            file_bytes e.file.content hdr.off hdr.size ++ buf.drop hdr.size⟩] }
        hf hacc (fun s hs => hall s (List.mem_cons_of_mem _ hs)) hb ha
      simp only [] at i1 i2
      exact ⟨i1, by rw [i2]; simp [Elf32_Shdr.request]⟩

theorem Elf.read_image2_loop_reject (hdr : Elf32_Shdr) (rest : List Elf32_Shdr) (e : Elf)
    (image : ImageInterface) (h : hdr.progbits = true) (ha : hdr.flags &&& SHF_ALLOC ≠ 0)
    (hs : image.supply image.regions hdr.vaddr hdr.size = none) :
    Elf.read_image2_loop (hdr :: rest) e image =
      (.error .image_rejected, e,
        { image with calls := image.calls ++ [(hdr.vaddr, hdr.size)] }) := by
  have ht : hdr.type = SHT_PROGBITS := by simpa [Elf32_Shdr.progbits] using h
  rw [Elf.read_image2_loop, if_neg (not_not.mpr ht), if_neg ha]
  simp only [ImageInterface.process, hs]

/-- The loop of `read_image2`, with any sink, over entries that carry `SHF_ALLOC` when
they are of type `SHT_PROGBITS` and whose bytes are in the file, followed by an entry of
type `SHT_PROGBITS` without `SHF_ALLOC`.  Either the assertion fails at that entry, after
the requests of the `SHT_PROGBITS` entries before it; or the sink has rejected the
request of one of those entries and the loop has ended there with the exception of the
sink, after the requests of the `SHT_PROGBITS` entries up to and including that one. -/
theorem Elf.read_image2_loop_before_assert (pre : List Elf32_Shdr) (bad : Elf32_Shdr)
    (post : List Elf32_Shdr) :
    ∀ (e : Elf) (image : ImageInterface), e.file.failbit = false →
    (∀ s ∈ pre, s.progbits = true → s.flags &&& SHF_ALLOC ≠ 0 ∧
      (file_bytes e.file.content s.off s.size).length = s.size) →
    bad.progbits = true → bad.flags &&& SHF_ALLOC = 0 →
    ((Elf.read_image2_loop (pre ++ bad :: post) e image).1 = .error .assertion_failed ∧
      (Elf.read_image2_loop (pre ++ bad :: post) e image).2.2.calls =
        image.calls ++ (pre.filter Elf32_Shdr.progbits).map Elf32_Shdr.request) ∨
    ((Elf.read_image2_loop (pre ++ bad :: post) e image).1 = .error .image_rejected ∧
      ∃ (pre1 : List Elf32_Shdr) (s : Elf32_Shdr) (pre2 : List Elf32_Shdr),
        pre = pre1 ++ s :: pre2 ∧ s.progbits = true ∧
        (Elf.read_image2_loop (pre ++ bad :: post) e image).2.2.calls =
          image.calls ++ ((pre1.filter Elf32_Shdr.progbits).map Elf32_Shdr.request
            ++ [s.request]) ∧
        image.supply (Elf.read_image2_loop (pre ++ bad :: post) e image).2.2.regions
          s.vaddr s.size = none) := by
  induction pre with
  | nil =>
    intro e image _ _ hb ha
    left
    rw [List.nil_append, Elf.read_image2_loop_assert bad post e image hb ha]
    simp
  | cons hdr rest ih =>
    intro e image hf hall hb ha
    rw [List.cons_append]
    by_cases hp : hdr.progbits = true
    swap
    · have hp2 : hdr.progbits = false := by simpa using hp
      rw [Elf.read_image2_loop_skip hdr _ e image hp2, List.filter_cons_of_neg hp]
      rcases ih e image hf (fun s hs => hall s (List.mem_cons_of_mem _ hs)) hb ha with
        h | ⟨h1, pre1, s, pre2, j1, j2, j3, j4⟩
      · exact Or.inl h
      · refine Or.inr ⟨h1, hdr :: pre1, s, pre2, by rw [j1]; rfl, j2, ?_, j4⟩
        rw [j3, List.filter_cons_of_neg hp]
    obtain ⟨hal, hav⟩ := hall hdr (List.mem_cons_self _ _) hp
    cases hs : image.supply image.regions hdr.vaddr hdr.size with
    | none =>
      right
      rw [Elf.read_image2_loop_reject hdr _ e image hp hal hs]
      exact ⟨rfl, [], hdr, rest, rfl, hp, by simp [Elf32_Shdr.request], hs⟩
    | some buf =>
      rw [Elf.read_image2_loop_step hdr _ e image buf hp hal hs hf hav,
        List.filter_cons_of_pos hp]
      rcases ih
        { e with file := { e.file with pos := hdr.off + hdr.size } }
        { image with
          calls := image.calls ++ [(hdr.vaddr, hdr.size)]
          regions := image.regions ++ [⟨hdr.vaddr, hdr.size,
            file_bytes e.file.content hdr.off hdr.size ++ buf.drop hdr.size⟩] }
        hf (fun s hs => hall s (List.mem_cons_of_mem _ hs)) hb ha with
        ⟨i1, i2⟩ | ⟨h1, pre1, s, pre2, j1, j2, j3, j4⟩
      · simp only [] at i1 i2
        exact Or.inl ⟨i1, by rw [i2]; simp [Elf32_Shdr.request]⟩
      · simp only [] at h1 j3 j4
        refine Or.inr ⟨h1, hdr :: pre1, s, pre2, by rw [j1]; rfl, j2, ?_, j4⟩
        rw [j3, List.filter_cons_of_pos hp]
        simp [Elf32_Shdr.request]

/-! ## The image built from the sections (C14, C18) -/

set_option maxRecDepth 100000 in
/-- C14 (evaluation at the failing input).  The constructor accepts the file
`file_progbits_wrapping`; its two `SHT_PROGBITS` section header entries carry
`SHF_ALLOC`, so the sink should get the requests `(0, 2)` and `(0, 8)`; the sink
`sink_zero` accepts every request.  The first of the two entries has `off = 0xFFFFFFFF`
and `size = 2` and passed the check of `read_sections` by wrap-around.  `read_image2`
makes the first request, fails to read the two bytes, throws "File read error.", fills
no region and never makes the second request. -/
theorem read_image2_stops_at_wrapping_section :
    ∃ e, Elf.construct (some file_progbits_wrapping) = .ok e ∧
      e.sections = [Elf32_Shdr.zero, shdr_wrapping, shdr_progbits 52 8] ∧
      (∀ s ∈ e.sections, s.type = SHT_PROGBITS → s.flags &&& SHF_ALLOC ≠ 0) ∧
      (e.sections.filter Elf32_Shdr.progbits).map Elf32_Shdr.request = [(0, 2), (0, 8)] ∧
      (e.read_image2 sink_zero).1 = .error .file_read_error ∧
      (e.read_image2 sink_zero).2.2.calls = [(0, 2)] ∧
      (e.read_image2 sink_zero).2.2.regions = [] :=
  ⟨_, rfl, by decide, by decide, by decide, by decide, by decide, by decide⟩

set_option maxRecDepth 100000 in
/-- C18 (counterexample).  The constructor accepts the file `file_progbits_no_alloc`,
whose third section header entry is of type `SHT_PROGBITS` without `SHF_ALLOC`, after one
`SHT_PROGBITS` entry that carries the flag.  With the sink `sink_rejecting`,
`read_image2` does not fail by the assertion: the sink throws at the request of the
earlier entry and the call ends there. -/
theorem read_image2_sink_rejects_before_assertion :
    ∃ e, Elf.construct (some file_progbits_no_alloc) = .ok e ∧
      e.sections = [Elf32_Shdr.zero, shdr_progbits 52 8, shdr_progbits_no_alloc 60 4,
        shdr_progbits 64 4] ∧
      (e.read_image2 sink_rejecting).1 = .error .image_rejected ∧
      (e.read_image2 sink_rejecting).1 ≠ .error .assertion_failed ∧
      (e.read_image2 sink_rejecting).2.2.calls = [(0, 8)] :=
  ⟨_, rfl, by decide, by decide, by decide, by decide⟩

/-- C18 (amended).  In the object the constructor builds, let `bad` be the first section
header entry of type `SHT_PROGBITS` without `SHF_ALLOC`: the entries `pre` before it
carry the flag when they are of that type.  Let every `SHT_PROGBITS` entry of `pre` have
`off + size < 2^32`.
(1) With any sink, `read_image2` ends in one of two ways.  Either it fails by the
assertion at `bad`: the requests it has made are those, `(vaddr, size)`, of the
`SHT_PROGBITS` entries of `pre`, in table order, and none for `bad` or for an entry
after it.  Or the sink has rejected the request of a `SHT_PROGBITS` entry `s` of `pre`, and
`read_image2` has ended there with the exception of the sink: the requests it has made
are those of the `SHT_PROGBITS` entries before `s` and that of `s`, the last one.
(2) With a sink that accepts every request it ends the first way. -/
theorem read_image2_assertion (content : List Byte) (e : Elf) (image : ImageInterface)
    (pre : List Elf32_Shdr) (bad : Elf32_Shdr) (post : List Elf32_Shdr)
    (hc : Elf.construct (some content) = .ok e)
    (hsec : e.sections = pre ++ bad :: post)
    (hpre : ∀ s ∈ pre, s.type = SHT_PROGBITS → s.flags &&& SHF_ALLOC ≠ 0)
    (hbt : bad.type = SHT_PROGBITS) (hba : bad.flags &&& SHF_ALLOC = 0)
    (hnw : ∀ s ∈ pre, s.type = SHT_PROGBITS → s.off + s.size < 2 ^ 32) :
    (((e.read_image2 image).1 = .error .assertion_failed ∧
        (e.read_image2 image).2.2.calls =
          image.calls ++ (pre.filter Elf32_Shdr.progbits).map Elf32_Shdr.request) ∨
      ((e.read_image2 image).1 = .error .image_rejected ∧
        ∃ (pre1 : List Elf32_Shdr) (s : Elf32_Shdr) (pre2 : List Elf32_Shdr),
          pre = pre1 ++ s :: pre2 ∧ s.type = SHT_PROGBITS ∧
          (e.read_image2 image).2.2.calls =
            image.calls ++ ((pre1.filter Elf32_Shdr.progbits).map Elf32_Shdr.request
              ++ [(s.vaddr, s.size)]) ∧
          image.supply (e.read_image2 image).2.2.regions s.vaddr s.size = none)) ∧
    ((∀ regs address size, image.supply regs address size ≠ none) →
      (e.read_image2 image).1 = .error .assertion_failed ∧
      (e.read_image2 image).2.2.calls =
        image.calls ++ (pre.filter Elf32_Shdr.progbits).map Elf32_Shdr.request) ∧
    (∀ s : Elf32_Shdr, s.progbits = true ↔ s.type = SHT_PROGBITS) := by
  obtain ⟨hcont, hf, -⟩ := Elf.construct_ok content e hc
  have hval := (Elf.construct_ok_entries content e hc).2
  have hpb : ∀ s : Elf32_Shdr, s.progbits = true ↔ s.type = SHT_PROGBITS := by
    intro s; simp [Elf32_Shdr.progbits]
  unfold Elf.read_image2
  rw [hsec]
  have h := Elf.read_image2_loop_before_assert pre bad post e image hf ?_
    ((hpb bad).mpr hbt) hba
  · have h1 : ((Elf.read_image2_loop (pre ++ bad :: post) e image).1
          = .error .assertion_failed ∧
        (Elf.read_image2_loop (pre ++ bad :: post) e image).2.2.calls =
          image.calls ++ (pre.filter Elf32_Shdr.progbits).map Elf32_Shdr.request) ∨
      ((Elf.read_image2_loop (pre ++ bad :: post) e image).1 = .error .image_rejected ∧
        ∃ (pre1 : List Elf32_Shdr) (s : Elf32_Shdr) (pre2 : List Elf32_Shdr),
          pre = pre1 ++ s :: pre2 ∧ s.type = SHT_PROGBITS ∧
          (Elf.read_image2_loop (pre ++ bad :: post) e image).2.2.calls =
            image.calls ++ ((pre1.filter Elf32_Shdr.progbits).map Elf32_Shdr.request
              ++ [(s.vaddr, s.size)]) ∧
          image.supply (Elf.read_image2_loop (pre ++ bad :: post) e image).2.2.regions
            s.vaddr s.size = none) := by
      rcases h with h | ⟨k1, pre1, s, pre2, j1, j2, j3, j4⟩
      · exact Or.inl h
      · exact Or.inr ⟨k1, pre1, s, pre2, j1, (hpb s).mp j2, j3, j4⟩
    refine ⟨h1, ?_, hpb⟩
    intro hacc
    rcases h1 with h | ⟨-, -, s, -, -, -, -, j4⟩
    · exact h
    · exact absurd j4 (hacc _ _ _)
  · intro s hs hp
    have ht := (hpb s).mp hp
    refine ⟨hpre s hs ht, ?_⟩
    have hmem : s ∈ e.sections := by rw [hsec]; exact List.mem_append_left _ hs
    have hv := hval s hmem
    have hne : s.type ≠ SHT_NOBITS := by rw [ht]; decide
    simp only [Elf32_Shdr.invalid, Bool.and_eq_false_iff, decide_eq_false_iff_not,
      Nat.mod_eq_of_lt (hnw s hs ht)] at hv
    apply file_bytes_length
    rw [hcont]
    rcases hv with hv | hv
    · exact absurd hne hv
    · omega

set_option maxRecDepth 100000 in
/-- C18 (amended) at the object built from `file_progbits_no_alloc`.  With the sink
`sink_zero`, which accepts every request, `read_image2` fails by the assertion at the
third entry, after the one request `(0, 8)` of the second entry.  With the sink
`sink_rejecting` it does not end the first way, so it ends the second way. -/
theorem read_image2_assertion_witness :
    ∃ e, Elf.construct (some file_progbits_no_alloc) = .ok e ∧
      ((e.read_image2 sink_zero).1 = .error .assertion_failed ∧
        (e.read_image2 sink_zero).2.2.calls = [] ++ [(0, 8)]) ∧
      ((e.read_image2 sink_rejecting).1 = .error .image_rejected ∧
        ∃ (pre1 : List Elf32_Shdr) (s : Elf32_Shdr) (pre2 : List Elf32_Shdr),
          [Elf32_Shdr.zero, shdr_progbits 52 8] = pre1 ++ s :: pre2 ∧
          s.type = SHT_PROGBITS ∧
          (e.read_image2 sink_rejecting).2.2.calls =
            sink_rejecting.calls ++
              ((pre1.filter Elf32_Shdr.progbits).map Elf32_Shdr.request
                ++ [(s.vaddr, s.size)]) ∧
          sink_rejecting.supply (e.read_image2 sink_rejecting).2.2.regions s.vaddr s.size
            = none) :=
  ⟨_, rfl,
    (read_image2_assertion file_progbits_no_alloc _ sink_zero
      [Elf32_Shdr.zero, shdr_progbits 52 8] (shdr_progbits_no_alloc 60 4)
      [shdr_progbits 64 4] rfl (by decide) (by decide) (by decide) (by decide)
      (by decide)).2.1 (fun _ _ _ => by simp [sink_zero]),
    ((read_image2_assertion file_progbits_no_alloc _ sink_rejecting
      [Elf32_Shdr.zero, shdr_progbits 52 8] (shdr_progbits_no_alloc 60 4)
      [shdr_progbits 64 4] rfl (by decide) (by decide) (by decide) (by decide)
      (by decide)).1.resolve_left (fun h => absurd h.1 (by decide)))⟩

/-! ## Running the constructor stage by stage -/

/-- The loop of `read_sections` ends normally when the stream has not failed and every
entry lies inside the file and passes the check. -/
theorem Elf.read_sections_loop_run (count : Nat) : ∀ (idx pos : Nat) (e : Elf),
    e.file.failbit = false →
    (∀ k, k < count →
      pos + k * e.file_header.shentsize + 40 ≤ e.file.content.length ∧
      (Elf32_Shdr.decode (file_bytes e.file.content
        (pos + k * e.file_header.shentsize) 40)).invalid e.file_size = false) →
    (Elf.read_sections_loop count idx pos e).1 = .ok () := by
  induction count with
  | zero => intro idx pos e _ _; rfl
  | succ n ih =>
    intro idx pos e hf hall
    have h0 := hall 0 (by omega)
    simp only [Nat.zero_mul, Nat.add_zero] at h0
    rw [Elf.read_sections_loop_succ n idx pos e hf h0.1, if_neg (by rw [h0.2]; simp)]
    obtain ⟨w1, w2, -, w4, w5, -⟩ := Elf.with_section_fields e idx pos
    apply ih
    · rw [w1]; exact hf
    · intro k hk
      have := hall (k + 1) (by omega)
      have e1 : pos + e.file_header.shentsize + k * e.file_header.shentsize
          = pos + (k + 1) * e.file_header.shentsize := by ring
      rw [w2, w4, w5, e1]
      exact this

/-- `read_sections` returns normally when the stream has not failed and every entry of
the table lies inside the file and passes the check. -/
theorem Elf.read_sections_run (e : Elf) (hf : e.file.failbit = false)
    (hall : ∀ i, i < e.file_header.shnum →
      e.file_header.shoff + i * e.file_header.shentsize + 40 ≤ e.file.content.length ∧
      (e.section_entry i).invalid e.file_size = false) :
    (e.read_sections).1 = .ok () := by
  unfold Elf.read_sections
  exact Elf.read_sections_loop_run e.file_header.shnum 0 e.file_header.shoff
    { e with sections := vector_resize Elf32_Shdr.zero e.sections e.file_header.shnum }
    hf hall

/-- `read_programs` returns normally when there is no program header entry. -/
theorem Elf.read_programs_none (e : Elf) (h : e.file_header.phnum = 0) :
    (e.read_programs).1 = .ok () := by
  unfold Elf.read_programs
  simp only [h]
  rfl

/-- The constructor builds an object when its four stages return normally. -/
theorem Elf.construct_of_stages (content : List Byte)
    (h1 : (Elf.read_header (Elf.sized content)).1 = .ok ())
    (h2 : ((Elf.read_header (Elf.sized content)).2.read_sections).1 = .ok ())
    (h3 : (((Elf.read_header (Elf.sized content)).2.read_sections).2.read_section
      ((Elf.read_header (Elf.sized content)).2.read_sections).2.strings
      ((Elf.read_header (Elf.sized content)).2.read_sections).2.file_header.shstrndx).1
        = .ok ())
    (h4 : ∀ e : Elf, e.file_header = (Elf.read_header (Elf.sized content)).2.file_header →
      (e.read_programs).1 = .ok ()) :
    ∃ e, Elf.construct (some content) = .ok e := by
  unfold Elf.construct
  simp only []
  rcases k1 : Elf.read_header (Elf.sized content) with ⟨r1, e1⟩
  rw [k1] at h1 h2 h3 h4
  simp only at h1 h2 h3 h4
  subst h1
  simp only []
  rcases k2 : e1.read_sections with ⟨r2, e2⟩
  have f2 := Elf.read_sections_ok e1 h2
  rw [k2] at h2 h3 f2
  simp only at h2 h3 f2
  subst h2
  simp only []
  have fr := Elf.read_section_frame e2 e2.strings e2.file_header.shstrndx
  rcases k3 : e2.read_section e2.strings e2.file_header.shstrndx with ⟨r3, e3, s3⟩
  rw [k3] at h3 fr
  simp only at h3 fr
  subst h3
  simp only []
  have h4' := h4 { e3 with strings := s3 } (by simp only; rw [fr.2.2.1, f2.2.2.2.1])
  rcases k4 : Elf.read_programs { e3 with strings := s3 } with ⟨r4, e4⟩
  rw [k4] at h4'
  simp only at h4'
  subst h4'
  exact ⟨e4, rfl⟩

/-! ## A file longer than 4 GiB -/

set_option maxRecDepth 100000 in
theorem header_4g_encode_length : header_4g.encode.length = 52 := by decide

set_option maxRecDepth 100000 in
theorem header_4g_decode_encode : Elf32_Ehdr.decode header_4g.encode = header_4g := by
  decide

theorem shdr_zero_encode_length : Elf32_Shdr.zero.encode.length = 40 := by decide

theorem shdr_progbits_52_8_encode_length : (shdr_progbits 52 8).encode.length = 40 := by
  decide

theorem padding_4g_length : padding_4g.length = 4294967204 := by
  unfold padding_4g
  exact List.length_replicate _ _

theorem file_4g_length : file_4g.length = 4294967336 := by
  unfold file_4g
  rw [List.length_append, List.length_append, List.length_append, header_4g_encode_length,
    padding_4g_length, shdr_zero_encode_length, shdr_progbits_52_8_encode_length]

theorem file_4g_take_52 : file_4g.take 52 = header_4g.encode := by
  unfold file_4g
  exact List.take_left' header_4g_encode_length

theorem file_4g_bytes_at_0 : file_bytes file_4g 0 40 = header_4g.encode.take 40 := by
  unfold file_bytes file_4g
  rw [List.drop_zero, List.take_append_of_le_length (by rw [header_4g_encode_length]; norm_num)]

theorem file_4g_bytes_at_shoff :
    file_bytes file_4g 4294967256 40 = Elf32_Shdr.zero.encode := by
  unfold file_bytes file_4g
  rw [← List.append_assoc, List.drop_left' (by
    rw [List.length_append, header_4g_encode_length, padding_4g_length])]
  exact List.take_left' shdr_zero_encode_length

theorem file_4g_bytes_at_2_pow_32 :
    file_bytes file_4g 4294967296 40 = (shdr_progbits 52 8).encode := by
  unfold file_bytes file_4g
  rw [← List.append_assoc, ← List.append_assoc, List.drop_left' (by
    rw [List.length_append, List.length_append, header_4g_encode_length, padding_4g_length,
      shdr_zero_encode_length])]
  exact List.take_of_length_le (by rw [shdr_progbits_52_8_encode_length])

/-- The object after `read_header` on `file_4g`. -/
theorem file_4g_after_header :
    (Elf.read_header (Elf.sized file_4g)).1 = .ok () ∧
    (Elf.read_header (Elf.sized file_4g)).2.file_header = header_4g ∧
    (Elf.read_header (Elf.sized file_4g)).2.file.content = file_4g ∧
    (Elf.read_header (Elf.sized file_4g)).2.file.failbit = false ∧
    (Elf.read_header (Elf.sized file_4g)).2.file_size = 4294967336 := by
  have hs := Elf.sized_file file_4g
  have hf : (Elf.sized file_4g).file.failbit = false := by rw [hs.1]
  have hlen : 52 ≤ file_4g.length := by rw [file_4g_length]; norm_num
  have hlen2 : 52 ≤ (Elf.sized file_4g).file.content.length := by rw [hs.1]; exact hlen
  have hh : header_4g = Elf32_Ehdr.decode (file_4g.take 52) := by
    rw [file_4g_take_52, header_4g_decode_encode]
  have hst := Elf.read_header_state (Elf.sized file_4g) hf hlen2
  have hfst := Elf.read_header_sized_fst file_4g header_4g hh hlen
  rw [file_4g_length] at hfst
  rw [if_neg (by decide), if_neg (by decide), if_neg (by decide), if_neg (by decide),
    if_neg (by decide), if_neg (by decide), if_neg (by decide), if_neg (by decide),
    if_neg (by decide), if_neg (by decide)] at hfst
  refine ⟨hfst, ?_, ?_, ?_, ?_⟩
  · rw [hst, Elf.sized_with_header_file_header, ← hh]
  · rw [hst]; simp only [Elf.with_header, hs.1]
  · rw [hst]; simp only [Elf.with_header, hs.1]
  · rw [hst]; simp only [Elf.with_header, hs.2.1, file_4g_length]

set_option maxRecDepth 100000 in
theorem shdr_zero_decode_encode :
    Elf32_Shdr.decode Elf32_Shdr.zero.encode = Elf32_Shdr.zero := by decide

set_option maxRecDepth 100000 in
theorem shdr_progbits_52_8_decode_encode :
    Elf32_Shdr.decode (shdr_progbits 52 8).encode = shdr_progbits 52 8 := by decide

/-- The two section header entries of `file_4g`, as an object holding its header locates
them. -/
theorem file_4g_section_entries (e : Elf) (hh : e.file_header = header_4g)
    (hc : e.file.content = file_4g) :
    e.section_entry 0 = Elf32_Shdr.zero ∧ e.section_entry 1 = shdr_progbits 52 8 ∧
    e.reread_header 0 = Elf32_Shdr.zero ∧ e.reread_header 1 = header_4g_as_shdr := by
  have a0 : header_4g.shoff + 0 * header_4g.shentsize = 4294967256 := by decide
  have a1 : header_4g.shoff + 1 * header_4g.shentsize = 4294967296 := by decide
  have b0 : (header_4g.shoff + 0 * header_4g.shentsize) % 2 ^ 32 = 4294967256 := by decide
  have b1 : (header_4g.shoff + 1 * header_4g.shentsize) % 2 ^ 32 = 0 := by decide
  refine ⟨?_, ?_, ?_, ?_⟩
  · rw [Elf.section_entry, hh, hc, a0, sizeof_Elf32_Shdr, file_4g_bytes_at_shoff,
      shdr_zero_decode_encode]
  · rw [Elf.section_entry, hh, hc, a1, sizeof_Elf32_Shdr, file_4g_bytes_at_2_pow_32,
      shdr_progbits_52_8_decode_encode]
  · rw [Elf.reread_header, hh, hc, b0, sizeof_Elf32_Shdr, file_4g_bytes_at_shoff,
      shdr_zero_decode_encode]
  · rw [Elf.reread_header, hh, hc, b1, sizeof_Elf32_Shdr, file_4g_bytes_at_0,
      header_4g_as_shdr]

/-- The constructor accepts `file_4g`. -/
theorem file_4g_constructed : ∃ e, Elf.construct (some file_4g) = .ok e := by
  obtain ⟨h1, hh, hc, hf, hfs⟩ := file_4g_after_header
  have hent := file_4g_section_entries (Elf.read_header (Elf.sized file_4g)).2 hh hc
  have h2 : ((Elf.read_header (Elf.sized file_4g)).2.read_sections).1 = .ok () := by
    apply Elf.read_sections_run _ hf
    intro i hi
    rw [hh] at hi ⊢
    rw [hc, hfs, file_4g_length]
    have hi2 : i < 2 := hi
    interval_cases i
    · rw [hent.1]
      exact ⟨by decide, by decide⟩
    · rw [hent.2.1]
      exact ⟨by decide, by decide⟩
  obtain ⟨k1, k2, k3, k4, -, -, k7, -⟩ :=
    Elf.read_sections_ok (Elf.read_header (Elf.sized file_4g)).2 h2
  apply Elf.construct_of_stages file_4g h1 h2
  · generalize ((Elf.read_header (Elf.sized file_4g)).2.read_sections).2 = e2
      at k1 k2 k3 k4 k7 ⊢
    have hh2 : e2.file_header = header_4g := by rw [k4, hh]
    have hc2 : e2.file.content = file_4g := by rw [k2, hc]
    have hent2 := file_4g_section_entries e2 hh2 hc2
    have hidx : header_4g.shstrndx < e2.sections.length := by
      rw [k7, hh]; decide
    rw [hh2]
    have hr := Elf.read_section_of_available e2 e2.strings header_4g.shstrndx hidx
      (by rw [k1, hf])
      (by rw [hh2, hc2, file_4g_length]; decide)
      (by
        have : header_4g.shstrndx = 0 := rfl
        rw [this, hent2.2.2.1]
        rfl)
    rw [hr]
  · intro e he
    apply Elf.read_programs_none
    rw [he, hh]
    rfl

/-! ## The header `read_section` reads and the cached table (C19) -/

/-- When `shoff + index * shentsize` is below `2^32`, the header `read_section` reads for
`index` is the entry the header locates at that index, which is the one `read_sections`
has stored. -/
theorem Elf.reread_header_eq_section_entry (e : Elf) (index : Nat)
    (h : e.file_header.shoff + index * e.file_header.shentsize < 2 ^ 32) :
    e.reread_header index = e.section_entry index := by
  rw [Elf.reread_header, Elf.section_entry, Nat.mod_eq_of_lt h]

set_option maxRecDepth 100000 in
/-- C19 (evaluation at the failing input).  The constructor accepts the file `file_4g`
of `2^32 + 40` bytes, whose section header table is at offset `2^32 - 40` with entries
of 40 bytes.  `read_sections`, which keeps the position in an `off_t`, has read the entry
of index 1 at offset `2^32`: the cached `sections[1]` is `shdr_progbits 52 8`.
`read_section` with index 1 computes `shoff + 1 * shentsize` in `unsigned int`, which
is 0, returns normally and leaves as header the first 40 bytes of the file, those of the
file header, decoded as a section header entry: not the cached entry. -/
theorem read_section_header_differs_from_cached :
    ∃ e, Elf.construct (some file_4g) = .ok e ∧
      e.file.content.length = 2 ^ 32 + 40 ∧
      e.file_header.shoff + 1 * e.file_header.shentsize = 2 ^ 32 ∧
      (e.file_header.shoff + 1 * e.file_header.shentsize) % 2 ^ 32 = 0 ∧
      e.sections[1]? = some (shdr_progbits 52 8) ∧
      (e.read_section ElfSection.empty 1).1 = .ok () ∧
      (e.read_section ElfSection.empty 1).2.2.header = header_4g_as_shdr ∧
      header_4g_as_shdr ≠ shdr_progbits 52 8 := by
  obtain ⟨e, he⟩ := file_4g_constructed
  obtain ⟨hc, hf, -, hh, -, hsl, hs, -, -⟩ := Elf.construct_ok file_4g e he
  rw [file_4g_take_52, header_4g_decode_encode] at hh
  have hent := file_4g_section_entries e hh hc
  have hidx : 1 < e.sections.length := by rw [hsl, hh]; decide
  have hr := Elf.read_section_of_available e ElfSection.empty 1 hidx hf
    (by rw [hh, hc, file_4g_length]; decide)
    (by
      rw [hent.2.2.2]
      apply file_bytes_length
      rw [hc, file_4g_length]
      decide)
  refine ⟨e, he, by rw [hc, file_4g_length]; rfl, by rw [hh]; decide, by rw [hh]; decide,
    ?_, by rw [hr], by rw [hr, hent.2.2.2], by decide⟩
  have h1 := (hs 1 (by rw [hh]; decide)).2.2
  rw [hent.2.1] at h1
  exact h1

/-! ## A file of `2^32 - 1` bytes -/

set_option maxRecDepth 100000 in
theorem header_two_sections_encode_length : header_two_sections.encode.length = 52 := by
  decide

set_option maxRecDepth 100000 in
theorem header_two_sections_decode_encode :
    Elf32_Ehdr.decode header_two_sections.encode = header_two_sections := by
  decide

theorem shdr_progbits_last_encode_length :
    (shdr_progbits 4294967295 1).encode.length = 40 := by
  decide

set_option maxRecDepth 100000 in
theorem shdr_progbits_last_decode_encode :
    Elf32_Shdr.decode (shdr_progbits 4294967295 1).encode = shdr_progbits 4294967295 1 := by
  decide

theorem padding_u32_max_length : padding_u32_max.length = 4294967163 := by
  unfold padding_u32_max
  exact List.length_replicate _ _

theorem file_u32_max_length : file_u32_max.length = 4294967295 := by
  unfold file_u32_max
  rw [List.length_append, List.length_append, List.length_append,
    header_two_sections_encode_length, padding_u32_max_length, shdr_zero_encode_length,
    shdr_progbits_last_encode_length]

theorem file_u32_max_take_52 : file_u32_max.take 52 = header_two_sections.encode := by
  unfold file_u32_max
  exact List.take_left' header_two_sections_encode_length

theorem file_u32_max_bytes_at_52 :
    file_bytes file_u32_max 52 40 = Elf32_Shdr.zero.encode := by
  unfold file_bytes file_u32_max
  rw [List.drop_left' header_two_sections_encode_length]
  exact List.take_left' shdr_zero_encode_length

theorem file_u32_max_bytes_at_92 :
    file_bytes file_u32_max 92 40 = (shdr_progbits 4294967295 1).encode := by
  unfold file_bytes file_u32_max
  rw [← List.append_assoc, List.drop_left' (by
    rw [List.length_append, header_two_sections_encode_length, shdr_zero_encode_length])]
  exact List.take_left' shdr_progbits_last_encode_length

/-- The object after `read_header` on `file_u32_max`. -/
theorem file_u32_max_after_header :
    (Elf.read_header (Elf.sized file_u32_max)).1 = .ok () ∧
    (Elf.read_header (Elf.sized file_u32_max)).2.file_header = header_two_sections ∧
    (Elf.read_header (Elf.sized file_u32_max)).2.file.content = file_u32_max ∧
    (Elf.read_header (Elf.sized file_u32_max)).2.file.failbit = false ∧
    (Elf.read_header (Elf.sized file_u32_max)).2.file_size = 4294967295 := by
  have hs := Elf.sized_file file_u32_max
  have hf : (Elf.sized file_u32_max).file.failbit = false := by rw [hs.1]
  have hlen : 52 ≤ file_u32_max.length := by rw [file_u32_max_length]; norm_num
  have hlen2 : 52 ≤ (Elf.sized file_u32_max).file.content.length := by rw [hs.1]; exact hlen
  have hh : header_two_sections = Elf32_Ehdr.decode (file_u32_max.take 52) := by
    rw [file_u32_max_take_52, header_two_sections_decode_encode]
  have hst := Elf.read_header_state (Elf.sized file_u32_max) hf hlen2
  have hfst := Elf.read_header_sized_fst file_u32_max header_two_sections hh hlen
  rw [file_u32_max_length] at hfst
  rw [if_neg (by decide), if_neg (by decide), if_neg (by decide), if_neg (by decide),
    if_neg (by decide), if_neg (by decide), if_neg (by decide), if_neg (by decide),
    if_neg (by decide), if_neg (by decide)] at hfst
  refine ⟨hfst, ?_, ?_, ?_, ?_⟩
  · rw [hst, Elf.sized_with_header_file_header, ← hh]
  · rw [hst]; simp only [Elf.with_header, hs.1]
  · rw [hst]; simp only [Elf.with_header, hs.1]
  · rw [hst]; simp only [Elf.with_header, hs.2.1, file_u32_max_length]

/-- The two section header entries of `file_u32_max`, as an object holding its header
locates them. -/
theorem file_u32_max_section_entries (e : Elf) (hh : e.file_header = header_two_sections)
    (hc : e.file.content = file_u32_max) :
    e.section_entry 0 = Elf32_Shdr.zero ∧
    e.section_entry 1 = shdr_progbits 4294967295 1 ∧
    e.reread_header 0 = Elf32_Shdr.zero := by
  have a0 : header_two_sections.shoff + 0 * header_two_sections.shentsize = 52 := by decide
  have a1 : header_two_sections.shoff + 1 * header_two_sections.shentsize = 92 := by decide
  have b0 : (header_two_sections.shoff + 0 * header_two_sections.shentsize) % 2 ^ 32 = 52 := by
    decide
  refine ⟨?_, ?_, ?_⟩
  · rw [Elf.section_entry, hh, hc, a0, sizeof_Elf32_Shdr, file_u32_max_bytes_at_52,
      shdr_zero_decode_encode]
  · rw [Elf.section_entry, hh, hc, a1, sizeof_Elf32_Shdr, file_u32_max_bytes_at_92,
      shdr_progbits_last_decode_encode]
  · rw [Elf.reread_header, hh, hc, b0, sizeof_Elf32_Shdr, file_u32_max_bytes_at_52,
      shdr_zero_decode_encode]

/-- The constructor accepts `file_u32_max`. -/
theorem file_u32_max_constructed : ∃ e, Elf.construct (some file_u32_max) = .ok e := by
  obtain ⟨h1, hh, hc, hf, hfs⟩ := file_u32_max_after_header
  have hent := file_u32_max_section_entries (Elf.read_header (Elf.sized file_u32_max)).2 hh hc
  have h2 : ((Elf.read_header (Elf.sized file_u32_max)).2.read_sections).1 = .ok () := by
    apply Elf.read_sections_run _ hf
    intro i hi
    rw [hh] at hi ⊢
    rw [hc, hfs, file_u32_max_length]
    have hi2 : i < 2 := hi
    interval_cases i
    · rw [hent.1]
      exact ⟨by decide, by decide⟩
    · rw [hent.2.1]
      exact ⟨by decide, by decide⟩
  obtain ⟨k1, k2, k3, k4, -, -, k7, -⟩ :=
    Elf.read_sections_ok (Elf.read_header (Elf.sized file_u32_max)).2 h2
  apply Elf.construct_of_stages file_u32_max h1 h2
  · generalize ((Elf.read_header (Elf.sized file_u32_max)).2.read_sections).2 = e2
      at k1 k2 k3 k4 k7 ⊢
    have hh2 : e2.file_header = header_two_sections := by rw [k4, hh]
    have hc2 : e2.file.content = file_u32_max := by rw [k2, hc]
    have hent2 := file_u32_max_section_entries e2 hh2 hc2
    have hidx : header_two_sections.shstrndx < e2.sections.length := by
      rw [k7, hh]; decide
    rw [hh2]
    have hr := Elf.read_section_of_available e2 e2.strings header_two_sections.shstrndx hidx
      (by rw [k1, hf])
      (by rw [hh2, hc2, file_u32_max_length]; decide)
      (by
        have : header_two_sections.shstrndx = 0 := rfl
        rw [this, hent2.2.2]
        rfl)
    rw [hr]
  · intro e he
    apply Elf.read_programs_none
    rw [he, hh]
    rfl

/-! ## The per-entry check of `read_sections` at the largest file size (C6) -/

/-- C6 (evaluation at the failing input).  The constructor accepts the file
`file_u32_max` of `2^32 - 1` bytes.  Its second section header entry is of type
`SHT_PROGBITS`, not `SHT_NOBITS`, with `off = 2^32 - 1` and `size = 1`, so
`off + size = file_size + 1`: the one byte of the section is past the end of the file.
The check of `read_sections` adds the two `uint32_t` fields, gets 0, and does not reject
the entry: `read_sections` stores it and the constructor builds the object. -/
theorem read_sections_accepts_extent_one_past_end :
    ∃ e, Elf.construct (some file_u32_max) = .ok e ∧
      e.file_size = 2 ^ 32 - 1 ∧
      e.sections[1]? = some (shdr_progbits 4294967295 1) ∧
      (shdr_progbits 4294967295 1).type ≠ SHT_NOBITS ∧
      (shdr_progbits 4294967295 1).off + (shdr_progbits 4294967295 1).size
        = e.file_size + 1 ∧
      ((shdr_progbits 4294967295 1).off + (shdr_progbits 4294967295 1).size) % 2 ^ 32 = 0 ∧
      (shdr_progbits 4294967295 1).invalid e.file_size = false := by
  obtain ⟨e, he⟩ := file_u32_max_constructed
  obtain ⟨hc, -, hfs, hh, -, -, hs, -, -⟩ := Elf.construct_ok file_u32_max e he
  rw [file_u32_max_take_52, header_two_sections_decode_encode] at hh
  rw [file_u32_max_length] at hfs
  have hent := file_u32_max_section_entries e hh hc
  have h1 := (hs 1 (by rw [hh]; decide)).2.2
  rw [hent.2.1] at h1
  refine ⟨e, he, by rw [hfs]; rfl, h1, by decide, by rw [hfs]; rfl, by decide,
    by rw [hfs]; decide⟩

/-! ## The position of the header `read_section` reads (C16) -/

set_option maxRecDepth 100000 in
/-- C16 (evaluation at the failing input).  The constructor accepts the file `file_4g`,
whose section header table is at offset `2^32 - 40` with two entries of 40 bytes, so
that `shoff + 1 * shentsize = 2^32`; the 40 bytes of the file at that offset decode to
`shdr_progbits 52 8`, a section of 8 bytes.  `read_section` with index 1 returns
normally, but the header it leaves is decoded from the 40 bytes at offset 0, the
position it computes in `unsigned int`, and is not the entry at `shoff + 1 * shentsize`;
the buffer has the one byte that header asks for, not the 8 bytes of the section. -/
theorem read_section_header_not_at_table_position :
    ∃ e, Elf.construct (some file_4g) = .ok e ∧
      1 < e.file_header.shnum ∧
      e.file_header.shoff + 1 * e.file_header.shentsize = 2 ^ 32 ∧
      Elf32_Shdr.decode (file_bytes e.file.content
        (e.file_header.shoff + 1 * e.file_header.shentsize) sizeof_Elf32_Shdr)
          = shdr_progbits 52 8 ∧
      (e.read_section ElfSection.empty 1).1 = .ok () ∧
      (e.read_section ElfSection.empty 1).2.2.header
        = Elf32_Shdr.decode (file_bytes e.file.content 0 sizeof_Elf32_Shdr) ∧
      (e.read_section ElfSection.empty 1).2.2.header ≠ shdr_progbits 52 8 ∧
      (e.read_section ElfSection.empty 1).2.2.buffer.length = 1 ∧
      (shdr_progbits 52 8).size = 8 := by
  obtain ⟨e, he⟩ := file_4g_constructed
  obtain ⟨hc, hf, -, hh, -, hsl, -, -, -⟩ := Elf.construct_ok file_4g e he
  rw [file_4g_take_52, header_4g_decode_encode] at hh
  have hent := file_4g_section_entries e hh hc
  have hidx : 1 < e.sections.length := by rw [hsl, hh]; decide
  have hav : (file_bytes e.file.content (e.reread_header 1).off
      (e.reread_header 1).size).length = (e.reread_header 1).size := by
    rw [hent.2.2.2]
    apply file_bytes_length
    rw [hc, file_4g_length]
    decide
  have hr := Elf.read_section_of_available e ElfSection.empty 1 hidx hf
    (by rw [hh, hc, file_4g_length]; decide) hav
  have h0 : Elf32_Shdr.decode (file_bytes e.file.content 0 sizeof_Elf32_Shdr)
      = header_4g_as_shdr := by
    rw [hc, sizeof_Elf32_Shdr, file_4g_bytes_at_0, header_4g_as_shdr]
  refine ⟨e, he, by rw [hh]; decide, by rw [hh]; decide, hent.2.1, by rw [hr], ?_, ?_, ?_,
    by decide⟩
  · rw [hr, h0, hent.2.2.2]
  · rw [hr, hent.2.2.2]
    simp only []
    decide
  · rw [hr]
    simp only []
    rw [hav, hent.2.2.2]
    decide

/-! ## `read_section` when a read fails -/

/-- `read_section` on a valid index, from a stream that has not failed, when the header
is there but the file ends before the last byte of the section: it throws
"File read error."; the section holds the header read, and its buffer, of `header.size`
bytes, starts with the bytes the file does have from `header.off` on. -/
theorem Elf.read_section_of_short_section (e : Elf) (sect : ElfSection) (index : Nat)
    (hidx : index < e.sections.length) (hf : e.file.failbit = false)
    (hfit : (e.file_header.shoff + index * e.file_header.shentsize) % 2 ^ 32 + 40
      ≤ e.file.content.length)
    (hshort : e.file.content.length - (e.reread_header index).off
      < (e.reread_header index).size) :
    (e.read_section sect index).1 = .error .file_read_error ∧
    (e.read_section sect index).2.1.file.failbit = true ∧
    (e.read_section sect index).2.2.header = e.reread_header index ∧
    (e.read_section sect index).2.2.buffer =
      read_into (List.replicate (e.reread_header index).size 0)
        (file_bytes e.file.content (e.reread_header index).off
          (e.reread_header index).size) := by
  obtain ⟨f, fs, fh, ss, ps, st⟩ := e
  obtain ⟨c, p, fb⟩ := f
  simp only at hidx hf hfit
  subst hf
  unfold Elf.read_section
  simp only [Elf.reread_header, sizeof_Elf32_Shdr, if_neg (Nat.not_le.mpr hidx)] at hshort ⊢
  generalize (fh.shoff + index * fh.shentsize) % 2 ^ 32 = pos at hfit hshort ⊢
  have h40 : ¬ c.length - pos < 40 := by omega
  unfold file_bytes at hshort
  unfold file_bytes
  generalize hhdr : Elf32_Shdr.decode (List.take 40 (List.drop pos c)) = hdr at hshort ⊢
  simp [Elf.read, ifstream.read, ifstream.seekg, h40, hhdr, hshort]

/-- `read_section` on a valid index, from a stream that has not failed, when the file
ends before the last byte of the header: it throws "File read error."; the bytes the
file does have from the position of the header on have replaced the first bytes of the
header of the section, and the buffer is as it was. -/
theorem Elf.read_section_of_short_header (e : Elf) (sect : ElfSection) (index : Nat)
    (hidx : index < e.sections.length) (hf : e.file.failbit = false)
    (hshort : e.file.content.length
      - (e.file_header.shoff + index * e.file_header.shentsize) % 2 ^ 32 < 40) :
    (e.read_section sect index).1 = .error .file_read_error ∧
    (e.read_section sect index).2.1.file.failbit = true ∧
    (e.read_section sect index).2.2.header =
      Elf32_Shdr.decode (read_into sect.header.encode (file_bytes e.file.content
        ((e.file_header.shoff + index * e.file_header.shentsize) % 2 ^ 32) 40)) ∧
    (e.read_section sect index).2.2.buffer = sect.buffer := by
  obtain ⟨f, fs, fh, ss, ps, st⟩ := e
  obtain ⟨c, p, fb⟩ := f
  simp only at hidx hf hshort
  subst hf
  unfold Elf.read_section
  simp only [sizeof_Elf32_Shdr, if_neg (Nat.not_le.mpr hidx)]
  generalize (fh.shoff + index * fh.shentsize) % 2 ^ 32 = pos at hshort ⊢
  unfold file_bytes
  simp [Elf.read, ifstream.read, ifstream.seekg, hshort]
